import Mathlib

/-!
# TinyInfiniTensor: allocator, memory planning and shape utilities

A shallow embedding of

* `src/core/allocator.cc` (`Allocator::alloc`, `Allocator::free`,
  `Allocator::getAlignedSize`, `Allocator::mergeAdjacentBlocks`),
* the allocation phase of `GraphObj::dataMalloc` in `src/core/graph.cc`,
* `infer_broadcast` and `get_real_axis` in `src/utils/operator_utils.cc`.

`size_t` values are natural numbers below `SIZE_MOD = 2 ^ 64`; every `size_t`
operation of the source is followed by an explicit `% SIZE_MOD`.  The
`std::map<size_t, size_t>` of free blocks is a list of `(base, size)` pairs in
ascending key order; the map operations below assume but do not require that
order, and `MapSorted` states it.  A failed `IT_ASSERT` is `none` (allocator)
or `Except.error` (shape utilities).
-/

namespace infini

/-! ## Definitions -/

/-- Modulus of the unsigned 64-bit `size_t` arithmetic. -/
def SIZE_MOD : Nat := 2 ^ 64

/-- The `alignment` member: the constructor sets it to `sizeof(uint64_t)` and
nothing changes it afterwards. -/
def alignment : Nat := 8

/-- The type of `Allocator::free_blocks`: base address to block size, iterated in
ascending base order. -/
abbrev FreeBlocks := List (Nat × Nat)

/-- Keys strictly ascending: the representation invariant of `std::map`. -/
def MapSorted (m : FreeBlocks) : Prop :=
  m.Pairwise (fun p q => p.1 < q.1)

/-- Lookup `m.find(k)`: the mapped value, or `none` for `end()`. -/
def mapFind : FreeBlocks → Nat → Option Nat
  | [], _ => none
  | (k', v') :: rest, k => if k' = k then some v' else mapFind rest k

/-- Assignment `m[k] = v`: overwrite the value of an existing key, otherwise
insert the pair at its place in key order. -/
def mapAssign : FreeBlocks → Nat → Nat → FreeBlocks
  | [], k, v => [(k, v)]
  | (k', v') :: rest, k, v =>
    if k < k' then (k, v) :: (k', v') :: rest
    else if k = k' then (k, v) :: rest
    else (k', v') :: mapAssign rest k v

/-- Removal `m.erase(k)`. -/
def mapErase : FreeBlocks → Nat → FreeBlocks
  | [], _ => []
  | (k', v') :: rest, k => if k' = k then rest else (k', v') :: mapErase rest k

/-- State of an `Allocator`; `ptr = none` is `nullptr` (buffer not materialized). -/
structure Allocator where
  used : Nat
  peak : Nat
  ptr : Option Nat
  free_blocks : FreeBlocks
deriving DecidableEq, Repr

/-- The constructor `Allocator::Allocator`: `used = 0`, `peak = 0`, `ptr = nullptr`,
no free block. -/
def Allocator.fresh : Allocator :=
  { used := 0, peak := 0, ptr := none, free_blocks := [] }

/-- The function `Allocator::getAlignedSize`:
`((size - 1) / alignment + 1) * alignment` over `size_t`. -/
def getAlignedSize (size : Nat) : Nat :=
  (((size + SIZE_MOD - 1) % SIZE_MOD) / alignment + 1) * alignment % SIZE_MOD

/-- The scan of `Allocator::alloc`: the first block, in ascending base order, whose
size is at least `size`. -/
def firstFit : FreeBlocks → Nat → Option (Nat × Nat)
  | [], _ => none
  | (block_addr, block_size) :: rest, size =>
    if block_size ≥ size then some (block_addr, block_size) else firstFit rest size

/-- The function `Allocator::alloc`; `none` when `IT_ASSERT(ptr == nullptr)` fails,
otherwise the returned offset and the new state. -/
def Allocator.alloc (a : Allocator) (size : Nat) : Option (Nat × Allocator) :=
  if a.ptr ≠ none then none
  else
    let size := getAlignedSize size
    match firstFit a.free_blocks size with
    | some (block_addr, block_size) =>
      let remaining_size := block_size - size
      let fb1 :=
        if remaining_size > 0 then
          mapAssign a.free_blocks ((block_addr + size) % SIZE_MOD) remaining_size
        else a.free_blocks
      let fb2 := mapErase fb1 block_addr
      let used := (a.used + size) % SIZE_MOD
      let peak := if used > a.peak then used else a.peak
      some (block_addr, { a with free_blocks := fb2, used := used, peak := peak })
    | none =>
      let new_addr := a.used
      let used := (a.used + size) % SIZE_MOD
      let peak := if used > a.peak then used else a.peak
      some (new_addr, { a with used := used, peak := peak })

/-- First half of `Allocator::mergeAdjacentBlocks`: look up a block based at
`addr - 1` and, when it ends at `addr`, merge the block at `addr` into it.  Returns
the map with the updated parameters `addr` and `size`. -/
def mergePrev (fb : FreeBlocks) (addr size : Nat) : FreeBlocks × Nat × Nat :=
  let prev_addr := (addr + SIZE_MOD - 1) % SIZE_MOD
  match mapFind fb prev_addr with
  | some prev_size =>
    if (prev_addr + prev_size) % SIZE_MOD = addr then
      let new_size := (prev_size + size) % SIZE_MOD
      (mapErase (mapAssign fb prev_addr new_size) addr, prev_addr, new_size)
    else (fb, addr, size)
  | none => (fb, addr, size)

/-- Second half of `Allocator::mergeAdjacentBlocks`: look up a block based at
`addr + size` and merge it into the block at `addr`. -/
def mergeNext (fb : FreeBlocks) (addr size : Nat) : FreeBlocks :=
  match mapFind fb ((addr + size) % SIZE_MOD) with
  | some next_size =>
    let new_size := (size + next_size) % SIZE_MOD
    mapErase (mapAssign fb addr new_size) ((addr + size) % SIZE_MOD)
  | none => fb

/-- The function `Allocator::mergeAdjacentBlocks` on the free-block map. -/
def mergeAdjacentBlocks (fb : FreeBlocks) (addr size : Nat) : FreeBlocks :=
  let st := mergePrev fb addr size
  mergeNext st.1 st.2.1 st.2.2

/-- The function `Allocator::free`; `none` when `IT_ASSERT(ptr == nullptr)` fails. -/
def Allocator.free (a : Allocator) (addr size : Nat) : Option Allocator :=
  if a.ptr ≠ none then none
  else
    let size := getAlignedSize size
    let fb := mapAssign a.free_blocks addr size
    let fb := mergeAdjacentBlocks fb addr size
    some { a with free_blocks := fb, used := (a.used + SIZE_MOD - size) % SIZE_MOD }

/-- The function `Allocator::getPtr`: on the first call ask the runtime for `peak`
bytes; `runtimeAlloc` stands for the external `runtime->alloc`, `none` for a null
pointer. -/
def Allocator.getPtr (a : Allocator) (runtimeAlloc : Nat → Option Nat) :
    Option Nat × Allocator :=
  match a.ptr with
  | none => (runtimeAlloc a.peak, { a with ptr := runtimeAlloc a.peak })
  | some p => (some p, a)

/-- Guard on an `alloc` step of a call history. -/
abbrev AllocGuard := Allocator → Nat → Prop

/-- Every `alloc` call is admitted. -/
def anyAlloc : AllocGuard := fun _ _ => True

/-- Only `alloc` calls that do not wrap the 64-bit counter `used` are admitted. -/
def noWrapAlloc : AllocGuard := fun a size => a.used + getAlignedSize size < SIZE_MOD

/-- Call histories of an allocator.  `ReachG g a live`: state `a` is reached from
the freshly constructed allocator by `alloc` calls admitted by `g` and by `free`
calls that pass a pair `(addr, size)` handed out by an earlier `alloc` and not
yet freed; `live` lists the pairs handed out and not yet freed. -/
inductive ReachG (g : AllocGuard) : Allocator → List (Nat × Nat) → Prop
  | init : ReachG g Allocator.fresh []
  | alloc {a a1 : Allocator} {live : List (Nat × Nat)} {size addr : Nat} :
      ReachG g a live → size < SIZE_MOD → g a size →
      a.alloc size = some (addr, a1) → ReachG g a1 ((addr, size) :: live)
  | free {a a1 : Allocator} {live : List (Nat × Nat)} {addr size : Nat} :
      ReachG g a live → (addr, size) ∈ live →
      a.free addr size = some a1 → ReachG g a1 (live.erase (addr, size))

/-- Reachable allocator states with their live blocks, any `alloc` admitted. -/
abbrev Reach : Allocator → List (Nat × Nat) → Prop := ReachG anyAlloc

/-- What `GraphObj::dataMalloc` reads of a tensor: the object address
(`tensor.get()`, the key of `allocated_tensors`) and the value of `getBytes()`. -/
structure TensorObj where
  ptr : Nat
  bytes : Nat
deriving DecidableEq, Repr

/-- First phase of `GraphObj::dataMalloc`: the loop over `tensors`.  A null
reference (`none`) and a tensor already in `allocated_tensors` are skipped; every
other tensor gets `allocator.alloc(getBytes())`, recorded in `tensor_offsets`. -/
def dataMallocLoop : List (Option TensorObj) → Allocator → List Nat →
    List (TensorObj × Nat) → Option (Allocator × List (TensorObj × Nat))
  | [], a, _, tensor_offsets => some (a, tensor_offsets)
  | none :: rest, a, allocated_tensors, tensor_offsets =>
    dataMallocLoop rest a allocated_tensors tensor_offsets
  | some tensor :: rest, a, allocated_tensors, tensor_offsets =>
    if tensor.ptr ∈ allocated_tensors then
      dataMallocLoop rest a allocated_tensors tensor_offsets
    else
      match a.alloc tensor.bytes with
      | none => none
      | some (offset, a1) =>
        dataMallocLoop rest a1 (tensor.ptr :: allocated_tensors)
          (tensor_offsets ++ [(tensor, offset)])

/-- Result of `GraphObj::dataMalloc`: the allocator, `tensor_offsets`, and the blob
address bound to each tensor. -/
structure DataMallocResult where
  allocator : Allocator
  tensor_offsets : List (TensorObj × Nat)
  blobs : List (TensorObj × Nat)
deriving Repr

/-- The function `GraphObj::dataMalloc`.  `topo_ok` is the value of `topo_sort()`
(asserted true), `runtimeAlloc` the external `runtime->alloc`. -/
def dataMalloc (topo_ok : Bool) (runtimeAlloc : Nat → Option Nat) (allocator : Allocator)
    (tensors : List (Option TensorObj)) : Option DataMallocResult :=
  if topo_ok = false then none
  else
    match dataMallocLoop tensors allocator [] [] with
    | none => none
    | some (a1, tensor_offsets) =>
      let r := a1.getPtr runtimeAlloc
      let blobs :=
        match r.1 with
        | some base_ptr => tensor_offsets.map (fun p => (p.1, base_ptr + p.2))
        | none => []
      some { allocator := r.2, tensor_offsets := tensor_offsets, blobs := blobs }

/-- The distinct non-null tensors of `tensors` in insertion order (first
occurrence of each object), given the addresses `seen` met before. -/
def distinctTensors : List (Option TensorObj) → List Nat → List TensorObj
  | [], _ => []
  | none :: rest, seen => distinctTensors rest seen
  | some t :: rest, seen =>
    if t.ptr ∈ seen then distinctTensors rest seen
    else t :: distinctTensors rest (t.ptr :: seen)

/-- Running sums: the `i`-th entry is `start` plus the sum of the first `i` entries
of the list. -/
def prefixSums : Nat → List Nat → List Nat
  | _, [] => []
  | start, x :: xs => start :: prefixSums (start + x) xs

/-- A `Shape` is a `std::vector<int>`. -/
abbrev Shape := List Int

/-- The assertions of `operator_utils.cc` that can fail. -/
inductive Exception where
  | cannotBroadcast
  | rankAssert
  | axisAssert
deriving DecidableEq, Repr

/-- The loop of `infer_broadcast` over the aligned shapes `local_A`, `local_B`
(both of length `max_rank`), axis by axis from index 0. -/
def broadcastLoop : List Int → List Int → Except Exception (List Int)
  | dim_A :: restA, dim_B :: restB =>
    if dim_A = dim_B then (broadcastLoop restA restB).map (fun r => dim_A :: r)
    else if dim_A = 1 then (broadcastLoop restA restB).map (fun r => dim_B :: r)
    else if dim_B = 1 then (broadcastLoop restA restB).map (fun r => dim_A :: r)
    else Except.error Exception.cannotBroadcast
  | _, _ => Except.ok []

/-- The function `infer_broadcast`.  The ranks `rank_A`, `rank_B`, `max_rank` are
vector sizes held in an `int`; they are natural numbers here. -/
def infer_broadcast (A B : Shape) : Except Exception Shape :=
  if A.isEmpty then Except.ok B
  else if B.isEmpty then Except.ok A
  else
    let rank_A := A.length
    let rank_B := B.length
    let max_rank := max rank_A rank_B
    let local_A := if rank_A < max_rank then List.replicate (max_rank - rank_A) 1 ++ A else A
    let local_B := if rank_B < max_rank then List.replicate (max_rank - rank_B) 1 ++ B else B
    broadcastLoop local_A local_B

/-- The function `get_real_axis`; the two `IT_ASSERT`s fail in source order.  For
`rank ≥ 1` and 32-bit inputs none of `-rank`, `rank - 1`, `rank + axis` overflows. -/
def get_real_axis (axis rank : Int) : Except Exception Int :=
  if ¬ (rank ≥ 1) then Except.error Exception.rankAssert
  else if ¬ (axis ≥ -rank ∧ axis ≤ rank - 1) then Except.error Exception.axisAssert
  else if axis < 0 then Except.ok (rank + axis)
  else Except.ok axis

/-- Right-aligned operand of a broadcast: `S` padded with leading 1s to length `n`. -/
def padShape (n : Nat) (S : Shape) : Shape :=
  List.replicate (n - S.length) 1 ++ S

/-- The attributes of a `MatmulObj`: the transpose flags and the cached `m`, `n`,
`k` (all three 0 after construction). -/
structure MatmulObj where
  transA : Bool
  transB : Bool
  m : Int
  n : Int
  k : Int
deriving DecidableEq, Repr

/-- The call `std::swap(v[i], v[j])` on a vector. -/
def swapAt (v : Shape) (i j : Nat) : Shape :=
  (v.set i (v.getD j 0)).set j (v.getD i 0)

/-- The function `MatmulObj::inferShape`.  An input is the result of `getDims()`,
or `none` for a null tensor.  Returns the optional list of shapes and the operator
with its cached `m`, `n`, `k` (assigned only on the successful path).  The
`try`/`catch` around the batch broadcast turns a failed assertion of
`infer_broadcast` into `std::nullopt`. -/
def MatmulObj.inferShape (op : MatmulObj) (inputs : List (Option Shape)) :
    Option (List Shape) × MatmulObj :=
  if inputs.length ≠ 2 then (none, op)
  else
    match inputs with
    | [some shapeA, some shapeB] =>
      if shapeA.length < 2 ∨ shapeB.length < 2 then (none, op)
      else
        let effectiveA :=
          if op.transA = true ∧ shapeA.length ≥ 2 then
            swapAt shapeA (shapeA.length - 2) (shapeA.length - 1)
          else shapeA
        let effectiveB :=
          if op.transB = true ∧ shapeB.length ≥ 2 then
            swapAt shapeB (shapeB.length - 2) (shapeB.length - 1)
          else shapeB
        let rankA := effectiveA.length
        let rankB := effectiveB.length
        let m := effectiveA.getD (rankA - 2) 0
        let k_A := effectiveA.getD (rankA - 1) 0
        let k_B := effectiveB.getD (rankB - 2) 0
        let n := effectiveB.getD (rankB - 1) 0
        if k_A ≠ k_B then (none, op)
        else
          let batchA := shapeA.take (shapeA.length - 2)
          let batchB := shapeB.take (shapeB.length - 2)
          let resultBatch : Option Shape :=
            if batchA.isEmpty ∧ batchB.isEmpty then some []
            else if batchA.isEmpty then some batchB
            else if batchB.isEmpty then some batchA
            else
              match infer_broadcast batchA batchB with
              | Except.ok r => some r
              | Except.error _ => none
          match resultBatch with
          | none => (none, op)
          | some rb => (some [rb ++ [m, n]], { op with m := m, n := n, k := k_A })
    | _ => (none, op)

/-- The last two axes `(S[rank-2], S[rank-1])` of a shape of rank at least 2. -/
def lastTwo (S : Shape) : Int × Int :=
  (S.getD (S.length - 2) 0, S.getD (S.length - 1) 0)

/-- The effective matrix dimensions of an operand: its last two axes, swapped when
the transpose flag is set. -/
def matDims (S : Shape) (trans : Bool) : Int × Int :=
  if trans then ((lastTwo S).2, (lastTwo S).1) else lastTwo S

/-- The batch axes of an operand: all axes before the last two. -/
def batchDims (S : Shape) : Shape :=
  S.take (S.length - 2)

/-- The attribute of a `ConcatObj`: the axis `dim` stored by the constructor. -/
structure ConcatObj where
  dim : Int
deriving DecidableEq, Repr

/-- The three assertions of `ConcatObj::inferShape`. -/
inductive ConcatAssert where
  | dimOutOfRange
  | rankMismatch
  | shapeMismatch
deriving DecidableEq, Repr

/-- Conversion of an integer value to `int` (32 bits, two's complement): the value
modulo `2 ^ 32` in `[-2 ^ 31, 2 ^ 31)`. -/
def toInt32 (x : Int) : Int :=
  (x + 2 ^ 31) % 2 ^ 32 - 2 ^ 31

/-- The inner loop of `ConcatObj::inferShape` for one input: every axis `j` of
`0 .. rank - 1` other than `dim` has `dims[j] == other[j]`. -/
def concatAxesAgree (dims other : Shape) (dim : Int) (rank : Nat) : Bool :=
  (List.range rank).all (fun j => decide ((j : Int) = dim) || decide (dims.getD j 0 = other.getD j 0))

/-- The outer loop of `ConcatObj::inferShape` over `inputs[1..]`, carrying
`concat_size`.  The sum `concat_size += ...` is an `int` sum: it is taken modulo
`2 ^ 32` (two's complement), so it is exact whenever it fits in an `int`. -/
def concatLoop (dims : Shape) (dim : Int) (rank : Nat) :
    List Shape → Int → Except ConcatAssert Int
  | [], concat_size => Except.ok concat_size
  | other :: rest, concat_size =>
    if other.length ≠ rank then Except.error ConcatAssert.rankMismatch
    else if concatAxesAgree dims other dim rank = false then
      Except.error ConcatAssert.shapeMismatch
    else concatLoop dims dim rank rest (toInt32 (concat_size + other.getD dim.toNat 0))

/-- The function `ConcatObj::inferShape` on the shapes of its inputs (the inputs are
dereferenced without a null check).  `Except.error` is a failed `IT_ASSERT`,
`Except.ok none` is `std::nullopt`. -/
def ConcatObj.inferShape (op : ConcatObj) (inputs : List Shape) :
    Except ConcatAssert (Option (List Shape)) :=
  match inputs with
  | [] => Except.ok none
  | dims :: rest =>
    let rank := dims.length
    if ¬ (op.dim > 0 ∧ op.dim < (rank : Int)) then Except.error ConcatAssert.dimOutOfRange
    else
      match concatLoop dims op.dim rank rest (dims.getD op.dim.toNat 0) with
      | Except.error e => Except.error e
      | Except.ok concat_size => Except.ok (some [dims.set op.dim.toNat concat_size])

/-- The fields of a `TensorObj` that the graph reads and writes: its `fuid`, its
shape, its source operator (`none` for `nullptr`) and its target operators.
Operators and tensors are named by the addresses of their objects. -/
structure TensorNode where
  fuid : Nat
  dims : Shape
  source : Option Nat
  targets : List Nat
deriving DecidableEq, Repr

/-- The kind of an operator with its attributes; only Matmul, Transpose and Concat
are in view. -/
inductive OpAttrs where
  | matmul (a : MatmulObj)
  | transpose (perm : List Int)
  | concat (c : ConcatObj)
deriving DecidableEq, Repr

/-- The fields of an `OperatorObj`: kind and attributes, input and output tensors
(`none` for a null reference), predecessor and successor operators. -/
structure OperatorObj where
  attrs : OpAttrs
  inputs : List (Option Nat)
  outputs : List (Option Nat)
  predecessors : List Nat
  successors : List Nat
deriving DecidableEq, Repr

/-- State of a `GraphObj`: the vectors `tensors` and `ops`, the flag `sorted`, and
the objects behind the references (`tensorAt`, `opAt`: address to object). -/
structure GraphObj where
  tensors : List Nat
  ops : List Nat
  sorted : Bool
  tensorAt : Nat → TensorNode
  opAt : Nat → OperatorObj

/-- Write to the tensor object at address `t`. -/
def GraphObj.setTensor (g : GraphObj) (t : Nat) (v : TensorNode) : GraphObj :=
  { g with tensorAt := Function.update g.tensorAt t v }

/-- Write to the operator object at address `op`. -/
def GraphObj.setOp (g : GraphObj) (op : Nat) (v : OperatorObj) : GraphObj :=
  { g with opAt := Function.update g.opAt op v }

/-- The test of `std::all_of` in `GraphObj::topo_sort`: every input has a null
source or a source in `flags`.  It stops at the first input that fails; `none` is
the dereference of a null input. -/
def allSourcesFlagged (g : GraphObj) (flags : List Nat) : List (Option Nat) → Option Bool
  | [] => some true
  | none :: _ => none
  | some input :: rest =>
    match (g.tensorAt input).source with
    | none => allSourcesFlagged g flags rest
    | some ptr => if ptr ∈ flags then allSourcesFlagged g flags rest else some false

/-- One pass of the `for` loop of `GraphObj::topo_sort` over the operators still to
scan, on the state `(sorted, flags, modified)`. -/
def topoPass (g : GraphObj) :
    List Nat → List Nat × List Nat × Bool → Option (List Nat × List Nat × Bool)
  | [], st => some st
  | op :: rest, (sorted, flags, modified) =>
    if op ∈ flags then topoPass g rest (sorted, flags, modified)
    else
      match allSourcesFlagged g flags (g.opAt op).inputs with
      | none => none
      | some true => topoPass g rest (sorted ++ [op], op :: flags, true)
      | some false => topoPass g rest (sorted, flags, modified)

/-- The `while` loop of `GraphObj::topo_sort`.  The result is `some (some sorted)`
when the loop ends, `some none` for `return false`, `none` for a null dereference
(or when `fuel` passes are not enough; `topo_sort` gives `ops.size()` of them, and
every pass that does not return places an operator). -/
def topoLoop (g : GraphObj) : Nat → List Nat → List Nat → Option (Option (List Nat))
  | fuel, sorted, flags =>
    if ¬ (sorted.length < g.ops.length) then some (some sorted)
    else
      match fuel with
      | 0 => none
      | fuel + 1 =>
        match topoPass g g.ops (sorted, flags, false) with
        | none => none
        | some (sorted1, flags1, modified) =>
          if modified = false then some none
          else topoLoop g fuel sorted1 flags1

/-- The function `GraphObj::topo_sort`: the returned flag and the new state. -/
def topo_sort (g : GraphObj) : Option (Bool × GraphObj) :=
  if g.sorted = true then some (true, g)
  else
    match topoLoop g g.ops.length [] [] with
    | none => none
    | some none => some (false, g)
    | some (some sorted) => some (true, { g with ops := sorted, sorted := true })

/-- Operator `p` produces a tensor consumed by operator `q` of the graph: some
input of `q` has source `p`. -/
def Feeds (g : GraphObj) (p q : Nat) : Prop :=
  q ∈ g.ops ∧ ∃ t, some t ∈ (g.opAt q).inputs ∧ (g.tensorAt t).source = some p

/-- All input sources of `op` are among the operators `placed`. -/
def Ready (g : GraphObj) (placed : List Nat) (op : Nat) : Prop :=
  ∀ t, some t ∈ (g.opAt op).inputs → ∀ p, (g.tensorAt t).source = some p → p ∈ placed

/-- Operator `op` of the graph can be placed next: it is not yet placed and all its
input sources are. -/
def Placeable (g : GraphObj) (placed : List Nat) (op : Nat) : Prop :=
  op ∈ g.ops ∧ op ∉ placed ∧ Ready g placed op

/-- A sequence of operators is in topological order: every input source of an
operator occurs before the operator. -/
def TopoOrdered (g : GraphObj) (S : List Nat) : Prop :=
  ∀ l1 op l2, S = l1 ++ op :: l2 → Ready g l1 op

/-- A tensor object with the given source and targets (fuid 0, scalar shape), for
the example graphs. -/
def exampleTensor (source : Option Nat) (targets : List Nat) : TensorNode :=
  { fuid := 0, dims := [], source := source, targets := targets }

/-- An operator object with the given inputs and outputs and no recorded
neighbours, for the example graphs. -/
def exampleOp (inputs outputs : List (Option Nat)) : OperatorObj :=
  { attrs := OpAttrs.concat { dim := 0 }, inputs := inputs, outputs := outputs,
    predecessors := [], successors := [] }

/-- The graph of scenario 5 of the specification: operators X = 1, Y = 2, Z = 3 with
X → Y, X → Z, Y → Z (tensor 10 is the output of X, tensor 20 the output of Y),
inserted in the order Z, Y, X. -/
def graphZYX : GraphObj :=
  { tensors := [10, 20], ops := [3, 2, 1], sorted := false
    tensorAt := fun t =>
      if t = 10 then exampleTensor (some 1) [2, 3]
      else if t = 20 then exampleTensor (some 2) [3]
      else exampleTensor none []
    opAt := fun o =>
      if o = 1 then exampleOp [] [some 10]
      else if o = 2 then exampleOp [some 10] [some 20]
      else if o = 3 then exampleOp [some 10, some 20] []
      else exampleOp [] [] }

/-- Operator `x` is the first placeable operator met by the scan of `topo_sort`
when the operators `S` are placed: `x` is placeable; a placeable operator inserted
before `x` has the last placed operator strictly between itself and `x` in
insertion order (the scan, which continues after the last placed operator, has not
come back to it); and if `x` is inserted before the last placed operator (the scan
has wrapped around to the start of `ops`), no operator inserted after the last
placed one is placeable. -/
def ScanFirst (g : GraphObj) (S : List Nat) (x : Nat) : Prop :=
  Placeable g S x ∧
  (∀ D R, g.ops = D ++ x :: R → ∀ D1 y D2, D = D1 ++ y :: D2 → Placeable g S y →
    ∃ l, S.getLast? = some l ∧ l ∈ D2) ∧
  (∀ l, S.getLast? = some l → ∀ A B, g.ops = A ++ l :: B → x ∈ A →
    ∀ y ∈ B, ¬ Placeable g S y)

/-- A graph with three operators inserted in the order 1, 2, 3, where operator 1
consumes tensor 10 produced by operator 2, and operators 2 and 3 have no inputs. -/
def graphLateSource : GraphObj :=
  { tensors := [10], ops := [1, 2, 3], sorted := false
    tensorAt := fun t => if t = 10 then exampleTensor (some 2) [1] else exampleTensor none []
    opAt := fun o =>
      if o = 1 then exampleOp [some 10] []
      else if o = 2 then exampleOp [] [some 10]
      else exampleOp [] [] }

/-- A graph with a cycle: operator 1 consumes tensor 20 produced by operator 2, and
operator 2 consumes tensor 10 produced by operator 1. -/
def graphCycle : GraphObj :=
  { tensors := [10, 20], ops := [1, 2], sorted := false
    tensorAt := fun t =>
      if t = 10 then exampleTensor (some 1) [2]
      else if t = 20 then exampleTensor (some 2) [1]
      else exampleTensor none []
    opAt := fun o =>
      if o = 1 then exampleOp [some 20] [some 10]
      else if o = 2 then exampleOp [some 10] [some 20]
      else exampleOp [] [] }

/-- Modelled from the spec: `TensorObj::addTarget` (tensor.h is not among the
sources).  "`add_target` is idempotent on repeated insertion of the same operator
but preserves insertion order for new ones." -/
def TensorNode.addTarget (t : TensorNode) (op : Nat) : TensorNode :=
  if op ∈ t.targets then t else { t with targets := t.targets ++ [op] }

/-- Modelled from the spec: `TensorObj::removeTarget` (tensor.h is not among the
sources).  "`remove_target` removes all occurrences." -/
def TensorNode.removeTarget (t : TensorNode) (op : Nat) : TensorNode :=
  { t with targets := t.targets.filter (fun q => decide (q ≠ op)) }

/-- Modelled from the spec: `TensorObj::setSource` (tensor.h is not among the
sources), the operation `set_source(Option<Op>)`. -/
def TensorNode.setSource (t : TensorNode) (source : Option Nat) : TensorNode :=
  { t with source := source }

/-- Modelled from the spec: `OperatorObj::addPredecessors` (operator.h is not among
the sources); `predecessors` is the set of producing operators, so an operator
already present is not added again. -/
def OperatorObj.addPredecessors (o : OperatorObj) (p : Nat) : OperatorObj :=
  if p ∈ o.predecessors then o else { o with predecessors := o.predecessors ++ [p] }

/-- Modelled from the spec: `OperatorObj::addSuccessors` (operator.h is not among
the sources); `successors` is the set of consuming operators. -/
def OperatorObj.addSuccessors (o : OperatorObj) (s : Nat) : OperatorObj :=
  if s ∈ o.successors then o else { o with successors := o.successors ++ [s] }

/-- Modelled from the spec: `OperatorObj::removePredecessors` (operator.h is not
among the sources): the operator is taken out of the set `predecessors`. -/
def OperatorObj.removePredecessors (o : OperatorObj) (p : Nat) : OperatorObj :=
  { o with predecessors := o.predecessors.filter (fun q => decide (q ≠ p)) }

/-- Modelled from the spec: `OperatorObj::removeSuccessors` (operator.h is not among
the sources): the operator is taken out of the set `successors`. -/
def OperatorObj.removeSuccessors (o : OperatorObj) (s : Nat) : OperatorObj :=
  { o with successors := o.successors.filter (fun q => decide (q ≠ s)) }

/-- First loop of `GraphObj::addOperatorAndConnect`, over the inputs of `op`. -/
def connectInputs (op : Nat) : List (Option Nat) → GraphObj → GraphObj
  | [], g => g
  | none :: rest, g => connectInputs op rest g
  | some input :: rest, g =>
    let g1 := g.setTensor input ((g.tensorAt input).addTarget op)
    let g2 :=
      match (g1.tensorAt input).source with
      | some pred =>
        let g3 := g1.setOp pred ((g1.opAt pred).addSuccessors op)
        g3.setOp op ((g3.opAt op).addPredecessors pred)
      | none => g1
    connectInputs op rest g2

/-- Inner loop of the second loop of `GraphObj::addOperatorAndConnect`, over the
targets of one output. -/
def linkTargets (op : Nat) : List Nat → GraphObj → GraphObj
  | [], g => g
  | succ :: rest, g =>
    let g1 := g.setOp succ ((g.opAt succ).addPredecessors op)
    let g2 := g1.setOp op ((g1.opAt op).addSuccessors succ)
    linkTargets op rest g2

/-- Second loop of `GraphObj::addOperatorAndConnect`, over the outputs of `op`. -/
def connectOutputs (op : Nat) : List (Option Nat) → GraphObj → GraphObj
  | [], g => g
  | none :: rest, g => connectOutputs op rest g
  | some output :: rest, g =>
    let g1 := g.setTensor output ((g.tensorAt output).setSource (some op))
    let g2 := linkTargets op (g1.tensorAt output).targets g1
    connectOutputs op rest g2

/-- The function `GraphObj::addOperatorAndConnect` for the operator object at
address `op`. -/
def addOperatorAndConnect (g : GraphObj) (op : Nat) : GraphObj :=
  let g0 : GraphObj := { g with sorted := false, ops := g.ops ++ [op] }
  let g1 := connectInputs op (g0.opAt op).inputs g0
  connectOutputs op (g1.opAt op).outputs g1

/-- First loop of `GraphObj::removeOperator`: `input->removeTarget(op)`. -/
def removeTargets (op : Nat) : List (Option Nat) → GraphObj → GraphObj
  | [], g => g
  | none :: rest, g => removeTargets op rest g
  | some input :: rest, g =>
    removeTargets op rest (g.setTensor input ((g.tensorAt input).removeTarget op))

/-- Second loop of `GraphObj::removeOperator`: `output->setSource(nullptr)`. -/
def clearSources : List (Option Nat) → GraphObj → GraphObj
  | [], g => g
  | none :: rest, g => clearSources rest g
  | some output :: rest, g =>
    clearSources rest (g.setTensor output ((g.tensorAt output).setSource none))

/-- Third loop of `GraphObj::removeOperator`: `pred->removeSuccessors(op)`. -/
def unlinkPredecessors (op : Nat) : List Nat → GraphObj → GraphObj
  | [], g => g
  | pred :: rest, g =>
    unlinkPredecessors op rest (g.setOp pred ((g.opAt pred).removeSuccessors op))

/-- Fourth loop of `GraphObj::removeOperator`: `succ->removePredecessors(op)`. -/
def unlinkSuccessors (op : Nat) : List Nat → GraphObj → GraphObj
  | [], g => g
  | succ :: rest, g =>
    unlinkSuccessors op rest (g.setOp succ ((g.opAt succ).removePredecessors op))

/-- The function `GraphObj::removeOperator`.  The copies `predecessors` and
`successors` are read where the source reads them. -/
def removeOperator (g : GraphObj) (op : Nat) : GraphObj :=
  let g1 := removeTargets op (g.opAt op).inputs g
  let g2 := clearSources (g1.opAt op).outputs g1
  let g3 := unlinkPredecessors op (g2.opAt op).predecessors g2
  let g4 := unlinkSuccessors op (g3.opAt op).successors g3
  { g4 with ops := g4.ops.erase op }

/-- The function `GraphObj::removeTensor`. -/
def removeTensor (g : GraphObj) (tensor : Nat) : GraphObj :=
  { g with tensors := g.tensors.erase tensor }

/-- The function `GraphObj::addTensor(Shape, DataType)`: a new tensor object, with no
source and no targets, is appended to `tensors`.  `ptr` is the address of the new
object and `fuid` the identifier its constructor draws. -/
def addTensor (g : GraphObj) (ptr fuid : Nat) (dim : Shape) : GraphObj :=
  { (g.setTensor ptr { fuid := fuid, dims := dim, source := none, targets := [] }) with
    tensors := g.tensors ++ [ptr] }

/-- Graph `g1` keeps everything of `g` except that target, predecessor and successor
lists may have gained entries and sources may have changed. -/
def Extends (g g1 : GraphObj) : Prop :=
  g1.ops = g.ops ∧ g1.tensors = g.tensors ∧ g1.sorted = g.sorted ∧
  (∀ t, (g1.tensorAt t).fuid = (g.tensorAt t).fuid ∧
    (g1.tensorAt t).dims = (g.tensorAt t).dims ∧
    ∀ x, x ∈ (g.tensorAt t).targets → x ∈ (g1.tensorAt t).targets) ∧
  (∀ q, (g1.opAt q).attrs = (g.opAt q).attrs ∧ (g1.opAt q).inputs = (g.opAt q).inputs ∧
    (g1.opAt q).outputs = (g.opAt q).outputs ∧
    (∀ x, x ∈ (g.opAt q).predecessors → x ∈ (g1.opAt q).predecessors) ∧
    (∀ x, x ∈ (g.opAt q).successors → x ∈ (g1.opAt q).successors))

/-- The function `GraphObj::getTensor`: the first tensor of `tensors` with the given
fuid, `none` for `nullptr`. -/
def getTensor (g : GraphObj) (fuid : Nat) : Option Nat :=
  g.tensors.find? (fun tensor => decide ((g.tensorAt tensor).fuid = fuid))

/-- Modelled from the spec: `TensorObj::setShape` (tensor.h is not among the
sources), the operation `set_shape(Shape)`. -/
def TensorNode.setShape (t : TensorNode) (shape : Shape) : TensorNode :=
  { t with dims := shape }

/-- Modelled from the spec: `TransposeObj::inferShape` (transpose.cc is not among the
sources).  "Inference: apply `perm` to input shape."  A null input gives no
shape. -/
def transposeInferShape (perm : List Int) (inputs : List (Option Shape)) :
    Option (List Shape) :=
  match inputs with
  | some A :: _ => some [perm.map (fun p => A.getD p.toNat 0)]
  | _ => none

/-- Modelled from the spec: `OperatorObj::inferShape()` (operator.cc is not among the
sources), the call `infer_shape(inputs)` of the operator's kind on its current
inputs.  The result is the list of shapes with the attributes after the call;
`none` stands for `std::nullopt`, a failed assertion and a null dereference
alike, each of which ends `shape_infer`. -/
def inferShapeOf (g : GraphObj) (op : Nat) : Option (List Shape × OpAttrs) :=
  let shapes := (g.opAt op).inputs.map (fun i => i.map (fun t => (g.tensorAt t).dims))
  match (g.opAt op).attrs with
  | OpAttrs.matmul a =>
    match (a.inferShape shapes).1 with
    | some ans => some (ans, OpAttrs.matmul (a.inferShape shapes).2)
    | none => none
  | OpAttrs.transpose perm =>
    match transposeInferShape perm shapes with
    | some ans => some (ans, OpAttrs.transpose perm)
    | none => none
  | OpAttrs.concat c =>
    if none ∈ shapes then none
    else
      match c.inferShape (shapes.filterMap id) with
      | Except.ok (some ans) => some (ans, OpAttrs.concat c)
      | _ => none

/-- The inner loop of `GraphObj::shape_infer` over the inferred shapes and the old
outputs of one operator; `none` is a null dereference. -/
def setShapes : List Shape → List (Option Nat) → GraphObj → Option GraphObj
  | [], _, g => some g
  | _ :: _, [], _ => none
  | _ :: _, none :: _, _ => none
  | newShape :: restS, some out :: restO, g =>
    if newShape ≠ (g.tensorAt out).dims then
      match getTensor g (g.tensorAt out).fuid with
      | none => none
      | some tensor =>
        setShapes restS restO (g.setTensor tensor ((g.tensorAt tensor).setShape newShape))
    else setShapes restS restO g

/-- The loop of `GraphObj::shape_infer` over `ops`. -/
def shapeInferLoop : List Nat → GraphObj → Option GraphObj
  | [], g => some g
  | op :: rest, g =>
    match inferShapeOf g op with
    | none => none
    | some (ans, attrs) =>
      let g1 := g.setOp op { (g.opAt op) with attrs := attrs }
      if ans.length ≠ (g1.opAt op).outputs.length then none
      else
        match setShapes ans (g1.opAt op).outputs g1 with
        | none => none
        | some g2 => shapeInferLoop rest g2

/-- The function `GraphObj::shape_infer`; `none` when an assertion fails. -/
def shape_infer (g : GraphObj) : Option GraphObj :=
  shapeInferLoop g.ops g

/-- What `checkValid` asserts: no tensor lacks both source and targets; targets and
sources of tensors are in `ops`; inputs and outputs of operators are tensors of
`tensors`; predecessors and successors are in `ops`; fuids are distinct. -/
def Valid (g : GraphObj) : Prop :=
  (∀ t ∈ g.tensors,
    ¬ ((g.tensorAt t).targets = [] ∧ (g.tensorAt t).source = none) ∧
    (∀ q ∈ (g.tensorAt t).targets, q ∈ g.ops) ∧
    (∀ p ∈ (g.tensorAt t).source, p ∈ g.ops)) ∧
  (∀ q ∈ g.ops,
    (∀ i ∈ (g.opAt q).inputs, ∃ t, i = some t ∧ t ∈ g.tensors) ∧
    (∀ o ∈ (g.opAt q).outputs, ∃ t, o = some t ∧ t ∈ g.tensors) ∧
    (∀ p ∈ (g.opAt q).predecessors, p ∈ g.ops) ∧
    (∀ s ∈ (g.opAt q).successors, s ∈ g.ops)) ∧
  (g.tensors.map (fun t => (g.tensorAt t).fuid)).Nodup

/-- Every entry that the target, predecessor and successor lists of `g1` have beyond
those of `g` satisfies `A`. -/
def Within (A : Nat → Prop) (g g1 : GraphObj) : Prop :=
  (∀ t x, x ∈ (g1.tensorAt t).targets → x ∈ (g.tensorAt t).targets ∨ A x) ∧
  (∀ q x, x ∈ (g1.opAt q).predecessors → x ∈ (g.opAt q).predecessors ∨ A x) ∧
  (∀ q x, x ∈ (g1.opAt q).successors → x ∈ (g.opAt q).successors ∨ A x)

/-- Conversion of an `int` to `size_t`: the value modulo `2 ^ 64`. -/
def toSizeT (x : Int) : Nat :=
  (x % (SIZE_MOD : Int)).toNat

/-- The call `std::div(x, y)` on two `int`s: quotient and remainder of the division
that truncates towards zero; `none` where the source is undefined (zero divisor,
or a quotient that is not an `int`). -/
def stdDiv (x y : Int) : Option (Int × Int) :=
  if y = 0 ∨ (x = -(2 ^ 31) ∧ y = -1) then none
  else some (Int.tdiv x y, Int.tmod x y)

/-- The loop of `locate_index` over the axes from the last to the first; the
remainders are returned in that order.  In `std::div(inputN, *j++)` the `size_t`
argument `inputN` is converted to `int` (the overload `div(int, int)` is the one
selected for a second argument of type `int`), and the quotient is converted back
to `size_t`. -/
def locateLoop : List Int → Nat → Option (List Int)
  | [], _ => some []
  | d :: rest, inputN =>
    match stdDiv (toInt32 (inputN : Int)) d with
    | none => none
    | some (quot, rem) =>
      match locateLoop rest (toSizeT quot) with
      | none => none
      | some ans => some (rem :: ans)

/-- The function `locate_index`: the remainders are written from the back of
`ans`. -/
def locate_index (inputN : Nat) (shape : Shape) : Option Shape :=
  (locateLoop shape.reverse inputN).map List.reverse

/-- The loop of `delocate_index`: `index[i] = shapeIndex[i] % shape[i]` and
`ans += index[i] * stride[i]`, the product taken in `int` and the sum in `size_t`;
`none` where the source is undefined (zero divisor, signed overflow). -/
def delocateLoop : List Int → List Int → List Int → Nat → Option Nat
  | x :: shapeIndex, d :: shape, s :: stride, ans =>
    if d = 0 ∨ (x = -(2 ^ 31) ∧ d = -1) then none
    else if toInt32 (Int.tmod x d * s) ≠ Int.tmod x d * s then none
    else
      delocateLoop shapeIndex shape stride ((ans + toSizeT (Int.tmod x d * s)) % SIZE_MOD)
  | _, _, _, ans => some ans

/-- The function `delocate_index`; `none` when one of the two assertions on the
sizes fails or the loop is undefined. -/
def delocate_index (shapeIndex shape stride : Shape) : Option Nat :=
  if shapeIndex.length ≠ shape.length then none
  else if shape.length ≠ stride.length then none
  else delocateLoop shapeIndex shape stride 0

/-- The row-major strides of a shape: `stride[i]` is the product of `shape[j]` for
`j > i`. -/
def rowMajorStride : Shape → Shape
  | [] => []
  | _ :: rest => rest.prod :: rowMajorStride rest

/-- The weights of the axes taken from the last to the first, starting at `c`:
`c`, `c * d0`, `c * d0 * d1`, and so on. -/
def weightsFrom : Int → List Int → List Int
  | _, [] => []
  | c, d :: rest => c :: weightsFrom (c * d) rest

/-- Modelled from the spec: `OperatorObj::replaceInput` (operator.h is not among the
sources), the mutator `replace_input(old, new)`: every input equal to `t1` becomes
`t2`. -/
def OperatorObj.replaceInput (o : OperatorObj) (t1 t2 : Option Nat) : OperatorObj :=
  { o with inputs := o.inputs.map (fun i => if i = t1 then t2 else i) }

/-- Modelled from the spec: `OperatorObj::getOutput` (operator.h is not among the
sources): the output tensor of an operator with a single output, as a Transpose
is; the model gives the null reference for any other number of outputs. -/
def OperatorObj.getOutput (o : OperatorObj) : Option Nat :=
  match o.outputs with
  | [output] => output
  | _ => none

/-- Modelled from the spec: `MatmulObj::setTransA` (matmul.h is not among the
sources): the attribute `transA` is written; the operator is a Matmul. -/
def OperatorObj.setTransA (o : OperatorObj) (v : Bool) : OperatorObj :=
  match o.attrs with
  | OpAttrs.matmul a => { o with attrs := OpAttrs.matmul { a with transA := v } }
  | _ => o

/-- Modelled from the spec: `MatmulObj::setTransB` (matmul.h is not among the
sources): the attribute `transB` is written; the operator is a Matmul. -/
def OperatorObj.setTransB (o : OperatorObj) (v : Bool) : OperatorObj :=
  match o.attrs with
  | OpAttrs.matmul a => { o with attrs := OpAttrs.matmul { a with transB := v } }
  | _ => o

/-- The function `GraphObj::areInverseTransposes` on the permutations of two
non-null Transposes: `perm1[perm2[i]] == i` for every `i`.  An index outside
`perm1`, which the source does not check, counts as a mismatch. -/
def areInverseTransposes (perm1 perm2 : List Int) : Bool :=
  if perm1.length ≠ perm2.length then false
  else
    (List.range perm1.length).all (fun i =>
      decide (0 ≤ perm2.getD i 0 ∧ perm1.get? (perm2.getD i 0).toNat = some (i : Int)))

/-- The function `GraphObj::areSameTransposes` on the permutations of two non-null
Transposes: `perm1[i] == perm2[i]` for every `i`. -/
def areSameTransposes (perm1 perm2 : List Int) : Bool :=
  if perm1.length ≠ perm2.length then false
  else (List.range perm1.length).all (fun i => decide (perm1.getD i 0 = perm2.getD i 0))

/-- The function `GraphObj::isLastTwoDimsSwap` on the permutation of a non-null
Transpose. -/
def isLastTwoDimsSwap (perm : List Int) : Bool :=
  if perm.length < 2 then false
  else
    decide (perm.getD (perm.length - 2) 0 = ((perm.length - 1 : Nat) : Int)) &&
      decide (perm.getD (perm.length - 1) 0 = ((perm.length - 2 : Nat) : Int))

/-- The inner loop of pass 1 of `GraphObj::optimize` over the successors of a
Transpose of permutation `perm1`: the first successor that is a Transpose accepted
by `areSameTransposes`. -/
def findSameTranspose (g : GraphObj) (perm1 : List Int) : List Nat → Option Nat
  | [] => none
  | succ :: rest =>
    match (g.opAt succ).attrs with
    | OpAttrs.transpose perm2 =>
      if areSameTransposes perm1 perm2 then some succ else findSameTranspose g perm1 rest
    | _ => findSameTranspose g perm1 rest

/-- The collecting loop of pass 1 of `GraphObj::optimize`: the vector `to_remove`. -/
def collectRemove (g : GraphObj) : List Nat → List (Nat × Nat)
  | [] => []
  | op :: rest =>
    match (g.opAt op).attrs with
    | OpAttrs.transpose perm1 =>
      match findSameTranspose g perm1 (g.opAt op).successors with
      | some succ => (op, succ) :: collectRemove g rest
      | none => collectRemove g rest
    | _ => collectRemove g rest

/-- The loop of `GraphObj::reconnectGraph` over the targets of the output tensor of
`op2`; `none` is the dereference of a null `input_tensor`. -/
def rewireTargets (op1 op2 : Nat) (output_tensor input_tensor : Option Nat) :
    List Nat → GraphObj → Option GraphObj
  | [], g => some g
  | target :: rest, g =>
    if target ≠ op1 ∧ target ≠ op2 then
      let g1 := g.setOp target ((g.opAt target).replaceInput output_tensor input_tensor)
      match input_tensor with
      | none => none
      | some inp =>
        rewireTargets op1 op2 output_tensor input_tensor rest
          (g1.setTensor inp ((g1.tensorAt inp).addTarget target))
    else rewireTargets op1 op2 output_tensor input_tensor rest g

/-- The inner loop of the linking loops of `GraphObj::reconnectGraph`, for one
predecessor `pred` of `op1` over the successors of `op2`. -/
def linkSuccs (pred : Nat) : List Nat → GraphObj → GraphObj
  | [], g => g
  | succ :: rest, g =>
    if pred ≠ succ then
      let g1 := g.setOp pred ((g.opAt pred).addSuccessors succ)
      linkSuccs pred rest (g1.setOp succ ((g1.opAt succ).addPredecessors pred))
    else linkSuccs pred rest g

/-- The outer linking loop of `GraphObj::reconnectGraph` over the predecessors of
`op1`. -/
def linkPredsToSuccs (succs : List Nat) : List Nat → GraphObj → GraphObj
  | [], g => g
  | pred :: rest, g => linkPredsToSuccs succs rest (linkSuccs pred succs g)

/-- The function `GraphObj::reconnectGraph` for two non-null operators; `none` is a
null dereference. -/
def reconnectGraph (g : GraphObj) (op1 op2 : Nat) : Option GraphObj :=
  if op2 ∉ (g.opAt op1).successors then some g
  else
    let op1_inputs := (g.opAt op1).inputs
    let op2_outputs := (g.opAt op2).outputs
    let op2_successors := (g.opAt op2).successors
    let rewired : Option GraphObj :=
      match op1_inputs, op2_outputs with
      | input_tensor :: _, output_tensor :: _ =>
        match output_tensor with
        | none => none
        | some out =>
          rewireTargets op1 op2 output_tensor input_tensor (g.tensorAt out).targets g
      | _, _ => some g
    match rewired with
    | none => none
    | some g1 =>
      let op1_predecessors := (g1.opAt op1).predecessors
      let g2 := linkPredsToSuccs op2_successors op1_predecessors g1
      let g3 := unlinkPredecessors op1 op1_predecessors g2
      some (unlinkSuccessors op2 op2_successors g3)

/-- The mutating loop of pass 1 of `GraphObj::optimize` over `to_remove`. -/
def removeLoop : List (Nat × Nat) → GraphObj → Option GraphObj
  | [], g => some g
  | (op1, op2) :: rest, g =>
    match reconnectGraph g op1 op2 with
    | none => none
    | some g1 => removeLoop rest (removeOperator (removeOperator g1 op1) op2)

/-- The inner loop of pass 2 of `GraphObj::optimize` over the successors of a
Transpose of permutation `perm`: the first successor that is a Matmul, when
`isLastTwoDimsSwap` accepts the Transpose. -/
def findMergeTarget (g : GraphObj) (perm : List Int) : List Nat → Option Nat
  | [] => none
  | succ :: rest =>
    match (g.opAt succ).attrs with
    | OpAttrs.matmul _ =>
      if isLastTwoDimsSwap perm then some succ else findMergeTarget g perm rest
    | _ => findMergeTarget g perm rest

/-- The collecting loop of pass 2 of `GraphObj::optimize`: the vector `to_merge`. -/
def collectMerge (g : GraphObj) : List Nat → List (Nat × Nat)
  | [] => []
  | op :: rest =>
    match (g.opAt op).attrs with
    | OpAttrs.transpose perm =>
      match findMergeTarget g perm (g.opAt op).successors with
      | some succ => (op, succ) :: collectMerge g rest
      | none => collectMerge g rest
    | _ => collectMerge g rest

/-- The two branches of `GraphObj::mergeTransposeToMatmul` after the flag is set:
`matmul->replaceInput(old, transpose_inputs[0])`,
`transpose_inputs[0]->addTarget(matmul)` and
`transpose_output->removeTarget(matmul)`; `none` is the dereference of a null
`transpose_inputs[0]`. -/
def mergeRewire (g : GraphObj) (matmul : Nat) (old tin : Option Nat) (tout : Nat) :
    Option GraphObj :=
  let g1 := g.setOp matmul ((g.opAt matmul).replaceInput old tin)
  match tin with
  | none => none
  | some x =>
    let g2 := g1.setTensor x ((g1.tensorAt x).addTarget matmul)
    some (g2.setTensor tout ((g2.tensorAt tout).removeTarget matmul))

/-- The function `GraphObj::mergeTransposeToMatmul`; `none` is a null
dereference. -/
def mergeTransposeToMatmul (g : GraphObj) (transpose matmul : Nat) : Option GraphObj :=
  match (g.opAt transpose).attrs, (g.opAt matmul).attrs with
  | OpAttrs.transpose _, OpAttrs.matmul _ =>
    match (g.opAt transpose).inputs with
    | [] => some g
    | tin :: _ =>
      match (g.opAt matmul).inputs with
      | in0 :: in1 :: _ =>
        match (g.opAt transpose).getOutput with
        | none => some g
        | some tout =>
          if some tout = in0 then
            mergeRewire (g.setOp matmul ((g.opAt matmul).setTransA true)) matmul in0 tin tout
          else if some tout = in1 then
            mergeRewire (g.setOp matmul ((g.opAt matmul).setTransB true)) matmul in1 tin tout
          else some g
      | _ => some g
  | _, _ => some g

/-- The mutating loop of pass 2 of `GraphObj::optimize` over `to_merge`. -/
def mergeLoop : List (Nat × Nat) → GraphObj → Option GraphObj
  | [], g => some g
  | (transpose, matmul) :: rest, g =>
    match mergeTransposeToMatmul g transpose matmul with
    | none => none
    | some g1 => mergeLoop rest (removeOperator g1 transpose)

/-- The function `GraphObj::cleanupUnusedTensors`: a tensor stays when some
operator of `ops` has it among its inputs or outputs. -/
def cleanupUnusedTensors (g : GraphObj) : GraphObj :=
  { g with tensors := g.tensors.filter (fun tensor =>
      g.ops.any (fun op =>
        decide (some tensor ∈ (g.opAt op).inputs) ||
          decide (some tensor ∈ (g.opAt op).outputs))) }

/-- The function `GraphObj::optimize`; `none` is a null dereference. -/
def optimize (g : GraphObj) : Option GraphObj :=
  match removeLoop (collectRemove g g.ops) g with
  | none => none
  | some g1 =>
    match mergeLoop (collectMerge g1 g1.ops) g1 with
    | none => none
    | some g2 => some (cleanupUnusedTensors g2)

/-- The connectivity invariant of operators: for each operator of `ops`, the source
`p` of each input is among its predecessors and has the operator among its
successors; each output has the operator as source, and each target `q` of an
output is among its successors and has the operator among its predecessors. -/
def Connected (g : GraphObj) : Prop :=
  ∀ op ∈ g.ops,
    (∀ i ∈ (g.opAt op).inputs, ∀ t ∈ i, ∀ p ∈ (g.tensorAt t).source,
      p ∈ (g.opAt op).predecessors ∧ op ∈ (g.opAt p).successors) ∧
    (∀ o ∈ (g.opAt op).outputs, ∀ t ∈ o,
      (g.tensorAt t).source = some op ∧
      ∀ q ∈ (g.tensorAt t).targets,
        q ∈ (g.opAt op).successors ∧ op ∈ (g.opAt q).predecessors)

/-- An empty graph over a heap that holds four operator objects still to be added:
the Concat 1 from tensor 5 to tensor 10, the Transpose 2 of permutation `perm` from
tensor 10 to tensor 20, the Matmul 3 with attributes `a` from tensors 20 and 30 to
tensor 40, and the Concat 4 from tensor 40 to tensor 50. -/
def fusionHeap (perm : List Int) (a : MatmulObj) : GraphObj :=
  { tensors := [], ops := [], sorted := false
    tensorAt := fun _ => exampleTensor none []
    opAt := fun o =>
      if o = 1 then
        { attrs := OpAttrs.concat { dim := 1 }, inputs := [some 5], outputs := [some 10],
          predecessors := [], successors := [] }
      else if o = 2 then
        { attrs := OpAttrs.transpose perm, inputs := [some 10], outputs := [some 20],
          predecessors := [], successors := [] }
      else if o = 3 then
        { attrs := OpAttrs.matmul a, inputs := [some 20, some 30], outputs := [some 40],
          predecessors := [], successors := [] }
      else
        { attrs := OpAttrs.concat { dim := 1 }, inputs := [some 40], outputs := [some 50],
          predecessors := [], successors := [] } }

/-- The graph `X ─Transpose(perm)→ T ─Matmul→ Y` of the fusion scenario, built by
`addTensor` and `addOperatorAndConnect`: tensors 10 (`X`, of shape `dX`), 20 (`T`,
of shape `dT`), 30 (the other operand, of shape `dW`) and 40 (`Y`); the Transpose
2 and the Matmul 3. -/
def graphFusion (perm : List Int) (a : MatmulObj) (dX dT dW : Shape) : GraphObj :=
  addOperatorAndConnect
    (addOperatorAndConnect
      (addTensor (addTensor (addTensor (addTensor (fusionHeap perm a) 10 1 dX) 20 2 dT)
        30 3 dW) 40 4 [])
      2)
    3

/-- The fusion graph with a producer for `X`: the Concat 1 from tensor 5 to tensor
10, then the Transpose 2 of permutation `[1, 0]` and the Matmul 3. -/
def graphProducerFusion : GraphObj :=
  addOperatorAndConnect
    (addOperatorAndConnect
      (addOperatorAndConnect
        (addTensor (addTensor (addTensor (addTensor (addTensor
          (fusionHeap [1, 0] { transA := false, transB := false, m := 0, n := 0, k := 0 })
          5 0 [3, 2]) 10 1 [3, 2]) 20 2 [2, 3]) 30 3 [3, 5]) 40 4 [2, 5])
        1)
      2)
    3

instance (g : GraphObj) : Decidable (Connected g) := by
  unfold Connected
  infer_instance

/-- An empty graph over a heap that holds a chain of three Transposes of the same
permutation `perm` still to be added (1 from tensor 10 to 20, 2 from 20 to 30, 3
from 30 to 40) and the Concat 4 from tensor `consumed` to tensor 50. -/
def chainHeap (perm : List Int) (consumed : Nat) : GraphObj :=
  { tensors := [], ops := [], sorted := false
    tensorAt := fun _ => exampleTensor none []
    opAt := fun o =>
      if o = 1 then
        { attrs := OpAttrs.transpose perm, inputs := [some 10], outputs := [some 20],
          predecessors := [], successors := [] }
      else if o = 2 then
        { attrs := OpAttrs.transpose perm, inputs := [some 20], outputs := [some 30],
          predecessors := [], successors := [] }
      else if o = 3 then
        { attrs := OpAttrs.transpose perm, inputs := [some 30], outputs := [some 40],
          predecessors := [], successors := [] }
      else
        { attrs := OpAttrs.concat { dim := 1 }, inputs := [some consumed],
          outputs := [some 50], predecessors := [], successors := [] } }

/-- The graph `10 ─Transpose 1→ 20 ─Transpose 2→ 30 ─Concat 4→ 50` with both
Transposes of permutation `perm`; tensor 10 has shape `dX`. -/
def graphTwoTransposes (perm : List Int) (dX : Shape) : GraphObj :=
  addOperatorAndConnect
    (addOperatorAndConnect
      (addOperatorAndConnect
        (addTensor (addTensor (addTensor (addTensor (chainHeap perm 30) 10 1 dX) 20 2 [])
          30 3 []) 50 5 [])
        1)
      2)
    4

/-- The graph `10 ─Transpose 1→ 20 ─Transpose 2→ 30 ─Transpose 3→ 40 ─Concat 4→ 50`
with the three Transposes of permutation `perm`. -/
def graphThreeTransposes (perm : List Int) : GraphObj :=
  addOperatorAndConnect
    (addOperatorAndConnect
      (addOperatorAndConnect
        (addOperatorAndConnect
          (addTensor (addTensor (addTensor (addTensor (addTensor (chainHeap perm 40)
            10 1 []) 20 2 []) 30 3 []) 40 4 []) 50 5 [])
          1)
        2)
      3)
    4

/-- The graph of the fusion scenario: `ops` holds the Transpose `tr` and the Matmul
`mm` only; `tr`, of a permutation accepted by `isLastTwoDimsSwap`, reads tensor `x`
and produces tensor `t`, has no predecessor and the successor `mm`; `mm`, with
attributes `a`, produces `y` and consumes `t` as operand 0 (as operand 1 when
`second` is set) with the other tensor `w` as the other operand. -/
def FusionScene (g : GraphObj) (x t w y tr mm : Nat) (perm : List Int) (a : MatmulObj)
    (second : Bool) : Prop :=
  (g.ops = [tr, mm] ∨ g.ops = [mm, tr]) ∧ tr ≠ mm ∧ x ≠ t ∧ w ≠ t ∧ y ≠ t ∧
  isLastTwoDimsSwap perm = true ∧
  (g.opAt tr).attrs = OpAttrs.transpose perm ∧
  (g.opAt tr).inputs = [some x] ∧ (g.opAt tr).outputs = [some t] ∧
  (g.opAt tr).predecessors = [] ∧ (g.opAt tr).successors = [mm] ∧
  (g.opAt mm).attrs = OpAttrs.matmul a ∧
  (g.opAt mm).inputs = (if second then [some w, some t] else [some t, some w]) ∧
  (g.opAt mm).outputs = [some y]

/-- Tensor `t` has neither source nor targets: the condition of the first assertion
of `checkValid`. -/
def Orphan (g : GraphObj) (t : Nat) : Prop :=
  (g.tensorAt t).targets = [] ∧ (g.tensorAt t).source = none

/-- What `checkValid` asserts apart from its first assertion: targets and sources of
tensors are in `ops`; inputs and outputs of operators are tensors of `tensors`;
predecessors and successors are in `ops`; fuids are distinct. -/
def ValidLinks (g : GraphObj) : Prop :=
  (∀ t ∈ g.tensors,
    (∀ q ∈ (g.tensorAt t).targets, q ∈ g.ops) ∧
    (∀ p ∈ (g.tensorAt t).source, p ∈ g.ops)) ∧
  (∀ q ∈ g.ops,
    (∀ i ∈ (g.opAt q).inputs, ∃ t, i = some t ∧ t ∈ g.tensors) ∧
    (∀ o ∈ (g.opAt q).outputs, ∃ t, o = some t ∧ t ∈ g.tensors) ∧
    (∀ p ∈ (g.opAt q).predecessors, p ∈ g.ops) ∧
    (∀ s ∈ (g.opAt q).successors, s ∈ g.ops)) ∧
  (g.tensors.map (fun t => (g.tensorAt t).fuid)).Nodup

/-- The output tensors an operator constructor creates: one `addTensor` call for
each, with the address, the fuid and the shape of the new tensor. -/
def addTensors (g : GraphObj) : List (Nat × Nat × Shape) → GraphObj
  | [] => g
  | (ptr, fuid, dim) :: rest => addTensors (addTensor g ptr fuid dim) rest

/-- Modelled from the spec: the constructor of an operator (operator.h and
operator.cc are not among the sources): a new object with the given kind, inputs
and outputs and no predecessors or successors. -/
def makeOperator (attrs : OpAttrs) (inputs outputs : List (Option Nat)) : OperatorObj :=
  { attrs := attrs, inputs := inputs, outputs := outputs, predecessors := [], successors := [] }

/-- The function `GraphObj::addOpWithOutputs`: `make_ref<T>(nullptr, args...)`, which
makes the new operator object at address `op`, followed by
`addOperatorAndConnect(op)`. -/
def addOpWithOutputs (g : GraphObj) (op : Nat) (attrs : OpAttrs)
    (inputs outputs : List (Option Nat)) : GraphObj :=
  addOperatorAndConnect (g.setOp op (makeOperator attrs inputs outputs)) op

/-- The function `GraphObj::addOp`: `make_ref<T>(this, args...)` followed by
`addOperatorAndConnect(op)`.  Modelled from the spec: the constructor of the
operator (operator.h and operator.cc are not among the sources), which "creates
outputs": the tensors `outs`, of the shapes its shape inference gives, are added
with `addTensor` and become the outputs of the new object at address `op`. -/
def addOp (g : GraphObj) (op : Nat) (attrs : OpAttrs) (inputs : List (Option Nat))
    (outs : List (Nat × Nat × Shape)) : GraphObj :=
  addOpWithOutputs (addTensors g outs) op attrs inputs (outs.map (fun o => some o.1))

/-- A graph in which tensor 20 has two producers: the Concat 1 from tensor 5 and the
Transpose 2 of permutation `[1, 0]` from tensor 10, added in that order, and the
Matmul 3 consumes tensors 20 and 30 and produces tensor 40. -/
def graphTwoProducers : GraphObj :=
  addOpWithOutputs
    (addOpWithOutputs
      (addOpWithOutputs
        (addTensor (addTensor (addTensor (addTensor (addTensor
          (fusionHeap [1, 0] { transA := false, transB := false, m := 0, n := 0, k := 0 })
          5 0 [3, 2]) 10 1 [3, 2]) 20 2 [2, 3]) 30 3 [3, 5]) 40 4 [2, 5])
        1 (OpAttrs.concat { dim := 1 }) [some 5] [some 20])
      2 (OpAttrs.transpose [1, 0]) [some 10] [some 20])
    3 (OpAttrs.matmul { transA := false, transB := false, m := 0, n := 0, k := 0 })
      [some 20, some 30] [some 40]

/-- The graphs made by the public operations of `GraphObj` other than `optimize`:
the constructor (no tensor, no operator, no tensor object connected yet),
`addTensor`, `addOp` and `addOpWithOutputs` of a new operator object,
`removeOperator`, `removeTensor`, `topo_sort` and `shape_infer`. -/
inductive Built : GraphObj → Prop
  | init (g : GraphObj) : g.tensors = [] → g.ops = [] →
      (∀ t, (g.tensorAt t).source = none ∧ (g.tensorAt t).targets = []) → Built g
  | addTensor {g : GraphObj} (ptr fuid : Nat) (dim : Shape) :
      Built g → Built (addTensor g ptr fuid dim)
  | addOp {g : GraphObj} (op : Nat) (attrs : OpAttrs) (inputs : List (Option Nat))
      (outs : List (Nat × Nat × Shape)) :
      Built g → op ∉ g.ops → Built (addOp g op attrs inputs outs)
  | addOpWithOutputs {g : GraphObj} (op : Nat) (attrs : OpAttrs)
      (inputs outputs : List (Option Nat)) :
      Built g → op ∉ g.ops → Built (addOpWithOutputs g op attrs inputs outputs)
  | removeOperator {g : GraphObj} (op : Nat) : Built g → Built (removeOperator g op)
  | removeTensor {g : GraphObj} (t : Nat) : Built g → Built (removeTensor g t)
  | topo_sort {g g1 : GraphObj} {b : Bool} :
      Built g → topo_sort g = some (b, g1) → Built g1
  | shape_infer {g g1 : GraphObj} : Built g → shape_infer g = some g1 → Built g1

/-- The graph made by the constructor of `GraphObj` (no tensor, no operator),
followed by eight `addTensor` calls (tensors 10 to 80) and seven
`addOpWithOutputs` calls, in this order: the Transposes 2 (20 → 30) and 3
(30 → 40) of permutation `[1, 0]`, the Transpose 1 (10 → 20) of permutation
`[0, 1]`, the Transposes 4 (40 → 50) and 5 (50 → 60) of permutation `[1, 0]`, the
Concat 6 (60 → 70) and the Transpose 7 (20 → 80) of permutation `[0, 1]`.  Every
tensor has at most one producer; operator 1, the producer of tensor 20, is added
after its consumer 2, so `ops` is not in topological order. -/
def graphUnsorted : GraphObj :=
  addOpWithOutputs
    (addOpWithOutputs
      (addOpWithOutputs
        (addOpWithOutputs
          (addOpWithOutputs
            (addOpWithOutputs
              (addOpWithOutputs
                (addTensor (addTensor (addTensor (addTensor (addTensor (addTensor
                  (addTensor (addTensor
                    { tensors := [], ops := [], sorted := false
                      tensorAt := fun _ => exampleTensor none []
                      opAt := fun _ => exampleOp [] [] }
                    10 1 [2, 2]) 20 2 [2, 2]) 30 3 [2, 2]) 40 4 [2, 2]) 50 5 [2, 2])
                  60 6 [2, 2]) 70 7 [2, 2]) 80 8 [2, 2])
                2 (OpAttrs.transpose [1, 0]) [some 20] [some 30])
              3 (OpAttrs.transpose [1, 0]) [some 30] [some 40])
            1 (OpAttrs.transpose [0, 1]) [some 10] [some 20])
          4 (OpAttrs.transpose [1, 0]) [some 40] [some 50])
        5 (OpAttrs.transpose [1, 0]) [some 50] [some 60])
      6 (OpAttrs.concat { dim := 0 }) [some 60] [some 70])
    7 (OpAttrs.transpose [0, 1]) [some 20] [some 80]

end infini

namespace infini

/-! ## Alignment -/

theorem getAlignedSize_lt (n : Nat) : getAlignedSize n < SIZE_MOD := by
  unfold getAlignedSize SIZE_MOD
  exact Nat.mod_lt _ (by norm_num)

theorem getAlignedSize_of_pos (k : Nat) (hk1 : 1 ≤ k) (hk2 : k ≤ 2 ^ 64 - 8) :
    getAlignedSize k = ((k - 1) / 8 + 1) * 8 := by
  unfold getAlignedSize SIZE_MOD alignment
  norm_num at hk2 ⊢
  omega

theorem le_getAlignedSize (n : Nat) (h : n ≤ 2 ^ 64 - 8) : n ≤ getAlignedSize n := by
  by_cases h0 : n = 0
  · rw [h0]; exact Nat.zero_le _
  · rw [getAlignedSize_of_pos n (by omega) h]
    omega

/-- C6: for every `n` with `1 ≤ n ≤ 2^64 - 8`, `getAlignedSize n` is the least
multiple of 8 that is at least `n` (so `n ≤ getAlignedSize n < n + 8`), aligning
twice changes nothing, and `getAlignedSize 0 = 0`. -/
theorem getAlignedSize_spec (n : Nat) (h1 : 1 ≤ n) (h2 : n ≤ 2 ^ 64 - 8) :
    8 ∣ getAlignedSize n ∧ n ≤ getAlignedSize n ∧ getAlignedSize n < n + 8 ∧
    (∀ m, 8 ∣ m → n ≤ m → getAlignedSize n ≤ m) ∧
    getAlignedSize (getAlignedSize n) = getAlignedSize n ∧
    getAlignedSize 0 = 0 := by
  have hn := getAlignedSize_of_pos n h1 h2
  have hdvd : 8 ∣ getAlignedSize n := by rw [hn]; exact Dvd.intro_left _ rfl
  have hle : n ≤ getAlignedSize n := by rw [hn]; omega
  have hlt : getAlignedSize n < n + 8 := by rw [hn]; omega
  refine ⟨hdvd, hle, hlt, ?_, ?_, by decide⟩
  · intro m hm hnm
    obtain ⟨c, rfl⟩ := hm
    rw [hn]; omega
  · have hb : getAlignedSize n ≤ 2 ^ 64 - 8 := by
      rw [hn]; norm_num at h2 ⊢; omega
    have h1' : 1 ≤ getAlignedSize n := le_trans h1 hle
    rw [getAlignedSize_of_pos _ h1' hb]
    obtain ⟨c, hc⟩ := hdvd
    omega

theorem getAlignedSize_spec_witness :
    8 ∣ getAlignedSize 13 ∧ 13 ≤ getAlignedSize 13 ∧ getAlignedSize 13 < 13 + 8 ∧
    (∀ m, 8 ∣ m → 13 ≤ m → getAlignedSize 13 ≤ m) ∧
    getAlignedSize (getAlignedSize 13) = getAlignedSize 13 ∧
    getAlignedSize 0 = 0 :=
  getAlignedSize_spec 13 (by decide) (by decide)

/-! ## Axis normalization -/

theorem get_real_axis_ok (axis rank : Int) (h : rank ≥ 1 ∧ -rank ≤ axis ∧ axis ≤ rank - 1) :
    get_real_axis axis rank = Except.ok (if axis < 0 then rank + axis else axis) := by
  unfold get_real_axis
  rw [if_neg (not_not.mpr h.1), if_neg (not_not.mpr ⟨h.2.1, h.2.2⟩)]
  split_ifs <;> rfl

theorem get_real_axis_error (axis rank : Int) (h : ¬ (rank ≥ 1 ∧ -rank ≤ axis ∧ axis ≤ rank - 1)) :
    ∀ r, get_real_axis axis rank ≠ Except.ok r := by
  intro r
  unfold get_real_axis
  by_cases hr : rank ≥ 1
  · have ha : ¬ (axis ≥ -rank ∧ axis ≤ rank - 1) := fun ha => h ⟨hr, ha.1, ha.2⟩
    rw [if_neg (not_not.mpr hr), if_pos ha]
    intro hc; cases hc
  · rw [if_pos hr]
    intro hc; cases hc

/-- C10: `get_real_axis axis rank` succeeds exactly when `rank ≥ 1` and
`-rank ≤ axis ≤ rank - 1`; a result `r` satisfies `0 ≤ r < rank`, is `axis` for
`axis ≥ 0` and `axis + rank` for `axis < 0`, and normalizing `r` again gives `r`. -/
theorem get_real_axis_spec (axis rank : Int) :
    ((∃ r, get_real_axis axis rank = Except.ok r) ↔
      (rank ≥ 1 ∧ -rank ≤ axis ∧ axis ≤ rank - 1)) ∧
    (∀ r, get_real_axis axis rank = Except.ok r →
      0 ≤ r ∧ r < rank ∧ (axis ≥ 0 → r = axis) ∧ (axis < 0 → r = axis + rank) ∧
      get_real_axis r rank = Except.ok r) := by
  by_cases h : rank ≥ 1 ∧ -rank ≤ axis ∧ axis ≤ rank - 1
  · have hok := get_real_axis_ok axis rank h
    refine ⟨⟨fun _ => h, fun _ => ⟨_, hok⟩⟩, ?_⟩
    intro r hr
    rw [hok] at hr
    have hr2 : (if axis < 0 then rank + axis else axis) = r := by
      injection hr
    obtain ⟨h1, h2, h3⟩ := h
    have hr3 : 0 ≤ r ∧ r < rank ∧ (axis ≥ 0 → r = axis) ∧ (axis < 0 → r = axis + rank) := by
      split_ifs at hr2 <;> omega
    refine ⟨hr3.1, hr3.2.1, hr3.2.2.1, hr3.2.2.2, ?_⟩
    rw [get_real_axis_ok r rank ⟨h1, by omega, by omega⟩, if_neg (by omega)]
  · have herr := get_real_axis_error axis rank h
    exact ⟨⟨fun ⟨r, hr⟩ => absurd hr (herr r), fun h2 => absurd h2 h⟩,
      fun r hr => absurd hr (herr r)⟩

theorem get_real_axis_spec_witness :
    get_real_axis (-1) 3 = Except.ok 2 ∧
    (0 ≤ (2 : Int) ∧ (2 : Int) < 3 ∧ ((-1 : Int) ≥ 0 → (2 : Int) = -1) ∧
      ((-1 : Int) < 0 → (2 : Int) = -1 + 3) ∧ get_real_axis 2 3 = Except.ok 2) :=
  ⟨rfl, (get_real_axis_spec (-1) 3).2 2 rfl⟩

end infini

namespace infini

/-! ## Broadcasting -/

theorem broadcastLoop_comm (la lb : List Int) : broadcastLoop la lb = broadcastLoop lb la := by
  induction la generalizing lb with
  | nil => cases lb <;> rfl
  | cons a as ih =>
    cases lb with
    | nil => rfl
    | cons b bs =>
      simp only [broadcastLoop]
      rw [ih bs]
      by_cases hab : a = b
      · subst hab; simp
      · have hba : ¬ b = a := fun h => hab h.symm
        simp only [hab, hba, if_false]
        by_cases ha : a = 1
        · by_cases hb : b = 1
          · exact absurd (ha.trans hb.symm) hab
          · simp [ha, hb]
        · by_cases hb : b = 1
          · simp [ha, hb]
          · simp [ha, hb]

theorem broadcastLoop_eval (la lb : List Int) :
    ((∀ p ∈ la.zip lb, p.1 = p.2 ∨ p.1 = 1 ∨ p.2 = 1) →
      broadcastLoop la lb =
        Except.ok (List.zipWith (fun a b => if a = b then a else if a = 1 then b else a) la lb)) ∧
    (¬ (∀ p ∈ la.zip lb, p.1 = p.2 ∨ p.1 = 1 ∨ p.2 = 1) →
      broadcastLoop la lb = Except.error Exception.cannotBroadcast) := by
  induction la generalizing lb with
  | nil => simp [broadcastLoop]
  | cons a as ih =>
    cases lb with
    | nil => simp [broadcastLoop]
    | cons b bs =>
      obtain ⟨ih1, ih2⟩ := ih bs
      constructor
      · intro hall
        have hhead : a = b ∨ a = 1 ∨ b = 1 := hall (a, b) (by simp)
        have htail : ∀ p ∈ as.zip bs, p.1 = p.2 ∨ p.1 = 1 ∨ p.2 = 1 :=
          fun p hp => hall p (by simp [hp])
        simp only [broadcastLoop, ih1 htail, Except.map, List.zipWith_cons_cons]
        split_ifs with h1 h2 h3
        · rfl
        · rfl
        · rfl
        · rcases hhead with h | h | h
          · exact absurd h h1
          · exact absurd h h2
          · exact absurd h h3
      · intro hnot
        by_cases hhead : a = b ∨ a = 1 ∨ b = 1
        · have htail : ¬ (∀ p ∈ as.zip bs, p.1 = p.2 ∨ p.1 = 1 ∨ p.2 = 1) := by
            intro htail
            apply hnot
            intro p hp
            simp only [List.zip_cons_cons, List.mem_cons] at hp
            rcases hp with rfl | hp
            · exact hhead
            · exact htail p hp
          simp only [broadcastLoop, ih2 htail, Except.map]
          split_ifs <;> rfl
        · push_neg at hhead
          simp only [broadcastLoop]
          rw [if_neg hhead.1, if_neg hhead.2.1, if_neg hhead.2.2]

theorem broadcastLoop_ones_left (B : List Int) :
    broadcastLoop (List.replicate B.length 1) B = Except.ok B := by
  induction B with
  | nil => rfl
  | cons b bs ih =>
    simp only [List.length_cons, List.replicate_succ, broadcastLoop, ih, Except.map]
    split_ifs with h1
    · rw [h1]
    · rfl

theorem infer_broadcast_eq_loop (A B : Shape) :
    infer_broadcast A B =
      broadcastLoop (padShape (max A.length B.length) A) (padShape (max A.length B.length) B) := by
  unfold infer_broadcast padShape
  cases A with
  | nil =>
    simp only [List.isEmpty_nil, if_true, List.length_nil, Nat.zero_le, max_eq_right,
      Nat.sub_zero, List.append_nil, Nat.sub_self, List.replicate_zero, List.nil_append]
    exact (broadcastLoop_ones_left B).symm
  | cons a as =>
    cases B with
    | nil =>
      simp only [List.isEmpty_cons, List.isEmpty_nil, if_true, if_false, List.length_nil,
        Nat.zero_le, max_eq_left, Nat.sub_zero, List.append_nil, Nat.sub_self,
        List.replicate_zero, List.nil_append, Bool.false_eq_true]
      rw [broadcastLoop_comm, ← broadcastLoop_ones_left (a :: as)]
    | cons b bs =>
      simp only [List.isEmpty_cons, if_false, Bool.false_eq_true]
      have hA : (if (a :: as).length < max (a :: as).length (b :: bs).length then
          List.replicate (max (a :: as).length (b :: bs).length - (a :: as).length) 1 ++ (a :: as)
          else (a :: as)) =
          List.replicate (max (a :: as).length (b :: bs).length - (a :: as).length) 1 ++ (a :: as) := by
        split_ifs with h
        · rfl
        · have h0 : max (a :: as).length (b :: bs).length - (a :: as).length = 0 := by omega
          rw [h0]; rfl
      have hB : (if (b :: bs).length < max (a :: as).length (b :: bs).length then
          List.replicate (max (a :: as).length (b :: bs).length - (b :: bs).length) 1 ++ (b :: bs)
          else (b :: bs)) =
          List.replicate (max (a :: as).length (b :: bs).length - (b :: bs).length) 1 ++ (b :: bs) := by
        split_ifs with h
        · rfl
        · have h0 : max (a :: as).length (b :: bs).length - (b :: bs).length = 0 := by omega
          rw [h0]; rfl
      rw [hA, hB]

theorem padShape_length (n : Nat) (S : Shape) (h : S.length ≤ n) : (padShape n S).length = n := by
  unfold padShape
  simp only [List.length_append, List.length_replicate]
  omega

end infini

namespace infini

/-- C8: `infer_broadcast A B` succeeds exactly when every pair of the right-aligned
shapes (the shorter padded with leading 1s) is equal or has a 1; a result has rank
`max (rank A) (rank B)`, its axis is `a` when `a = b` or `b = 1` and `b` when
`a = 1`; every failure is the cannot-broadcast assertion.  The three literal cases
of the specification are included. -/
theorem infer_broadcast_spec (A B : Shape) :
    ((∃ r, infer_broadcast A B = Except.ok r) ↔
      ∀ p ∈ (padShape (max A.length B.length) A).zip (padShape (max A.length B.length) B),
        p.1 = p.2 ∨ p.1 = 1 ∨ p.2 = 1) ∧
    (∀ r, infer_broadcast A B = Except.ok r →
      r.length = max A.length B.length ∧
      ∀ (i : Nat) (a b : Int), (padShape (max A.length B.length) A)[i]? = some a →
        (padShape (max A.length B.length) B)[i]? = some b →
        ((a = b ∨ b = 1) → r[i]? = some a) ∧ (a = 1 → r[i]? = some b)) ∧
    ((¬ ∃ r, infer_broadcast A B = Except.ok r) →
      infer_broadcast A B = Except.error Exception.cannotBroadcast) ∧
    infer_broadcast [1, 3, 4] [2, 1, 4] = Except.ok [2, 3, 4] ∧
    infer_broadcast [] [5] = Except.ok [5] ∧
    infer_broadcast [3, 4] [5, 4] = Except.error Exception.cannotBroadcast := by
  rw [infer_broadcast_eq_loop]
  have hla := padShape_length (max A.length B.length) A (le_max_left _ _)
  have hlb := padShape_length (max A.length B.length) B (le_max_right _ _)
  generalize padShape (max A.length B.length) A = pa at *
  generalize padShape (max A.length B.length) B = pb at *
  obtain ⟨e1, e2⟩ := broadcastLoop_eval pa pb
  refine ⟨?_, ?_, ?_, rfl, rfl, rfl⟩
  · constructor
    · rintro ⟨r, hr⟩
      by_contra hall
      rw [e2 hall] at hr
      cases hr
    · intro hall
      exact ⟨_, e1 hall⟩
  · intro r hr
    have hall : ∀ p ∈ pa.zip pb, p.1 = p.2 ∨ p.1 = 1 ∨ p.2 = 1 := by
      by_contra hall
      rw [e2 hall] at hr
      cases hr
    rw [e1 hall] at hr
    have hr2 : List.zipWith (fun a b => if a = b then a else if a = 1 then b else a) pa pb = r := by
      injection hr
    subst hr2
    refine ⟨by simp [hla, hlb], ?_⟩
    intro i a b ha hb
    rw [List.getElem?_zipWith, ha, hb]
    constructor
    · rintro (h | h)
      · simp [h]
      · by_cases hab : a = b
        · simp [hab]
        · by_cases h1 : a = 1
          · exact absurd (h1.trans h.symm) hab
          · simp [hab, h1]
    · intro h
      by_cases hab : a = b
      · simp [hab]
      · simp [hab, h]
  · intro hno
    by_cases hall : ∀ p ∈ pa.zip pb, p.1 = p.2 ∨ p.1 = 1 ∨ p.2 = 1
    · exact absurd ⟨_, e1 hall⟩ hno
    · exact e2 hall

/-- C9: `infer_broadcast` is commutative: `infer_broadcast A B` fails exactly when
`infer_broadcast B A` fails, and two successful results are equal (the two calls
return the same value in every case, empty shapes and different ranks included). -/
theorem infer_broadcast_comm (A B : Shape) :
    ((∃ e, infer_broadcast A B = Except.error e) ↔ (∃ e, infer_broadcast B A = Except.error e)) ∧
    (∀ r1 r2, infer_broadcast A B = Except.ok r1 → infer_broadcast B A = Except.ok r2 → r1 = r2) ∧
    infer_broadcast A B = infer_broadcast B A := by
  have h : infer_broadcast A B = infer_broadcast B A := by
    rw [infer_broadcast_eq_loop A B, infer_broadcast_eq_loop B A, max_comm B.length A.length]
    exact broadcastLoop_comm _ _
  refine ⟨by rw [h], ?_, h⟩
  intro r1 r2 h1 h2
  rw [h, h2] at h1
  injection h1 with h1
  exact h1.symm

theorem infer_broadcast_comm_witness :
    infer_broadcast [1, 3, 4] [2, 1, 4] = Except.ok [2, 3, 4] ∧
    infer_broadcast [2, 1, 4] [1, 3, 4] = Except.ok [2, 3, 4] ∧
    ([2, 3, 4] : Shape) = [2, 3, 4] :=
  ⟨rfl, rfl, (infer_broadcast_comm [1, 3, 4] [2, 1, 4]).2.1 [2, 3, 4] [2, 3, 4] rfl rfl⟩

end infini

namespace infini

/-! ## The free-block map -/

theorem mem_mapAssign (m : FreeBlocks) (k v : Nat) (hs : MapSorted m) (p : Nat × Nat) :
    p ∈ mapAssign m k v ↔ p = (k, v) ∨ (p ∈ m ∧ p.1 ≠ k) := by
  induction m with
  | nil => simp [mapAssign]
  | cons q rest ih =>
    obtain ⟨k', v'⟩ := q
    unfold MapSorted at hs
    rw [List.pairwise_cons] at hs
    obtain ⟨hhead, htail⟩ := hs
    have ih := ih htail
    simp only [mapAssign]
    split_ifs with h1 h2
    · simp only [List.mem_cons]
      constructor
      · rintro (h | h | h)
        · exact Or.inl h
        · refine Or.inr ⟨Or.inl h, ?_⟩
          rw [h]; simp; omega
        · refine Or.inr ⟨Or.inr h, ?_⟩
          have := hhead p h
          simp at this; omega
      · rintro (h | ⟨h | h, _⟩)
        · exact Or.inl h
        · exact Or.inr (Or.inl h)
        · exact Or.inr (Or.inr h)
    · subst h2
      simp only [List.mem_cons]
      constructor
      · rintro (h | h)
        · exact Or.inl h
        · refine Or.inr ⟨Or.inr h, ?_⟩
          have := hhead p h
          simp at this; omega
      · rintro (h | ⟨h | h, hne⟩)
        · exact Or.inl h
        · rw [h] at hne; exact absurd rfl hne
        · exact Or.inr h
    · simp only [List.mem_cons, ih]
      constructor
      · rintro (h | h | ⟨h, hne⟩)
        · refine Or.inr ⟨Or.inl h, ?_⟩
          rw [h]; simp; omega
        · exact Or.inl h
        · exact Or.inr ⟨Or.inr h, hne⟩
      · rintro (h | ⟨h | h, hne⟩)
        · exact Or.inr (Or.inl h)
        · exact Or.inl h
        · exact Or.inr (Or.inr ⟨h, hne⟩)

theorem sorted_mapAssign (m : FreeBlocks) (k v : Nat) (hs : MapSorted m) :
    MapSorted (mapAssign m k v) := by
  induction m with
  | nil => simp [mapAssign, MapSorted]
  | cons q rest ih =>
    obtain ⟨k', v'⟩ := q
    have hs0 := hs
    unfold MapSorted at hs
    rw [List.pairwise_cons] at hs
    obtain ⟨hhead, htail⟩ := hs
    have ih := ih htail
    simp only [mapAssign]
    split_ifs with h1 h2
    · unfold MapSorted
      rw [List.pairwise_cons]
      refine ⟨?_, hs0⟩
      intro p hp
      simp only [List.mem_cons] at hp
      rcases hp with h | h
      · rw [h]; exact h1
      · have := hhead p h
        simp at this ⊢; omega
    · subst h2
      unfold MapSorted
      rw [List.pairwise_cons]
      exact ⟨hhead, htail⟩
    · unfold MapSorted
      rw [List.pairwise_cons]
      refine ⟨?_, ih⟩
      intro p hp
      rw [mem_mapAssign rest k v htail] at hp
      rcases hp with h | ⟨h, _⟩
      · rw [h]; simp; omega
      · exact hhead p h

theorem mem_mapErase (m : FreeBlocks) (k : Nat) (hs : MapSorted m) (p : Nat × Nat) :
    p ∈ mapErase m k ↔ (p ∈ m ∧ p.1 ≠ k) := by
  induction m with
  | nil => simp [mapErase]
  | cons q rest ih =>
    obtain ⟨k', v'⟩ := q
    unfold MapSorted at hs
    rw [List.pairwise_cons] at hs
    obtain ⟨hhead, htail⟩ := hs
    have ih := ih htail
    simp only [mapErase]
    split_ifs with h1
    · subst h1
      simp only [List.mem_cons]
      constructor
      · intro h
        refine ⟨Or.inr h, ?_⟩
        have := hhead p h
        simp at this; omega
      · rintro ⟨h | h, hne⟩
        · rw [h] at hne; exact absurd rfl hne
        · exact h
    · simp only [List.mem_cons, ih]
      constructor
      · rintro (h | ⟨h, hne⟩)
        · refine ⟨Or.inl h, ?_⟩
          rw [h]; exact h1
        · exact ⟨Or.inr h, hne⟩
      · rintro ⟨h | h, hne⟩
        · exact Or.inl h
        · exact Or.inr ⟨h, hne⟩

theorem sorted_mapErase (m : FreeBlocks) (k : Nat) (hs : MapSorted m) :
    MapSorted (mapErase m k) := by
  induction m with
  | nil => simp [mapErase, MapSorted]
  | cons q rest ih =>
    obtain ⟨k', v'⟩ := q
    unfold MapSorted at hs
    rw [List.pairwise_cons] at hs
    obtain ⟨hhead, htail⟩ := hs
    have ih := ih htail
    simp only [mapErase]
    split_ifs with h1
    · exact htail
    · unfold MapSorted
      rw [List.pairwise_cons]
      refine ⟨?_, ih⟩
      intro p hp
      rw [mem_mapErase rest k htail] at hp
      exact hhead p hp.1

theorem mapFind_eq_some (m : FreeBlocks) (k v : Nat) (hs : MapSorted m) :
    mapFind m k = some v ↔ (k, v) ∈ m := by
  induction m with
  | nil => simp [mapFind]
  | cons q rest ih =>
    obtain ⟨k', v'⟩ := q
    unfold MapSorted at hs
    rw [List.pairwise_cons] at hs
    obtain ⟨hhead, htail⟩ := hs
    have ih := ih htail
    simp only [mapFind]
    split_ifs with h1
    · subst h1
      simp only [List.mem_cons, Option.some.injEq, Prod.mk.injEq, true_and]
      constructor
      · intro h; exact Or.inl h.symm
      · rintro (h | h)
        · exact h.symm
        · have := hhead _ h
          simp at this
    · simp only [List.mem_cons, ih, Prod.mk.injEq]
      constructor
      · intro h; exact Or.inr h
      · rintro (⟨h, _⟩ | h)
        · exact absurd h.symm h1
        · exact h

theorem mapFind_eq_none (m : FreeBlocks) (k : Nat) :
    mapFind m k = none ↔ ∀ v, (k, v) ∉ m := by
  induction m with
  | nil => simp [mapFind]
  | cons q rest ih =>
    obtain ⟨k', v'⟩ := q
    simp only [mapFind]
    split_ifs with h1
    · subst h1
      simp only [List.mem_cons, false_iff, not_forall, not_not, reduceCtorEq]
      exact ⟨v', Or.inl rfl⟩
    · simp only [List.mem_cons, ih, Prod.mk.injEq, not_or, not_and]
      constructor
      · intro h v
        exact ⟨fun hk => absurd hk.symm h1, h v⟩
      · intro h v
        exact (h v).2

theorem firstFit_eq_some (m : FreeBlocks) (size b s : Nat) (hs : MapSorted m) :
    firstFit m size = some (b, s) ↔
      ((b, s) ∈ m ∧ size ≤ s ∧ ∀ p ∈ m, size ≤ p.2 → b ≤ p.1) := by
  induction m with
  | nil => simp [firstFit]
  | cons q rest ih =>
    obtain ⟨k', v'⟩ := q
    unfold MapSorted at hs
    rw [List.pairwise_cons] at hs
    obtain ⟨hhead, htail⟩ := hs
    have ih := ih htail
    simp only [firstFit]
    split_ifs with h1
    · simp only [Option.some.injEq, Prod.mk.injEq, List.mem_cons, forall_eq_or_imp]
      constructor
      · rintro ⟨rfl, rfl⟩
        refine ⟨Or.inl ⟨rfl, rfl⟩, h1, fun _ => le_refl _, ?_⟩
        intro p hp _
        exact le_of_lt (hhead p hp)
      · rintro ⟨h | h, _, hmin, _⟩
        · exact ⟨h.1.symm, h.2.symm⟩
        · have h2 := hhead _ h
          have h3 := hmin h1
          simp at h2; omega
    · rw [ih]
      simp only [List.mem_cons, Prod.mk.injEq, forall_eq_or_imp]
      constructor
      · rintro ⟨h, hsz, hmin⟩
        exact ⟨Or.inr h, hsz, fun hc => absurd hc h1, hmin⟩
      · rintro ⟨h | h, hsz, _, hmin⟩
        · rw [h.2] at hsz; exact absurd hsz h1
        · exact ⟨h, hsz, hmin⟩

theorem firstFit_eq_none (m : FreeBlocks) (size : Nat) :
    firstFit m size = none ↔ ∀ p ∈ m, p.2 < size := by
  induction m with
  | nil => simp [firstFit]
  | cons q rest ih =>
    obtain ⟨k', v'⟩ := q
    simp only [firstFit]
    split_ifs with h1
    · simp only [List.mem_cons, forall_eq_or_imp, false_iff, not_and, reduceCtorEq]
      intro h; omega
    · simp only [List.mem_cons, forall_eq_or_imp, ih]
      constructor
      · intro h; exact ⟨by omega, h⟩
      · intro h; exact h.2

end infini

namespace infini

/-! ## `Allocator::alloc` -/

theorem alloc_eq_of_firstFit (a : Allocator) (size b s : Nat) (hptr : a.ptr = none)
    (hff : firstFit a.free_blocks (getAlignedSize size) = some (b, s)) :
    a.alloc size = some (b,
      { a with
        free_blocks :=
          mapErase
            (if s - getAlignedSize size > 0 then
              mapAssign a.free_blocks ((b + getAlignedSize size) % SIZE_MOD)
                (s - getAlignedSize size)
            else a.free_blocks) b
        used := (a.used + getAlignedSize size) % SIZE_MOD
        peak :=
          if (a.used + getAlignedSize size) % SIZE_MOD > a.peak then
            (a.used + getAlignedSize size) % SIZE_MOD
          else a.peak }) := by
  unfold Allocator.alloc
  simp only [hptr, ne_eq, not_true_eq_false, if_false, hff]

theorem alloc_eq_of_noFit (a : Allocator) (size : Nat) (hptr : a.ptr = none)
    (hff : firstFit a.free_blocks (getAlignedSize size) = none) :
    a.alloc size = some (a.used,
      { a with
        used := (a.used + getAlignedSize size) % SIZE_MOD
        peak :=
          if (a.used + getAlignedSize size) % SIZE_MOD > a.peak then
            (a.used + getAlignedSize size) % SIZE_MOD
          else a.peak }) := by
  unfold Allocator.alloc
  simp only [hptr, ne_eq, not_true_eq_false, if_false, hff]

/-- C3 (amended): in an un-materialized state with a sorted free map, when
`(b, s)` is the lowest-addressed free block with `s ≥ align_up(size)`, the aligned
request is non-zero, and (when a remainder is left) no free block is based at the
remainder address, `alloc` returns `b`, removes that block, inserts the remainder
`((b + align_up(size)) mod 2^64, s - align_up(size))` exactly when it is non-zero,
and leaves every other free block unchanged. -/
theorem alloc_first_fit (a : Allocator) (size b s : Nat)
    (hptr : a.ptr = none) (hsorted : MapSorted a.free_blocks)
    (hmem : (b, s) ∈ a.free_blocks) (hfit : getAlignedSize size ≤ s)
    (hlow : ∀ p ∈ a.free_blocks, getAlignedSize size ≤ p.2 → b ≤ p.1)
    (hpos : 0 < getAlignedSize size)
    (hrem : getAlignedSize size < s →
      ∀ v, ((b + getAlignedSize size) % SIZE_MOD, v) ∉ a.free_blocks) :
    ∃ a1, a.alloc size = some (b, a1) ∧
      (∀ p, p ∈ a1.free_blocks ↔
        ((p ∈ a.free_blocks ∧ p.1 ≠ b) ∨
          (getAlignedSize size < s ∧
            p = ((b + getAlignedSize size) % SIZE_MOD, s - getAlignedSize size)))) ∧
      MapSorted a1.free_blocks ∧ a1.ptr = none ∧
      a1.used = (a.used + getAlignedSize size) % SIZE_MOD := by
  have hff : firstFit a.free_blocks (getAlignedSize size) = some (b, s) :=
    (firstFit_eq_some _ _ _ _ hsorted).mpr ⟨hmem, hfit, hlow⟩
  refine ⟨_, alloc_eq_of_firstFit a size b s hptr hff, ?_, ?_, hptr, rfl⟩
  · intro p
    have hlt := getAlignedSize_lt size
    have hne : (b + getAlignedSize size) % SIZE_MOD ≠ b := by
      unfold SIZE_MOD at hlt ⊢
      omega
    by_cases hs : getAlignedSize size < s
    · have h0 : s - getAlignedSize size > 0 := by omega
      simp only [h0, if_true]
      rw [mem_mapErase _ _ (sorted_mapAssign _ _ _ hsorted), mem_mapAssign _ _ _ hsorted]
      constructor
      · rintro ⟨h | ⟨h, _⟩, hb⟩
        · exact Or.inr ⟨hs, h⟩
        · exact Or.inl ⟨h, hb⟩
      · rintro (⟨h, hb⟩ | ⟨_, h⟩)
        · refine ⟨Or.inr ⟨h, ?_⟩, hb⟩
          intro hk
          apply hrem hs p.2
          rw [← hk]
          exact h
        · refine ⟨Or.inl h, ?_⟩
          rw [h]
          exact hne
    · have h0 : ¬ (s - getAlignedSize size > 0) := by omega
      simp only [h0, if_false]
      rw [mem_mapErase _ _ hsorted]
      constructor
      · intro h; exact Or.inl h
      · rintro (h | ⟨h, _⟩)
        · exact h
        · exact absurd h hs
  · show MapSorted (mapErase _ b)
    apply sorted_mapErase
    split_ifs
    · exact sorted_mapAssign _ _ _ hsorted
    · exact hsorted

theorem alloc_first_fit_witness :
    ∃ a1, Allocator.alloc { used := 8, peak := 32, ptr := none, free_blocks := [(0, 24)] } 8 =
        some (0, a1) ∧
      (∀ p, p ∈ a1.free_blocks ↔
        ((p ∈ [((0 : Nat), (24 : Nat))] ∧ p.1 ≠ 0) ∨
          (getAlignedSize 8 < 24 ∧ p = ((0 + getAlignedSize 8) % SIZE_MOD, 24 - getAlignedSize 8)))) ∧
      MapSorted a1.free_blocks ∧ a1.ptr = none ∧
      a1.used = (8 + getAlignedSize 8) % SIZE_MOD :=
  alloc_first_fit { used := 8, peak := 32, ptr := none, free_blocks := [(0, 24)] } 8 0 24
    rfl (by simp [MapSorted]) (by simp) (by decide) (by simp) (by decide)
    (by
      intro _ v hv
      have h8 : (0 + getAlignedSize 8) % SIZE_MOD = 8 := by decide
      rw [h8] at hv
      simp at hv)

/-- C3 (counterexample): two states reached by legitimate call histories on which
the claim fails.  With the single free block `(0, 8)`, `alloc 0` picks that block,
whose remainder `(0, 8)` is non-zero, yet the block is dropped and the map ends
empty.  With the free blocks `(0, 16)` and `(8, 24)`, `alloc 8` picks `(0, 16)` and
its remainder `(8, 8)` overwrites the other block `(8, 24)`. -/
theorem alloc_first_fit_counterexample :
    (Reach { used := 0, peak := 8, ptr := none, free_blocks := [(0, 8)] } [] ∧
      firstFit [(0, 8)] (getAlignedSize 0) = some (0, 8) ∧
      8 - getAlignedSize 0 ≠ 0 ∧
      Allocator.alloc { used := 0, peak := 8, ptr := none, free_blocks := [(0, 8)] } 0 =
        some (0, { used := 0, peak := 8, ptr := none, free_blocks := [] }) ∧
      (0 + getAlignedSize 0, 8 - getAlignedSize 0) ∉ ([] : FreeBlocks)) ∧
    (Reach { used := 8, peak := 32, ptr := none, free_blocks := [(0, 16), (8, 24)] } [(16, 8)] ∧
      firstFit [(0, 16), (8, 24)] (getAlignedSize 8) = some (0, 16) ∧
      Allocator.alloc { used := 8, peak := 32, ptr := none, free_blocks := [(0, 16), (8, 24)] } 8 =
        some (0, { used := 16, peak := 32, ptr := none, free_blocks := [(8, 8)] }) ∧
      ((8 : Nat), (24 : Nat)) ∈ [((0 : Nat), (16 : Nat)), (8, 24)] ∧
      ((8 : Nat), (24 : Nat)) ∉ [((8 : Nat), (8 : Nat))]) := by
  have r1 : Reach { used := 8, peak := 8, ptr := none, free_blocks := [] } [(0, 8)] :=
    ReachG.alloc ReachG.init (by decide) trivial (by decide)
  have r2 : Reach { used := 0, peak := 8, ptr := none, free_blocks := [(0, 8)] } [] :=
    @ReachG.free _ _ _ _ 0 8 r1 (by decide) (by decide)
  have q1 : Reach { used := 16, peak := 16, ptr := none, free_blocks := [] } [(0, 16)] :=
    ReachG.alloc ReachG.init (by decide) trivial (by decide)
  have q2 : Reach { used := 24, peak := 24, ptr := none, free_blocks := [] } [(16, 8), (0, 16)] :=
    ReachG.alloc q1 (by decide) trivial (by decide)
  have q3 : Reach { used := 8, peak := 24, ptr := none, free_blocks := [(0, 16)] } [(16, 8)] :=
    @ReachG.free _ _ _ _ 0 16 q2 (by decide) (by decide)
  have q4 : Reach { used := 32, peak := 32, ptr := none, free_blocks := [(0, 16)] }
      [(8, 24), (16, 8)] :=
    ReachG.alloc q3 (by decide) trivial (by decide)
  have q5 : Reach { used := 8, peak := 32, ptr := none, free_blocks := [(0, 16), (8, 24)] }
      [(16, 8)] :=
    @ReachG.free _ _ _ _ 8 24 q4 (by decide) (by decide)
  exact ⟨⟨r2, by decide, by decide, by decide, by decide⟩,
    ⟨q5, by decide, by decide, by decide, by decide⟩⟩

end infini

namespace infini

/-! ## `Allocator::free` -/

theorem free_eq (a : Allocator) (addr size : Nat) (hptr : a.ptr = none) :
    a.free addr size = some
      { a with
        free_blocks :=
          mergeAdjacentBlocks (mapAssign a.free_blocks addr (getAlignedSize size)) addr
            (getAlignedSize size)
        used := (a.used + SIZE_MOD - getAlignedSize size) % SIZE_MOD } := by
  unfold Allocator.free
  simp only [hptr, ne_eq, not_true_eq_false, if_false]

theorem SIZE_MOD_eq : SIZE_MOD = 18446744073709551616 := by
  unfold SIZE_MOD; norm_num

theorem mergePrev_none (fb : FreeBlocks) (addr size : Nat)
    (hprev : ∀ v, mapFind fb ((addr + SIZE_MOD - 1) % SIZE_MOD) = some v →
      ((addr + SIZE_MOD - 1) % SIZE_MOD + v) % SIZE_MOD ≠ addr) :
    mergePrev fb addr size = (fb, addr, size) := by
  unfold mergePrev
  cases h : mapFind fb ((addr + SIZE_MOD - 1) % SIZE_MOD) with
  | none => simp only [h]
  | some v => simp only [h, if_neg (hprev v h)]

theorem mergeNext_some (fb : FreeBlocks) (addr size t : Nat)
    (h : mapFind fb ((addr + size) % SIZE_MOD) = some t) :
    mergeNext fb addr size =
      mapErase (mapAssign fb addr ((size + t) % SIZE_MOD)) ((addr + size) % SIZE_MOD) := by
  unfold mergeNext
  rw [h]

theorem mergeNext_none (fb : FreeBlocks) (addr size : Nat)
    (h : mapFind fb ((addr + size) % SIZE_MOD) = none) :
    mergeNext fb addr size = fb := by
  unfold mergeNext
  rw [h]

/-- C7 (amended): in an un-materialized state with a sorted free map, for a request
with `align_up(size) > 0`, when the map holds a block
`((addr + align_up(size)) mod 2^64, t)` and no block `(p, q)` with
`(p + q) mod 2^64 = addr`, after `free(addr, size)` the map holds the block
`(addr, (align_up(size) + t) mod 2^64)`, no block based at
`(addr + align_up(size)) mod 2^64`, every block based elsewhere is unchanged, and
`used` has become `(used - align_up(size)) mod 2^64`, which is
`used - align_up(size)` when `align_up(size) ≤ used < 2^64`. -/
theorem free_merges_next (a : Allocator) (addr size t : Nat)
    (hptr : a.ptr = none) (hsorted : MapSorted a.free_blocks) (haddr : addr < SIZE_MOD)
    (hpos : 0 < getAlignedSize size)
    (hnext : ((addr + getAlignedSize size) % SIZE_MOD, t) ∈ a.free_blocks)
    (hprev : ∀ p ∈ a.free_blocks, (p.1 + p.2) % SIZE_MOD ≠ addr) :
    ∃ a1, a.free addr size = some a1 ∧
      (addr, (getAlignedSize size + t) % SIZE_MOD) ∈ a1.free_blocks ∧
      (∀ v, ((addr + getAlignedSize size) % SIZE_MOD, v) ∉ a1.free_blocks) ∧
      (∀ p, p.1 ≠ addr → p.1 ≠ (addr + getAlignedSize size) % SIZE_MOD →
        (p ∈ a1.free_blocks ↔ p ∈ a.free_blocks)) ∧
      a1.used = (a.used + SIZE_MOD - getAlignedSize size) % SIZE_MOD ∧
      (getAlignedSize size ≤ a.used → a.used < SIZE_MOD →
        a1.used = a.used - getAlignedSize size) := by
  have hlt := getAlignedSize_lt size
  have hne : (addr + getAlignedSize size) % SIZE_MOD ≠ addr := by
    rw [SIZE_MOD_eq] at hlt haddr ⊢
    omega
  have hpne : (addr + SIZE_MOD - 1) % SIZE_MOD ≠ addr := by
    rw [SIZE_MOD_eq] at haddr ⊢
    omega
  have hs1 := sorted_mapAssign a.free_blocks addr (getAlignedSize size) hsorted
  have hnoprev : ∀ v, mapFind (mapAssign a.free_blocks addr (getAlignedSize size))
        ((addr + SIZE_MOD - 1) % SIZE_MOD) = some v →
      ((addr + SIZE_MOD - 1) % SIZE_MOD + v) % SIZE_MOD ≠ addr := by
    intro v hv
    rw [mapFind_eq_some _ _ _ hs1, mem_mapAssign _ _ _ hsorted] at hv
    cases hv with
    | inl h =>
      have h1 := congrArg Prod.fst h
      exact absurd h1 hpne
    | inr h =>
      have h2 := hprev _ h.1
      simp only at h2
      exact h2
  have hfind : mapFind (mapAssign a.free_blocks addr (getAlignedSize size))
      ((addr + getAlignedSize size) % SIZE_MOD) = some t := by
    rw [mapFind_eq_some _ _ _ hs1, mem_mapAssign _ _ _ hsorted]
    exact Or.inr ⟨hnext, hne⟩
  have hmerge : mergeAdjacentBlocks (mapAssign a.free_blocks addr (getAlignedSize size)) addr
      (getAlignedSize size) =
      mapErase (mapAssign (mapAssign a.free_blocks addr (getAlignedSize size)) addr
        ((getAlignedSize size + t) % SIZE_MOD)) ((addr + getAlignedSize size) % SIZE_MOD) := by
    unfold mergeAdjacentBlocks
    rw [mergePrev_none _ _ _ hnoprev]
    exact mergeNext_some _ _ _ _ hfind
  refine ⟨_, free_eq a addr size hptr, ?_, ?_, ?_, rfl, ?_⟩
  · show (addr, (getAlignedSize size + t) % SIZE_MOD) ∈ mergeAdjacentBlocks _ addr _
    rw [hmerge, mem_mapErase _ _ (sorted_mapAssign _ _ _ hs1), mem_mapAssign _ _ _ hs1]
    exact ⟨Or.inl rfl, fun h => hne h.symm⟩
  · intro v
    show ((addr + getAlignedSize size) % SIZE_MOD, v) ∉ mergeAdjacentBlocks _ addr _
    rw [hmerge, mem_mapErase _ _ (sorted_mapAssign _ _ _ hs1)]
    intro h
    exact h.2 rfl
  · intro p hp1 hp2
    show p ∈ mergeAdjacentBlocks _ addr _ ↔ p ∈ a.free_blocks
    rw [hmerge, mem_mapErase _ _ (sorted_mapAssign _ _ _ hs1), mem_mapAssign _ _ _ hs1,
      mem_mapAssign _ _ _ hsorted]
    constructor
    · rintro ⟨h | ⟨h | ⟨h, _⟩, _⟩, _⟩
      · rw [h] at hp1; exact absurd rfl hp1
      · rw [h] at hp1; exact absurd rfl hp1
      · exact h
    · intro h
      exact ⟨Or.inr ⟨Or.inr ⟨h, hp1⟩, hp1⟩, hp2⟩
  · intro h1 h2
    show (a.used + SIZE_MOD - getAlignedSize size) % SIZE_MOD = a.used - getAlignedSize size
    rw [SIZE_MOD_eq] at hlt h2 ⊢
    omega

theorem free_merges_next_witness :
    ∃ a1, Allocator.free { used := 16, peak := 32, ptr := none, free_blocks := [(8, 16)] } 0 8 =
        some a1 ∧
      (0, (getAlignedSize 8 + 16) % SIZE_MOD) ∈ a1.free_blocks ∧
      (∀ v, ((0 + getAlignedSize 8) % SIZE_MOD, v) ∉ a1.free_blocks) ∧
      (∀ p : Nat × Nat, p.1 ≠ 0 → p.1 ≠ (0 + getAlignedSize 8) % SIZE_MOD →
        (p ∈ a1.free_blocks ↔ p ∈ [((8 : Nat), (16 : Nat))])) ∧
      a1.used = (16 + SIZE_MOD - getAlignedSize 8) % SIZE_MOD ∧
      (getAlignedSize 8 ≤ 16 → 16 < SIZE_MOD → a1.used = 16 - getAlignedSize 8) :=
  free_merges_next { used := 16, peak := 32, ptr := none, free_blocks := [(8, 16)] } 0 8 16
    rfl (by simp [MapSorted]) (by decide) (by decide) (by decide) (by decide)

/-- C7 (counterexample): in the state with the single free block `(0, 8)`, reached
by `alloc 8` then `free(0, 8)`, the call `free(0, 0)` meets the premises of the
claim (the map holds a block based at `0 + align_up(0)`, no block touches 0 from
below), yet afterwards the map is empty: it does not hold `(0, align_up(0) + 8)`. -/
theorem free_merges_next_counterexample :
    Reach { used := 0, peak := 8, ptr := none, free_blocks := [(0, 8)] } [] ∧
    ((0 + getAlignedSize 0) % SIZE_MOD, 8) ∈ [((0 : Nat), (8 : Nat))] ∧
    (∀ p ∈ [((0 : Nat), (8 : Nat))], (p.1 + p.2) % SIZE_MOD ≠ 0) ∧
    Allocator.free { used := 0, peak := 8, ptr := none, free_blocks := [(0, 8)] } 0 0 =
      some { used := 0, peak := 8, ptr := none, free_blocks := [] } ∧
    (0, (getAlignedSize 0 + 8) % SIZE_MOD) ∉ ([] : FreeBlocks) := by
  have r1 : Reach { used := 8, peak := 8, ptr := none, free_blocks := [] } [(0, 8)] :=
    ReachG.alloc ReachG.init (by decide) trivial (by decide)
  have r2 : Reach { used := 0, peak := 8, ptr := none, free_blocks := [(0, 8)] } [] :=
    @ReachG.free _ _ _ _ 0 8 r1 (by decide) (by decide)
  exact ⟨r2, by decide, by decide, by decide, by decide⟩

/-- C1 (the code at the failing input): after allocations of 8, 16, 8 bytes
(offsets 0, 8, 24) and the calls `free(8, 16)`, `free(0, 8)`, the call
`free(24, 8)` finds the free block `(0, 24)` ending at 24, and leaves the two
blocks `(0, 24)` and `(24, 8)`, not the single block `(0, 32)`; `used` is 0. -/
theorem free_misses_preceding_block :
    Allocator.alloc Allocator.fresh 8 =
      some (0, { used := 8, peak := 8, ptr := none, free_blocks := [] }) ∧
    Allocator.alloc { used := 8, peak := 8, ptr := none, free_blocks := [] } 16 =
      some (8, { used := 24, peak := 24, ptr := none, free_blocks := [] }) ∧
    Allocator.alloc { used := 24, peak := 24, ptr := none, free_blocks := [] } 8 =
      some (24, { used := 32, peak := 32, ptr := none, free_blocks := [] }) ∧
    Allocator.free { used := 32, peak := 32, ptr := none, free_blocks := [] } 8 16 =
      some { used := 16, peak := 32, ptr := none, free_blocks := [(8, 16)] } ∧
    Allocator.free { used := 16, peak := 32, ptr := none, free_blocks := [(8, 16)] } 0 8 =
      some { used := 8, peak := 32, ptr := none, free_blocks := [(0, 24)] } ∧
    Allocator.free { used := 8, peak := 32, ptr := none, free_blocks := [(0, 24)] } 24 8 =
      some { used := 0, peak := 32, ptr := none, free_blocks := [(0, 24), (24, 8)] } ∧
    (0 + 24 = 24 ∧ ((24 : Nat), (8 : Nat)) ∈ [((0 : Nat), (24 : Nat)), (24, 8)] ∧
      ((0 : Nat), (32 : Nat)) ∉ [((0 : Nat), (24 : Nat)), (24, 8)]) := by
  decide

/-- C2 (the code at the failing input): the state reached by allocations of 8, 16,
8 bytes followed by `free(8, 16)`, `free(0, 8)`, `free(24, 8)`, each free passing a
pair handed out by an earlier `alloc` and not yet freed, has the two distinct free
blocks `(0, 24)` and `(24, 8)` with `0 < 24` and `0 + 24 = 24`: they touch. -/
theorem reachable_free_blocks_touch :
    Reach { used := 0, peak := 32, ptr := none, free_blocks := [(0, 24), (24, 8)] } [] ∧
    ((0 : Nat), (24 : Nat)) ∈ [((0 : Nat), (24 : Nat)), (24, 8)] ∧
    ((24 : Nat), (8 : Nat)) ∈ [((0 : Nat), (24 : Nat)), (24, 8)] ∧
    (0 : Nat) < 24 ∧ ¬ ((0 : Nat) + 24 < 24) := by
  have r1 : Reach { used := 8, peak := 8, ptr := none, free_blocks := [] } [(0, 8)] :=
    ReachG.alloc ReachG.init (by decide) trivial (by decide)
  have r2 : Reach { used := 24, peak := 24, ptr := none, free_blocks := [] }
      [(8, 16), (0, 8)] :=
    ReachG.alloc r1 (by decide) trivial (by decide)
  have r3 : Reach { used := 32, peak := 32, ptr := none, free_blocks := [] }
      [(24, 8), (8, 16), (0, 8)] :=
    ReachG.alloc r2 (by decide) trivial (by decide)
  have r4 : Reach { used := 16, peak := 32, ptr := none, free_blocks := [(8, 16)] }
      [(24, 8), (0, 8)] :=
    @ReachG.free _ _ _ _ 8 16 r3 (by decide) (by decide)
  have r5 : Reach { used := 8, peak := 32, ptr := none, free_blocks := [(0, 24)] }
      [(24, 8)] :=
    @ReachG.free _ _ _ _ 0 8 r4 (by decide) (by decide)
  have r6 : Reach { used := 0, peak := 32, ptr := none, free_blocks := [(0, 24), (24, 8)] } [] :=
    @ReachG.free _ _ _ _ 24 8 r5 (by decide) (by decide)
  exact ⟨r6, by decide, by decide, by decide, by decide⟩

end infini

namespace infini

/-! ## The counters `used` and `peak` -/

theorem alloc_counters (a a1 : Allocator) (size addr : Nat)
    (h : a.alloc size = some (addr, a1)) :
    a1.used = (a.used + getAlignedSize size) % SIZE_MOD ∧
    a1.peak = (if a1.used > a.peak then a1.used else a.peak) := by
  unfold Allocator.alloc at h
  by_cases hptr : a.ptr = none
  · simp only [hptr, ne_eq, not_true_eq_false, if_false] at h
    cases hff : firstFit a.free_blocks (getAlignedSize size) with
    | none =>
      simp only [hff, Option.some.injEq, Prod.mk.injEq] at h
      obtain ⟨_, rfl⟩ := h
      exact ⟨rfl, rfl⟩
    | some bs =>
      obtain ⟨b, s⟩ := bs
      simp only [hff, Option.some.injEq, Prod.mk.injEq] at h
      obtain ⟨_, rfl⟩ := h
      exact ⟨rfl, rfl⟩
  · simp only [ne_eq, hptr, not_false_eq_true, if_true] at h
    cases h

theorem free_counters (a a1 : Allocator) (addr size : Nat)
    (h : a.free addr size = some a1) :
    a1.used = (a.used + SIZE_MOD - getAlignedSize size) % SIZE_MOD ∧ a1.peak = a.peak := by
  unfold Allocator.free at h
  by_cases hptr : a.ptr = none
  · simp only [hptr, ne_eq, not_true_eq_false, if_false, Option.some.injEq] at h
    subst h
    exact ⟨rfl, rfl⟩
  · simp only [ne_eq, hptr, not_false_eq_true, if_true] at h
    cases h

theorem sum_aligned_erase (live : List (Nat × Nat)) (p : Nat × Nat) (hp : p ∈ live) :
    ((live.erase p).map (fun q => getAlignedSize q.2)).sum + getAlignedSize p.2 =
      (live.map (fun q => getAlignedSize q.2)).sum := by
  induction live with
  | nil => cases hp
  | cons q rest ih =>
    rw [List.erase_cons]
    by_cases hq : q = p
    · subst hq
      simp only [beq_self_eq_true, if_true, List.map_cons, List.sum_cons]
      omega
    · have hbeq : (q == p) = false := by
        rw [beq_eq_false_iff_ne]
        exact hq
      have hmem : p ∈ rest := by
        rcases List.mem_cons.mp hp with h | h
        · exact absurd h.symm hq
        · exact h
      have ih := ih hmem
      simp only [hbeq, Bool.false_eq_true, if_false, List.map_cons, List.sum_cons]
      omega

theorem noWrap_invariant (a : Allocator) (live : List (Nat × Nat))
    (h : ReachG noWrapAlloc a live) :
    a.used = (live.map (fun q => getAlignedSize q.2)).sum ∧ a.used ≤ a.peak ∧
      a.used < SIZE_MOD := by
  induction h with
  | init => exact ⟨rfl, le_refl _, by decide⟩
  | @alloc a a1 live size addr _ _ hg halloc ih =>
    obtain ⟨ih1, ih2, ih3⟩ := ih
    obtain ⟨hu, hp⟩ := alloc_counters a a1 size addr halloc
    have hg2 : a.used + getAlignedSize size < SIZE_MOD := hg
    have hu2 : a1.used = a.used + getAlignedSize size := by
      rw [hu]; exact Nat.mod_eq_of_lt hg2
    refine ⟨?_, ?_, ?_⟩
    · simp only [List.map_cons, List.sum_cons]
      omega
    · rw [hp]
      split_ifs <;> omega
    · rw [hu2]; exact hg2
  | @free a a1 live addr size _ hmem hfree ih =>
    obtain ⟨ih1, ih2, ih3⟩ := ih
    obtain ⟨hu, hp⟩ := free_counters a a1 addr size hfree
    have hsum := sum_aligned_erase live (addr, size) hmem
    simp only at hsum
    have hle : getAlignedSize size ≤ a.used := by omega
    have hu2 : a1.used = a.used - getAlignedSize size := by
      rw [hu, SIZE_MOD_eq]
      rw [SIZE_MOD_eq] at ih3
      omega
    refine ⟨by omega, by omega, by omega⟩

/-- C5 (amended): in every state reached from the freshly constructed allocator by
`alloc` calls that do not wrap the 64-bit counter (`used + align_up(size) < 2^64`
at each call) and by `free` calls that return a block handed out by an earlier
`alloc` and not yet freed, `peak ≥ used` holds, and `used` is the sum of the
aligned sizes of the live blocks (it does not underflow). -/
theorem peak_ge_used (a : Allocator) (live : List (Nat × Nat))
    (h : ReachG noWrapAlloc a live) :
    a.peak ≥ a.used ∧ a.used = (live.map (fun q => getAlignedSize q.2)).sum :=
  ⟨(noWrap_invariant a live h).2.1, (noWrap_invariant a live h).1⟩

theorem peak_ge_used_witness :
    ReachG noWrapAlloc { used := 16, peak := 32, ptr := none, free_blocks := [(8, 16)] }
      [(24, 8), (0, 8)] ∧
    ((32 : Nat) ≥ 16 ∧
      (16 : Nat) = (([((24 : Nat), (8 : Nat)), (0, 8)]).map (fun q => getAlignedSize q.2)).sum) := by
  have r1 : ReachG noWrapAlloc { used := 8, peak := 8, ptr := none, free_blocks := [] } [(0, 8)] :=
    ReachG.alloc ReachG.init (by decide) (by unfold noWrapAlloc; decide) (by decide)
  have r2 : ReachG noWrapAlloc { used := 24, peak := 24, ptr := none, free_blocks := [] }
      [(8, 16), (0, 8)] :=
    ReachG.alloc r1 (by decide) (by unfold noWrapAlloc; decide) (by decide)
  have r3 : ReachG noWrapAlloc { used := 32, peak := 32, ptr := none, free_blocks := [] }
      [(24, 8), (8, 16), (0, 8)] :=
    ReachG.alloc r2 (by decide) (by unfold noWrapAlloc; decide) (by decide)
  have r4 : ReachG noWrapAlloc { used := 16, peak := 32, ptr := none, free_blocks := [(8, 16)] }
      [(24, 8), (0, 8)] :=
    @ReachG.free _ _ _ _ 8 16 r3 (by decide) (by decide)
  exact ⟨r4, peak_ge_used _ _ r4⟩

/-- C5 (counterexample): the calls `alloc(8)` (offset 0), `alloc(2^64 - 8)` (which
wraps `used` to 0) and `free(0, 8)` (a live block) reach a state with
`used = 2^64 - 8` and `peak = 8`: `peak ≥ used` fails. -/
theorem peak_ge_used_counterexample :
    Reach { used := 18446744073709551608, peak := 8, ptr := none, free_blocks := [(0, 8)] }
      [(8, 18446744073709551608)] ∧
    ¬ ((8 : Nat) ≥ 18446744073709551608) := by
  have r1 : Reach { used := 8, peak := 8, ptr := none, free_blocks := [] } [(0, 8)] :=
    ReachG.alloc ReachG.init (by decide) trivial (by decide)
  have r2 : Reach { used := 0, peak := 8, ptr := none, free_blocks := [] }
      [(8, 18446744073709551608), (0, 8)] :=
    ReachG.alloc r1 (by decide) trivial (by decide)
  have r3 :
      Reach { used := 18446744073709551608, peak := 8, ptr := none, free_blocks := [(0, 8)] }
        [(8, 18446744073709551608)] :=
    @ReachG.free _ _ _ _ 0 8 r2 (by decide) (by decide)
  exact ⟨r3, by decide⟩

end infini

namespace infini

/-! ## `GraphObj::dataMalloc` -/

theorem dataMallocLoop_spec (tensors : List (Option TensorObj)) (a : Allocator)
    (seen : List Nat) (offs : List (TensorObj × Nat))
    (hptr : a.ptr = none) (hfb : a.free_blocks = []) (hpk : a.peak = a.used)
    (hsum : a.used +
      ((distinctTensors tensors seen).map (fun t => getAlignedSize t.bytes)).sum < SIZE_MOD) :
    ∃ a1, dataMallocLoop tensors a seen offs =
        some (a1, offs ++ (distinctTensors tensors seen).zip
          (prefixSums a.used ((distinctTensors tensors seen).map
            (fun t => getAlignedSize t.bytes)))) ∧
      a1.ptr = none ∧ a1.free_blocks = [] ∧ a1.peak = a1.used ∧
      a1.used = a.used +
        ((distinctTensors tensors seen).map (fun t => getAlignedSize t.bytes)).sum := by
  induction tensors generalizing a seen offs with
  | nil =>
    refine ⟨a, ?_, hptr, hfb, hpk, ?_⟩
    · simp [dataMallocLoop, distinctTensors, prefixSums]
    · simp [distinctTensors]
  | cons x rest ih =>
    cases x with
    | none =>
      simp only [dataMallocLoop, distinctTensors] at hsum ⊢
      exact ih a seen offs hptr hfb hpk hsum
    | some t =>
      by_cases hseen : t.ptr ∈ seen
      · simp only [dataMallocLoop, distinctTensors, hseen, if_true] at hsum ⊢
        exact ih a seen offs hptr hfb hpk hsum
      · simp only [distinctTensors, hseen, if_false, List.map_cons, List.sum_cons] at hsum
        have hff : firstFit a.free_blocks (getAlignedSize t.bytes) = none := by
          rw [hfb]; rfl
        have halloc := alloc_eq_of_noFit a t.bytes hptr hff
        have hmod : (a.used + getAlignedSize t.bytes) % SIZE_MOD =
            a.used + getAlignedSize t.bytes := Nat.mod_eq_of_lt (by omega)
        rw [hmod] at halloc
        have hpeak : (if a.used + getAlignedSize t.bytes > a.peak then
            a.used + getAlignedSize t.bytes else a.peak) = a.used + getAlignedSize t.bytes := by
          split_ifs <;> omega
        rw [hpeak] at halloc
        obtain ⟨a1, h1, h2, h3, h4, h5⟩ :=
          ih { a with used := a.used + getAlignedSize t.bytes,
                      peak := a.used + getAlignedSize t.bytes }
            (t.ptr :: seen) (offs ++ [(t, a.used)]) hptr hfb rfl (by simp only; omega)
        refine ⟨a1, ?_, h2, h3, h4, ?_⟩
        · simp only [dataMallocLoop, distinctTensors, hseen, if_false, halloc, h1,
            List.map_cons, prefixSums, List.zip_cons_cons, List.append_assoc,
            List.singleton_append]
        · simp only [distinctTensors, hseen, if_false, List.map_cons, List.sum_cons]
          rw [h5]
          simp only
          omega

theorem prefixSums_zip_ge (ts : List TensorObj) (u : Nat) :
    ∀ q ∈ ts.zip (prefixSums u (ts.map (fun t => getAlignedSize t.bytes))), u ≤ q.2 := by
  induction ts generalizing u with
  | nil => simp [prefixSums]
  | cons t rest ih =>
    intro q hq
    simp only [List.map_cons, prefixSums, List.zip_cons_cons, List.mem_cons] at hq
    rcases hq with h | h
    · rw [h]
    · have := ih (u + getAlignedSize t.bytes) q h
      omega

theorem prefixSums_zip_pairwise (ts : List TensorObj) (u : Nat)
    (hb : ∀ t ∈ ts, t.bytes ≤ getAlignedSize t.bytes) :
    (ts.zip (prefixSums u (ts.map (fun t => getAlignedSize t.bytes)))).Pairwise
      (fun p q => p.2 + p.1.bytes ≤ q.2) := by
  induction ts generalizing u with
  | nil => simp [prefixSums]
  | cons t rest ih =>
    simp only [List.map_cons, prefixSums, List.zip_cons_cons, List.pairwise_cons]
    refine ⟨?_, ih _ (fun t1 ht1 => hb t1 (List.mem_cons_of_mem _ ht1))⟩
    intro q hq
    have h1 := prefixSums_zip_ge rest (u + getAlignedSize t.bytes) q hq
    have h2 := hb t (List.mem_cons_self _ _)
    omega

/-- C4 (amended): for a graph with a fresh allocator whose distinct tensors each
have at most `2^64 - 8` bytes and whose aligned sizes sum to less than `2^64`,
`dataMalloc` gives the `i`-th distinct tensor (insertion order) the offset equal to
the sum of `align_up(bytes)` of the earlier ones; an earlier tensor's range
`[offset, offset + bytes)` ends at or before the offset of every later one, so the
ranges are pairwise disjoint; and `peak` is the sum of all aligned sizes. -/
theorem dataMalloc_offsets (tensors : List (Option TensorObj))
    (runtimeAlloc : Nat → Option Nat)
    (hbytes : ∀ t ∈ distinctTensors tensors [], t.bytes ≤ 2 ^ 64 - 8)
    (hsum : ((distinctTensors tensors []).map (fun t => getAlignedSize t.bytes)).sum < SIZE_MOD) :
    ∃ r, dataMalloc true runtimeAlloc Allocator.fresh tensors = some r ∧
      r.tensor_offsets = (distinctTensors tensors []).zip
        (prefixSums 0 ((distinctTensors tensors []).map (fun t => getAlignedSize t.bytes))) ∧
      r.tensor_offsets.Pairwise (fun p q => p.2 + p.1.bytes ≤ q.2) ∧
      r.allocator.peak =
        ((distinctTensors tensors []).map (fun t => getAlignedSize t.bytes)).sum := by
  obtain ⟨a1, h1, h2, _, h4, h5⟩ :=
    dataMallocLoop_spec tensors Allocator.fresh [] [] rfl rfl rfl
      (by simp only [Allocator.fresh]; omega)
  simp only [Allocator.fresh, List.nil_append, Nat.zero_add] at h1 h5
  have hrun : dataMalloc true runtimeAlloc Allocator.fresh tensors =
      some
        { allocator := (a1.getPtr runtimeAlloc).2
          tensor_offsets := (distinctTensors tensors []).zip
            (prefixSums 0 ((distinctTensors tensors []).map (fun t => getAlignedSize t.bytes)))
          blobs :=
            match (a1.getPtr runtimeAlloc).1 with
            | some base_ptr =>
              ((distinctTensors tensors []).zip
                (prefixSums 0 ((distinctTensors tensors []).map
                  (fun t => getAlignedSize t.bytes)))).map (fun p => (p.1, base_ptr + p.2))
            | none => [] } := by
    unfold dataMalloc
    simp only [Allocator.fresh, h1, if_false, Bool.true_eq_false]
  refine ⟨_, hrun, rfl, ?_, ?_⟩
  · exact prefixSums_zip_pairwise _ 0 (fun t ht => le_getAlignedSize _ (hbytes t ht))
  · show (a1.getPtr runtimeAlloc).2.peak = _
    unfold Allocator.getPtr
    rw [h2]
    simp only
    rw [h4, h5]

theorem dataMalloc_offsets_witness :
    dataMalloc true (fun _ => some 4096) Allocator.fresh
        [some { ptr := 1, bytes := 8 }, some { ptr := 2, bytes := 16 },
          some { ptr := 3, bytes := 8 }] =
      some
        { allocator := { used := 32, peak := 32, ptr := some 4096, free_blocks := [] }
          tensor_offsets :=
            [({ ptr := 1, bytes := 8 }, 0), ({ ptr := 2, bytes := 16 }, 8),
              ({ ptr := 3, bytes := 8 }, 24)]
          blobs :=
            [({ ptr := 1, bytes := 8 }, 4096), ({ ptr := 2, bytes := 16 }, 4104),
              ({ ptr := 3, bytes := 8 }, 4120)] } ∧
    ∃ r, dataMalloc true (fun _ => some 4096) Allocator.fresh
        [some { ptr := 1, bytes := 8 }, some { ptr := 2, bytes := 16 },
          some { ptr := 3, bytes := 8 }] = some r ∧
      r.tensor_offsets = (distinctTensors [some { ptr := 1, bytes := 8 },
          some { ptr := 2, bytes := 16 }, some { ptr := 3, bytes := 8 }] []).zip
        (prefixSums 0 ((distinctTensors [some { ptr := 1, bytes := 8 },
          some { ptr := 2, bytes := 16 }, some { ptr := 3, bytes := 8 }] []).map
            (fun t => getAlignedSize t.bytes))) ∧
      r.tensor_offsets.Pairwise (fun p q => p.2 + p.1.bytes ≤ q.2) ∧
      r.allocator.peak =
        ((distinctTensors [some { ptr := 1, bytes := 8 }, some { ptr := 2, bytes := 16 },
          some { ptr := 3, bytes := 8 }] []).map (fun t => getAlignedSize t.bytes)).sum :=
  ⟨rfl, dataMalloc_offsets _ _ (by decide) (by decide)⟩

/-- C4 (counterexample): a graph with three distinct tensors of `2^63`, `2^63` and
8 bytes (for instance Float32 shapes `[2^30, 2^30, 2]`, `[2^30, 2^30, 2]`, `[2]`)
and a fresh allocator.  The counter `used` wraps to 0 at the second allocation, so
the third tensor gets offset 0, not the sum `2^64` of the earlier aligned sizes;
byte 0 lies in the ranges of both the first and the third tensor; and `peak` is
`2^63`, not the sum `2^64 + 8`. -/
theorem dataMalloc_offsets_counterexample :
    dataMalloc true (fun _ => none) Allocator.fresh
        [some { ptr := 1, bytes := 9223372036854775808 },
          some { ptr := 2, bytes := 9223372036854775808 }, some { ptr := 3, bytes := 8 }] =
      some
        { allocator :=
            { used := 8, peak := 9223372036854775808, ptr := none, free_blocks := [] }
          tensor_offsets :=
            [({ ptr := 1, bytes := 9223372036854775808 }, 0),
              ({ ptr := 2, bytes := 9223372036854775808 }, 9223372036854775808),
              ({ ptr := 3, bytes := 8 }, 0)]
          blobs := [] } ∧
    (0 : Nat) ≠ getAlignedSize 9223372036854775808 + getAlignedSize 9223372036854775808 ∧
    ((0 : Nat) ≤ 0 ∧ (0 : Nat) < 0 + 9223372036854775808 ∧ (0 : Nat) < 0 + 8) ∧
    (9223372036854775808 : Nat) ≠
      getAlignedSize 9223372036854775808 + getAlignedSize 9223372036854775808 +
        getAlignedSize 8 := by
  refine ⟨rfl, by decide, by decide, by decide⟩

end infini

namespace infini

/-! ## `MatmulObj::inferShape` -/

theorem swapAt_length (v : Shape) (i j : Nat) : (swapAt v i j).length = v.length := by
  unfold swapAt
  simp

theorem swapAt_lastTwo (v : Shape) (h : 2 ≤ v.length) :
    (swapAt v (v.length - 2) (v.length - 1)).getD (v.length - 2) 0 = v.getD (v.length - 1) 0 ∧
    (swapAt v (v.length - 2) (v.length - 1)).getD (v.length - 1) 0 = v.getD (v.length - 2) 0 := by
  unfold swapAt
  have h1 : v.length - 2 < v.length := by omega
  have h2 : v.length - 1 < v.length := by omega
  have h3 : v.length - 2 ≠ v.length - 1 := by omega
  constructor
  · simp only [List.getD_eq_getElem?_getD]
    rw [List.getElem?_set_ne (Ne.symm h3), List.getElem?_set_self h1]
    simp
  · simp only [List.getD_eq_getElem?_getD]
    rw [List.getElem?_set_self (by simpa using h2)]
    simp

theorem matmul_resultBatch (batchA batchB : Shape) :
    (if batchA.isEmpty = true ∧ batchB.isEmpty = true then some []
      else if batchA.isEmpty = true then some batchB
      else if batchB.isEmpty = true then some batchA
      else
        match infer_broadcast batchA batchB with
        | Except.ok r => some r
        | Except.error _ => none) =
      (match infer_broadcast batchA batchB with
        | Except.ok r => some r
        | Except.error _ => none) := by
  unfold infer_broadcast
  cases batchA with
  | nil =>
    cases batchB with
    | nil => simp
    | cons b bs => simp
  | cons a as =>
    cases batchB with
    | nil => simp
    | cons b bs => simp

theorem matmul_inferShape_eval (op : MatmulObj) (A B : Shape)
    (hA : 2 ≤ A.length) (hB : 2 ≤ B.length) :
    op.inferShape [some A, some B] =
      if (matDims A op.transA).2 ≠ (matDims B op.transB).1 then (none, op)
      else
        match infer_broadcast (batchDims A) (batchDims B) with
        | Except.ok rb =>
          (some [rb ++ [(matDims A op.transA).1, (matDims B op.transB).2]],
            { op with m := (matDims A op.transA).1, n := (matDims B op.transB).2,
                      k := (matDims A op.transA).2 })
        | Except.error _ => (none, op) := by
  have hdA : ∀ (tr : Bool),
      ((if tr = true ∧ A.length ≥ 2 then swapAt A (A.length - 2) (A.length - 1) else A).getD
          ((if tr = true ∧ A.length ≥ 2 then swapAt A (A.length - 2) (A.length - 1)
            else A).length - 2) 0 = (matDims A tr).1) ∧
      ((if tr = true ∧ A.length ≥ 2 then swapAt A (A.length - 2) (A.length - 1) else A).getD
          ((if tr = true ∧ A.length ≥ 2 then swapAt A (A.length - 2) (A.length - 1)
            else A).length - 1) 0 = (matDims A tr).2) := by
    intro tr
    cases tr with
    | false => simp [matDims, lastTwo]
    | true =>
      simp only [hA, ge_iff_le, and_self, if_true, swapAt_length, matDims, lastTwo]
      exact swapAt_lastTwo A hA
  have hdB : ∀ (tr : Bool),
      ((if tr = true ∧ B.length ≥ 2 then swapAt B (B.length - 2) (B.length - 1) else B).getD
          ((if tr = true ∧ B.length ≥ 2 then swapAt B (B.length - 2) (B.length - 1)
            else B).length - 2) 0 = (matDims B tr).1) ∧
      ((if tr = true ∧ B.length ≥ 2 then swapAt B (B.length - 2) (B.length - 1) else B).getD
          ((if tr = true ∧ B.length ≥ 2 then swapAt B (B.length - 2) (B.length - 1)
            else B).length - 1) 0 = (matDims B tr).2) := by
    intro tr
    cases tr with
    | false => simp [matDims, lastTwo]
    | true =>
      simp only [hB, ge_iff_le, and_self, if_true, swapAt_length, matDims, lastTwo]
      exact swapAt_lastTwo B hB
  have hr : ¬ (A.length < 2 ∨ B.length < 2) := by omega
  unfold MatmulObj.inferShape
  simp only [List.length_cons, List.length_nil, ne_eq, not_true_eq_false, if_false, hr]
  rw [(hdA op.transA).1, (hdA op.transA).2, (hdB op.transB).1, (hdB op.transB).2,
    matmul_resultBatch]
  unfold batchDims
  split_ifs with hk
  · generalize infer_broadcast (List.take (A.length - 2) A) (List.take (B.length - 2) B) = r
    cases r <;> rfl
  · rfl

/-- C11: for shapes `A`, `B` of rank at least 2 and any flags, with `(m, kA)` the
last two axes of `A` (swapped if `transA`) and `(kB, n)` those of `B` (swapped if
`transB`): if `kA = kB` and the batch axes broadcast to `rb`, `inferShape` returns
exactly the one shape `rb ++ [m, n]` and the cached `(m, n, k)` become
`(m, n, kA)`.  The two literal cases of the specification are included. -/
theorem matmul_inferShape_shape (op : MatmulObj) (A B rb : Shape)
    (hA : 2 ≤ A.length) (hB : 2 ≤ B.length)
    (hk : (matDims A op.transA).2 = (matDims B op.transB).1)
    (hb : infer_broadcast (batchDims A) (batchDims B) = Except.ok rb) :
    op.inferShape [some A, some B] =
      (some [rb ++ [(matDims A op.transA).1, (matDims B op.transB).2]],
        { op with m := (matDims A op.transA).1, n := (matDims B op.transB).2,
                  k := (matDims A op.transA).2 }) ∧
    MatmulObj.inferShape { transA := false, transB := false, m := 0, n := 0, k := 0 }
        [some [2, 3, 5], some [2, 5, 7]] =
      (some [[2, 3, 7]], { transA := false, transB := false, m := 3, n := 7, k := 5 }) ∧
    (MatmulObj.inferShape { transA := false, transB := true, m := 0, n := 0, k := 0 }
        [some [4, 6], some [8, 6]]).1 = some [[4, 8]] := by
  refine ⟨?_, by decide, by decide⟩
  rw [matmul_inferShape_eval op A B hA hB, if_neg (not_not.mpr hk), hb]

theorem matmul_inferShape_shape_witness :
    MatmulObj.inferShape { transA := true, transB := false, m := 0, n := 0, k := 0 }
        [some [1, 5, 3], some [2, 5, 7]] =
      (some [[2] ++ [(matDims [1, 5, 3] true).1, (matDims [2, 5, 7] false).2]],
        { transA := true, transB := false, m := (matDims [1, 5, 3] true).1,
          n := (matDims [2, 5, 7] false).2, k := (matDims [1, 5, 3] true).2 }) ∧
    MatmulObj.inferShape { transA := false, transB := false, m := 0, n := 0, k := 0 }
        [some [2, 3, 5], some [2, 5, 7]] =
      (some [[2, 3, 7]], { transA := false, transB := false, m := 3, n := 7, k := 5 }) ∧
    (MatmulObj.inferShape { transA := false, transB := true, m := 0, n := 0, k := 0 }
        [some [4, 6], some [8, 6]]).1 = some [[4, 8]] :=
  matmul_inferShape_shape { transA := true, transB := false, m := 0, n := 0, k := 0 }
    [1, 5, 3] [2, 5, 7] [2] (by decide) (by decide) (by decide) rfl

/-- C12: for two non-null inputs of shapes `A`, `B`, `inferShape` returns `none`
exactly when `rank A < 2`, or `rank B < 2`, or the effective inner dimensions
differ, or the batch axes are both non-empty and do not broadcast; and whenever it
returns `none` the operator (with its cached `m`, `n`, `k`) is unchanged. -/
theorem matmul_inferShape_none_iff (op : MatmulObj) (A B : Shape) :
    ((op.inferShape [some A, some B]).1 = none ↔
      (A.length < 2 ∨ B.length < 2 ∨
        (matDims A op.transA).2 ≠ (matDims B op.transB).1 ∨
        (batchDims A ≠ [] ∧ batchDims B ≠ [] ∧
          ∀ r, infer_broadcast (batchDims A) (batchDims B) ≠ Except.ok r))) ∧
    ((op.inferShape [some A, some B]).1 = none → (op.inferShape [some A, some B]).2 = op) := by
  by_cases hr : A.length < 2 ∨ B.length < 2
  · have h0 : op.inferShape [some A, some B] = (none, op) := by
      unfold MatmulObj.inferShape
      simp only [List.length_cons, List.length_nil, ne_eq, not_true_eq_false, if_false, hr,
        if_true]
    rw [h0]
    refine ⟨⟨fun _ => ?_, fun _ => rfl⟩, fun _ => rfl⟩
    rcases hr with h | h
    · exact Or.inl h
    · exact Or.inr (Or.inl h)
  · have hA : 2 ≤ A.length := by omega
    have hB : 2 ≤ B.length := by omega
    rw [matmul_inferShape_eval op A B hA hB]
    by_cases hk : (matDims A op.transA).2 = (matDims B op.transB).1
    · rw [if_neg (not_not.mpr hk)]
      cases hb : infer_broadcast (batchDims A) (batchDims B) with
      | ok rb =>
        simp only [reduceCtorEq, false_iff, not_or, not_lt, false_imp_iff, and_true]
        refine ⟨hA, hB, not_not.mpr hk, ?_⟩
        intro hc
        exact hc.2.2 rb rfl
      | error e =>
        simp only [true_iff, imp_self, and_true]
        right; right; right
        have hne : batchDims A ≠ [] ∧ batchDims B ≠ [] := by
          constructor
          · intro h0
            rw [h0] at hb
            simp [infer_broadcast] at hb
          · intro h0
            rw [h0] at hb
            unfold infer_broadcast at hb
            split_ifs at hb with h1 h2
            exact h2 rfl
        refine ⟨hne.1, hne.2, ?_⟩
        intro r hc
        cases hc
    · rw [if_pos hk]
      exact ⟨⟨fun _ => Or.inr (Or.inr (Or.inl hk)), fun _ => rfl⟩, fun _ => rfl⟩

theorem matmul_inferShape_none_iff_witness :
    (MatmulObj.inferShape { transA := false, transB := false, m := 1, n := 2, k := 3 }
        [some [2, 3, 5], some [3, 5, 7]]).1 = none ∧
    (MatmulObj.inferShape { transA := false, transB := false, m := 1, n := 2, k := 3 }
        [some [2, 3, 5], some [3, 5, 7]]).2 =
      { transA := false, transB := false, m := 1, n := 2, k := 3 } :=
  ⟨by decide,
    (matmul_inferShape_none_iff { transA := false, transB := false, m := 1, n := 2, k := 3 }
      [2, 3, 5] [3, 5, 7]).2 (by decide)⟩

end infini

namespace infini

/-! ## `ConcatObj::inferShape` -/

theorem concatAxesAgree_iff (dims other : Shape) (dim : Int) (rank : Nat) :
    concatAxesAgree dims other dim rank = true ↔
      ∀ j, j < rank → (j : Int) ≠ dim → dims.getD j 0 = other.getD j 0 := by
  unfold concatAxesAgree
  simp only [List.all_eq_true, List.mem_range, Bool.or_eq_true, decide_eq_true_eq]
  constructor
  · intro h j hj hne
    rcases h j hj with h1 | h1
    · exact absurd h1 hne
    · exact h1
  · intro h j hj
    by_cases h1 : (j : Int) = dim
    · exact Or.inl h1
    · exact Or.inr (h j hj h1)

theorem toInt32_of_lt (x : Int) (h0 : 0 ≤ x) (h1 : x < 2 ^ 31) : toInt32 x = x := by
  unfold toInt32
  omega

theorem concatLoop_ok (dims : Shape) (dim : Int) (rank : Nat) (rest : List Shape)
    (concat_size : Int)
    (hrank : ∀ x ∈ rest, x.length = rank)
    (hagree : ∀ x ∈ rest, ∀ j, j < rank → (j : Int) ≠ dim → dims.getD j 0 = x.getD j 0)
    (h0 : 0 ≤ concat_size) (hnn : ∀ x ∈ rest, 0 ≤ x.getD dim.toNat 0)
    (hfit : concat_size + (rest.map (fun x => x.getD dim.toNat 0)).sum < 2 ^ 31) :
    concatLoop dims dim rank rest concat_size =
      Except.ok (concat_size + (rest.map (fun x => x.getD dim.toNat 0)).sum) := by
  induction rest generalizing concat_size with
  | nil => simp [concatLoop]
  | cons x xs ih =>
    have h1 : x.length = rank := hrank x (List.mem_cons_self _ _)
    have h2 : concatAxesAgree dims x dim rank = true :=
      (concatAxesAgree_iff dims x dim rank).mpr (hagree x (List.mem_cons_self _ _))
    have hx0 : 0 ≤ x.getD dim.toNat 0 := hnn x (List.mem_cons_self _ _)
    have hs0 : 0 ≤ (xs.map (fun x => x.getD dim.toNat 0)).sum := by
      apply List.sum_nonneg
      intro y hy
      obtain ⟨z, hz, rfl⟩ := List.mem_map.mp hy
      exact hnn z (List.mem_cons_of_mem _ hz)
    simp only [List.map_cons, List.sum_cons] at hfit
    have hw : toInt32 (concat_size + x.getD dim.toNat 0) = concat_size + x.getD dim.toNat 0 :=
      toInt32_of_lt _ (by omega) (by omega)
    simp only [concatLoop, h1, h2, ne_eq, not_true_eq_false, if_false, Bool.true_eq_false,
      List.map_cons, List.sum_cons, hw]
    rw [ih _ (fun y hy => hrank y (List.mem_cons_of_mem _ hy))
      (fun y hy => hagree y (List.mem_cons_of_mem _ hy)) (by omega)
      (fun y hy => hnn y (List.mem_cons_of_mem _ hy)) (by omega)]
    rw [add_assoc]

theorem concatLoop_error (dims : Shape) (dim : Int) (rank : Nat) (rest : List Shape)
    (concat_size : Int)
    (hbad : ∃ x ∈ rest, x.length ≠ rank ∨
      ∃ j, j < rank ∧ (j : Int) ≠ dim ∧ x.getD j 0 ≠ dims.getD j 0) :
    ∃ e, concatLoop dims dim rank rest concat_size = Except.error e := by
  induction rest generalizing concat_size with
  | nil =>
    obtain ⟨x, hx, _⟩ := hbad
    cases hx
  | cons y ys ih =>
    simp only [concatLoop]
    by_cases h1 : y.length = rank
    · by_cases h2 : concatAxesAgree dims y dim rank = true
      · simp only [h1, h2, ne_eq, not_true_eq_false, if_false, Bool.true_eq_false]
        apply ih
        obtain ⟨x, hx, hx2⟩ := hbad
        rcases List.mem_cons.mp hx with rfl | hx
        · exfalso
          rcases hx2 with h | ⟨j, hj, hne, hd⟩
          · exact h h1
          · exact hd ((concatAxesAgree_iff dims x dim rank).mp h2 j hj hne).symm
        · exact ⟨x, hx, hx2⟩
      · have h3 : concatAxesAgree dims y dim rank = false := by
          cases h : concatAxesAgree dims y dim rank
          · rfl
          · exact absurd h h2
        simp only [h1, h3, ne_eq, not_true_eq_false, if_false, if_true]
        exact ⟨_, rfl⟩
    · simp only [ne_eq, h1, not_false_eq_true, if_true]
      exact ⟨_, rfl⟩

theorem concat_inferShape_of_pos_dim (op : ConcatObj) (dims : Shape) (rest : List Shape)
    (hdim : 0 < op.dim ∧ op.dim < (dims.length : Int))
    (hrank : ∀ x ∈ rest, x.length = dims.length)
    (hagree : ∀ x ∈ rest, ∀ j, j < dims.length → (j : Int) ≠ op.dim →
      dims.getD j 0 = x.getD j 0)
    (hnn : ∀ x ∈ dims :: rest, 0 ≤ x.getD op.dim.toNat 0)
    (hfit : ((dims :: rest).map (fun x => x.getD op.dim.toNat 0)).sum < 2 ^ 31) :
    op.inferShape (dims :: rest) =
      Except.ok (some [dims.set op.dim.toNat
        (((dims :: rest).map (fun x => x.getD op.dim.toNat 0)).sum)]) := by
  unfold ConcatObj.inferShape
  simp only [gt_iff_lt, hdim, and_self, not_true_eq_false, if_false]
  rw [concatLoop_ok dims op.dim dims.length rest _ hrank hagree
    (hnn dims (List.mem_cons_self _ _)) (fun y hy => hnn y (List.mem_cons_of_mem _ hy))
    (by simpa only [List.map_cons, List.sum_cons] using hfit)]
  simp only [List.map_cons, List.sum_cons]

/-- C13 (the code at the failing input): with `dim = 0`, which the constructor's
`get_real_axis` produces for a requested axis 0, `inferShape` on the shapes
`[2, 3]` and `[4, 3]` fails the assertion `dim > 0 && dim < rank` instead of
returning `[6, 3]`; the literal case of the specification with `dim = 1` returns
`[2, 9, 4]`. -/
theorem concat_inferShape_rejects_dim_zero :
    get_real_axis 0 2 = Except.ok 0 ∧
    ConcatObj.inferShape { dim := 0 } [[2, 3], [4, 3]] =
      Except.error ConcatAssert.dimOutOfRange ∧
    ConcatObj.inferShape { dim := 1 } [[2, 3, 4], [2, 5, 4], [2, 1, 4]] =
      Except.ok (some [[2, 9, 4]]) :=
  ⟨rfl, rfl, rfl⟩

/-- C14: `inferShape` does not return a shape (an assertion fails) whenever some
input after the first has a rank different from the first input or differs from it
at an axis `j ≠ dim`; and it returns `none` for the empty input list. -/
theorem concat_inferShape_rejects (op : ConcatObj) (dims : Shape) (rest : List Shape)
    (hbad : ∃ x ∈ rest, x.length ≠ dims.length ∨
      ∃ j, j < dims.length ∧ (j : Int) ≠ op.dim ∧ x.getD j 0 ≠ dims.getD j 0) :
    (∃ e, op.inferShape (dims :: rest) = Except.error e) ∧
    op.inferShape [] = Except.ok none := by
  refine ⟨?_, rfl⟩
  unfold ConcatObj.inferShape
  by_cases hdim : op.dim > 0 ∧ op.dim < (dims.length : Int)
  · simp only [hdim, and_self, not_true_eq_false, if_false]
    obtain ⟨e, he⟩ := concatLoop_error dims op.dim dims.length rest
      (dims.getD op.dim.toNat 0) hbad
    rw [he]
    exact ⟨e, rfl⟩
  · simp only [hdim, not_false_eq_true, if_true]
    exact ⟨_, rfl⟩

theorem concat_inferShape_rejects_witness :
    (∃ e, ConcatObj.inferShape { dim := 1 } [[2, 3, 4], [2, 5, 5]] = Except.error e) ∧
    ConcatObj.inferShape { dim := 1 } [] = Except.ok none :=
  concat_inferShape_rejects { dim := 1 } [2, 3, 4] [[2, 5, 5]]
    ⟨[2, 5, 5], by simp, Or.inr ⟨2, by decide, by decide, by decide⟩⟩

end infini

namespace infini

/-! ## `GraphObj::topo_sort` -/

theorem allSourcesFlagged_true (g : GraphObj) (flags : List Nat) (ins : List (Option Nat))
    (h : allSourcesFlagged g flags ins = some true) :
    ∀ t, some t ∈ ins → ∀ p, (g.tensorAt t).source = some p → p ∈ flags := by
  induction ins with
  | nil => intro t ht; cases ht
  | cons x rest ih =>
    cases x with
    | none => simp [allSourcesFlagged] at h
    | some input =>
      simp only [allSourcesFlagged] at h
      intro t ht p hp
      cases hs : (g.tensorAt input).source with
      | none =>
        rw [hs] at h
        rcases List.mem_cons.mp ht with h1 | h1
        · injection h1 with h1
          rw [h1, hs] at hp
          cases hp
        · exact ih h t h1 p hp
      | some q =>
        rw [hs] at h
        by_cases hq : q ∈ flags
        · simp only [hq, if_true] at h
          rcases List.mem_cons.mp ht with h1 | h1
          · injection h1 with h1
            rw [h1, hs] at hp
            injection hp with hp
            rw [← hp]
            exact hq
          · exact ih h t h1 p hp
        · simp only [hq, if_false] at h
          cases h

theorem allSourcesFlagged_false (g : GraphObj) (flags : List Nat) (ins : List (Option Nat))
    (h : allSourcesFlagged g flags ins = some false) :
    ∃ t, some t ∈ ins ∧ ∃ p, (g.tensorAt t).source = some p ∧ p ∉ flags := by
  induction ins with
  | nil => simp [allSourcesFlagged] at h
  | cons x rest ih =>
    cases x with
    | none => simp [allSourcesFlagged] at h
    | some input =>
      simp only [allSourcesFlagged] at h
      cases hs : (g.tensorAt input).source with
      | none =>
        rw [hs] at h
        obtain ⟨t, ht, hp⟩ := ih h
        exact ⟨t, List.mem_cons_of_mem _ ht, hp⟩
      | some q =>
        rw [hs] at h
        by_cases hq : q ∈ flags
        · simp only [hq, if_true] at h
          obtain ⟨t, ht, hp⟩ := ih h
          exact ⟨t, List.mem_cons_of_mem _ ht, hp⟩
        · exact ⟨input, List.mem_cons_self _ _, q, hs, hq⟩

theorem allSourcesFlagged_isSome (g : GraphObj) (flags : List Nat) (ins : List (Option Nat))
    (h : none ∉ ins) : ∃ b, allSourcesFlagged g flags ins = some b := by
  induction ins with
  | nil => exact ⟨true, rfl⟩
  | cons x rest ih =>
    cases x with
    | none => exact absurd (List.mem_cons_self _ _) h
    | some input =>
      have ih := ih (fun hc => h (List.mem_cons_of_mem _ hc))
      simp only [allSourcesFlagged]
      cases hs : (g.tensorAt input).source with
      | none => exact ih
      | some q =>
        by_cases hq : q ∈ flags
        · simp only [hq, if_true]; exact ih
        · simp only [hq, if_false]; exact ⟨false, rfl⟩

/-- Induction over one pass: a property of the scanned prefix and the state that
holds before the pass and is kept by a skipped operator and by a placed operator
holds after the pass. -/
theorem topoPass_induct (g : GraphObj) (L : List Nat)
    (P : List Nat → List Nat × List Nat × Bool → Prop)
    (hskip : ∀ D op R S F m, L = D ++ op :: R → P D (S, F, m) →
      (op ∈ F ∨ allSourcesFlagged g F (g.opAt op).inputs = some false) →
      P (D ++ [op]) (S, F, m))
    (hplace : ∀ D op R S F m, L = D ++ op :: R → P D (S, F, m) → op ∉ F →
      allSourcesFlagged g F (g.opAt op).inputs = some true →
      P (D ++ [op]) (S ++ [op], op :: F, true)) :
    ∀ rest D st st1, L = D ++ rest → P D st → topoPass g rest st = some st1 → P L st1 := by
  intro rest
  induction rest with
  | nil =>
    intro D st st1 hL hP h
    simp only [topoPass, Option.some.injEq] at h
    rw [hL, List.append_nil, ← h]
    exact hP
  | cons op rest ih =>
    intro D st st1 hL hP h
    obtain ⟨S, F, m⟩ := st
    have hL2 : L = (D ++ [op]) ++ rest := by rw [hL]; simp
    simp only [topoPass] at h
    by_cases hop : op ∈ F
    · simp only [hop, if_true] at h
      exact ih (D ++ [op]) _ st1 hL2 (hskip D op rest S F m hL hP (Or.inl hop)) h
    · simp only [hop, if_false] at h
      cases ha : allSourcesFlagged g F (g.opAt op).inputs with
      | none => rw [ha] at h; cases h
      | some b =>
        rw [ha] at h
        cases b with
        | true => exact ih (D ++ [op]) _ st1 hL2 (hplace D op rest S F m hL hP hop ha) h
        | false => exact ih (D ++ [op]) _ st1 hL2 (hskip D op rest S F m hL hP (Or.inr ha)) h

end infini

namespace infini

theorem concat_split (S : List Nat) (x : Nat) (l1 : List Nat) (y : Nat) (l2 : List Nat)
    (h : S ++ [x] = l1 ++ y :: l2) :
    (l2 = [] ∧ l1 = S ∧ y = x) ∨ (∃ l3, l2 = l3 ++ [x] ∧ S = l1 ++ y :: l3) := by
  rcases List.eq_nil_or_concat l2 with h2 | ⟨l3, b, h2⟩
  · left
    subst h2
    have h3 : S ++ [x] = l1 ++ [y] := h
    have h4 := List.append_inj' h3 rfl
    refine ⟨rfl, h4.1.symm, ?_⟩
    have h5 := h4.2
    injection h5 with h5 _
    exact h5.symm
  · right
    subst h2
    have h3 : S ++ [x] = (l1 ++ y :: l3) ++ [b] := by
      rw [h]; simp
    have h4 := List.append_inj' h3 rfl
    have h5 := h4.2
    injection h5 with h5 _
    refine ⟨l3, by rw [h5, List.concat_eq_append], h4.1⟩

theorem TopoOrdered_concat (g : GraphObj) (S : List Nat) (x : Nat)
    (hS : TopoOrdered g S) (hx : Ready g S x) : TopoOrdered g (S ++ [x]) := by
  intro l1 y l2 h
  rcases concat_split S x l1 y l2 h with ⟨_, h2, h3⟩ | ⟨l3, _, h3⟩
  · rw [h2, h3]; exact hx
  · exact hS l1 y l3 h3

/-- The facts about `(sorted, flags)` that every pass keeps. -/
theorem topoPass_base (g : GraphObj) (S0 F0 : List Nat)
    (hF : ∀ x, x ∈ F0 ↔ x ∈ S0) (hN : S0.Nodup) (hsub : ∀ x ∈ S0, x ∈ g.ops)
    (hO : TopoOrdered g S0) (S1 F1 : List Nat) (m1 : Bool)
    (h : topoPass g g.ops (S0, F0, false) = some (S1, F1, m1)) :
    ((∀ x, x ∈ F1 ↔ x ∈ S1) ∧ S1.Nodup ∧ (∀ x ∈ S1, x ∈ g.ops) ∧ TopoOrdered g S1) ∧
    (m1 = true → S0.length < S1.length) ∧
    (m1 = false → S1 = S0 ∧ F1 = F0 ∧ ∀ y ∈ g.ops, y ∉ S0 → ¬ Ready g S0 y) := by
  have key := topoPass_induct g g.ops
    (fun D st =>
      ((∀ x, x ∈ st.2.1 ↔ x ∈ st.1) ∧ st.1.Nodup ∧ (∀ x ∈ st.1, x ∈ g.ops) ∧
        TopoOrdered g st.1) ∧
      S0.length ≤ st.1.length ∧
      (st.2.2 = true → S0.length < st.1.length) ∧
      (st.2.2 = false → st.1 = S0 ∧ st.2.1 = F0 ∧ ∀ y ∈ D, y ∉ S0 → ¬ Ready g S0 y))
    ?_ ?_ g.ops [] (S0, F0, false) (S1, F1, m1) rfl ?_ h
  · exact ⟨key.1, key.2.2.1, key.2.2.2⟩
  · intro D op R S F m hL hP hcase
    obtain ⟨hB, hlen, hm1, hm2⟩ := hP
    refine ⟨hB, hlen, hm1, ?_⟩
    intro hm
    obtain ⟨hS, hFF, hD⟩ := hm2 hm
    refine ⟨hS, hFF, ?_⟩
    intro y hy hyS
    rcases List.mem_append.mp hy with hy | hy
    · exact hD y hy hyS
    · have hyop : y = op := by simpa using hy
      subst hyop
      simp only at hS hFF
      rcases hcase with hc | hc
      · rw [hFF] at hc
        exact absurd ((hF y).mp hc) hyS
      · obtain ⟨t, ht, p, hp, hpF⟩ := allSourcesFlagged_false g F _ hc
        intro hr
        apply hpF
        rw [hFF]
        exact (hF p).mpr (hr t ht p hp)
  · intro D op R S F m hL hP hop htrue
    obtain ⟨⟨hFS, hNS, hsubS, hOS⟩, hlen, _, _⟩ := hP
    simp only at hFS hNS hsubS hOS hlen
    have hopS : op ∉ S := fun hc => hop ((hFS op).mpr hc)
    have hready : Ready g S op := by
      intro t ht p hp
      exact (hFS p).mp (allSourcesFlagged_true g F _ htrue t ht p hp)
    refine ⟨⟨?_, ?_, ?_, TopoOrdered_concat g S op hOS hready⟩, ?_, ?_, ?_⟩
    · intro x
      simp only [List.mem_cons, List.mem_append, List.not_mem_nil, or_false]
      rw [hFS x]
      exact or_comm
    · simp only
      rw [List.nodup_append]
      refine ⟨hNS, List.nodup_singleton _, ?_⟩
      intro a ha hb
      have : a = op := by simpa using hb
      rw [this] at ha
      exact hopS ha
    · intro x hx
      rcases List.mem_append.mp hx with hx | hx
      · exact hsubS x hx
      · have : x = op := by simpa using hx
        rw [this, hL]
        simp
    · simp only [List.length_append, List.length_singleton]; omega
    · intro _
      simp only [List.length_append, List.length_singleton]; omega
    · intro hc; cases hc
  · refine ⟨⟨hF, hN, hsub, hO⟩, le_refl _, ?_, ?_⟩
    · intro hc; cases hc
    · intro _
      exact ⟨rfl, rfl, fun y hy => absurd hy (List.not_mem_nil y)⟩

end infini

namespace infini

theorem topoLoop_base (g : GraphObj) :
    ∀ (fuel : Nat) (S F : List Nat),
      (∀ x, x ∈ F ↔ x ∈ S) → S.Nodup → (∀ x ∈ S, x ∈ g.ops) → TopoOrdered g S →
      (∀ r, topoLoop g fuel S F = some (some r) →
        r.Nodup ∧ (∀ x ∈ r, x ∈ g.ops) ∧ TopoOrdered g r ∧ g.ops.length ≤ r.length) ∧
      (topoLoop g fuel S F = some none →
        ∃ S1, S1.Nodup ∧ (∀ x ∈ S1, x ∈ g.ops) ∧ S1.length < g.ops.length ∧
          ∀ y ∈ g.ops, y ∉ S1 → ¬ Ready g S1 y) := by
  intro fuel
  induction fuel with
  | zero =>
    intro S F hF hN hsub hO
    unfold topoLoop
    by_cases hlen : S.length < g.ops.length
    · simp only [hlen, not_true_eq_false, if_false]
      exact ⟨fun r hr => (by cases hr), fun hr => (by cases hr)⟩
    · simp only [hlen, not_false_eq_true, if_true]
      refine ⟨?_, fun hr => (by cases hr)⟩
      intro r hr
      injection hr with hr
      injection hr with hr
      subst hr
      exact ⟨hN, hsub, hO, by omega⟩
  | succ fuel ih =>
    intro S F hF hN hsub hO
    unfold topoLoop
    by_cases hlen : S.length < g.ops.length
    · simp only [hlen, not_true_eq_false, if_false]
      cases hp : topoPass g g.ops (S, F, false) with
      | none => exact ⟨fun r hr => (by cases hr), fun hr => (by cases hr)⟩
      | some st =>
        obtain ⟨S1, F1, m1⟩ := st
        obtain ⟨⟨hF1, hN1, hsub1, hO1⟩, _, hm2⟩ := topoPass_base g S F hF hN hsub hO S1 F1 m1 hp
        cases m1 with
        | false =>
          simp only [if_true]
          refine ⟨fun r hr => (by cases hr), fun _ => ?_⟩
          obtain ⟨_, _, hnr⟩ := hm2 rfl
          exact ⟨S, hN, hsub, hlen, hnr⟩
        | true =>
          simp only [Bool.true_eq_false, if_false]
          exact ih S1 F1 hF1 hN1 hsub1 hO1
    · simp only [hlen, not_false_eq_true, if_true]
      refine ⟨?_, fun hr => (by cases hr)⟩
      intro r hr
      injection hr with hr
      injection hr with hr
      subst hr
      exact ⟨hN, hsub, hO, by omega⟩

theorem topoPass_isSome (g : GraphObj) (rest : List Nat)
    (hnn : ∀ op ∈ rest, none ∉ (g.opAt op).inputs) :
    ∀ st, ∃ st1, topoPass g rest st = some st1 := by
  induction rest with
  | nil => intro st; exact ⟨st, rfl⟩
  | cons op rest ih =>
    intro st
    obtain ⟨S, F, m⟩ := st
    have ih := ih (fun x hx => hnn x (List.mem_cons_of_mem _ hx))
    simp only [topoPass]
    by_cases hop : op ∈ F
    · simp only [hop, if_true]; exact ih _
    · simp only [hop, if_false]
      obtain ⟨b, hb⟩ := allSourcesFlagged_isSome g F (g.opAt op).inputs
        (hnn op (List.mem_cons_self _ _))
      rw [hb]
      cases b with
      | true => exact ih _
      | false => exact ih _

theorem topoLoop_isSome (g : GraphObj) (hnn : ∀ op ∈ g.ops, none ∉ (g.opAt op).inputs) :
    ∀ (fuel : Nat) (S F : List Nat),
      (∀ x, x ∈ F ↔ x ∈ S) → S.Nodup → (∀ x ∈ S, x ∈ g.ops) → TopoOrdered g S →
      g.ops.length ≤ S.length + fuel → ∃ r, topoLoop g fuel S F = some r := by
  intro fuel
  induction fuel with
  | zero =>
    intro S F _ _ _ _ hlen
    unfold topoLoop
    have h : ¬ S.length < g.ops.length := by omega
    simp only [h, not_false_eq_true, if_true]
    exact ⟨_, rfl⟩
  | succ fuel ih =>
    intro S F hF hN hsub hO _
    unfold topoLoop
    by_cases hlen : S.length < g.ops.length
    · simp only [hlen, not_true_eq_false, if_false]
      obtain ⟨st, hp⟩ := topoPass_isSome g g.ops hnn (S, F, false)
      obtain ⟨S1, F1, m1⟩ := st
      rw [hp]
      obtain ⟨⟨hF1, hN1, hsub1, hO1⟩, hm1, _⟩ := topoPass_base g S F hF hN hsub hO S1 F1 m1 hp
      cases m1 with
      | false => exact ⟨_, rfl⟩
      | true =>
        simp only [Bool.true_eq_false, if_false]
        have := hm1 rfl
        exact ih S1 F1 hF1 hN1 hsub1 hO1 (by omega)
    · simp only [hlen, not_false_eq_true, if_true]
      exact ⟨_, rfl⟩

theorem topo_sort_true (g g1 : GraphObj) (hs : g.sorted = false)
    (h : topo_sort g = some (true, g1)) :
    ∃ r, topoLoop g g.ops.length [] [] = some (some r) ∧
      g1 = { g with ops := r, sorted := true } := by
  unfold topo_sort at h
  simp only [hs, Bool.false_eq_true, if_false] at h
  cases hl : topoLoop g g.ops.length [] [] with
  | none => rw [hl] at h; cases h
  | some o =>
    rw [hl] at h
    cases o with
    | none =>
      simp only [Option.some.injEq, Prod.mk.injEq, Bool.false_eq_true, false_and] at h
    | some r =>
      simp only [Option.some.injEq, Prod.mk.injEq, true_and] at h
      exact ⟨r, rfl, h.symm⟩

theorem topoLoop_start (g : GraphObj) :
    (∀ x, x ∈ ([] : List Nat) ↔ x ∈ ([] : List Nat)) ∧ ([] : List Nat).Nodup ∧
      (∀ x ∈ ([] : List Nat), x ∈ g.ops) ∧ TopoOrdered g [] := by
  refine ⟨fun _ => Iff.rfl, List.nodup_nil, fun x hx => absurd hx (List.not_mem_nil x), ?_⟩
  intro l1 op l2 h
  cases l1 <;> cases h

/-- C15: when `topo_sort`, called with the `sorted` flag clear, returns true, the
new `ops` is a permutation of the old one holding every operator exactly once,
every non-null source of every input of an operator occurs before that operator in
the new `ops`, the flag is set and the objects are untouched. -/
theorem topo_sort_order (g g1 : GraphObj) (hs : g.sorted = false)
    (h : topo_sort g = some (true, g1)) :
    g1.ops.Perm g.ops ∧ g1.ops.Nodup ∧
    (∀ l1 op l2, g1.ops = l1 ++ op :: l2 → ∀ t, some t ∈ (g1.opAt op).inputs →
      ∀ p, (g1.tensorAt t).source = some p → p ∈ l1) ∧
    g1.sorted = true ∧ g1.tensors = g.tensors ∧ g1.tensorAt = g.tensorAt ∧
    g1.opAt = g.opAt := by
  obtain ⟨r, hr, hg1⟩ := topo_sort_true g g1 hs h
  obtain ⟨h1, h2, h3, h4⟩ := topoLoop_start g
  obtain ⟨hN, hsub, hO, hlen⟩ := (topoLoop_base g g.ops.length [] [] h1 h2 h3 h4).1 r hr
  subst hg1
  refine ⟨?_, hN, ?_, rfl, rfl, rfl, rfl⟩
  · exact (List.Nodup.subperm hN hsub).perm_of_length_le hlen
  · intro l1 op l2 hsplit t ht p hp
    exact hO l1 op l2 hsplit t ht p hp

theorem topo_sort_order_witness :
    (topo_sort graphZYX).map (fun r => (r.1, r.2.ops)) = some (true, [1, 2, 3]) ∧
    (([1, 2, 3] : List Nat).Perm graphZYX.ops ∧ ([1, 2, 3] : List Nat).Nodup ∧
      (∀ l1 op l2, ([1, 2, 3] : List Nat) = l1 ++ op :: l2 →
        ∀ t, some t ∈ (graphZYX.opAt op).inputs →
        ∀ p, (graphZYX.tensorAt t).source = some p → p ∈ l1) ∧
      true = true ∧ graphZYX.tensors = graphZYX.tensors ∧
      graphZYX.tensorAt = graphZYX.tensorAt ∧ graphZYX.opAt = graphZYX.opAt) :=
  ⟨by decide,
    topo_sort_order graphZYX { graphZYX with ops := [1, 2, 3], sorted := true } rfl rfl⟩

end infini

namespace infini

/-- In a finite non-empty set in which every element has a predecessor in the set,
the relation has a cycle. -/
theorem exists_cycle_of_forall_pred (R : Nat → Nat → Prop) (U : List Nat) (hne : U ≠ [])
    (h : ∀ x ∈ U, ∃ p ∈ U, R p x) : ∃ p, Relation.TransGen R p p := by
  by_contra hno
  have hno2 : ∀ p, ¬ Relation.TransGen R p p := fun p hp => hno ⟨p, hp⟩
  let r : { x // x ∈ U } → { x // x ∈ U } → Prop := fun a b => Relation.TransGen R a.1 b.1
  haveI : IsTrans { x // x ∈ U } r := ⟨fun a b c hab hbc => Relation.TransGen.trans hab hbc⟩
  haveI : IsIrrefl { x // x ∈ U } r := ⟨fun a ha => hno2 a.1 ha⟩
  have hwf : WellFounded r := Finite.wellFounded_of_trans_of_irrefl r
  obtain ⟨x0, hx0⟩ := List.exists_mem_of_ne_nil U hne
  obtain ⟨m, _, hmin⟩ := hwf.has_min Set.univ ⟨⟨x0, hx0⟩, Set.mem_univ _⟩
  obtain ⟨p, hp, hR⟩ := h m.1 m.2
  exact hmin ⟨p, hp⟩ (Set.mem_univ _) (Relation.TransGen.single hR)

theorem transGen_feeds_before (g : GraphObj) (r : List Nat) (hO : TopoOrdered g r)
    (a q : Nat) (h : Relation.TransGen (Feeds g) a q) :
    ∀ l1 l2, r = l1 ++ q :: l2 → a ∈ l1 := by
  induction h with
  | single hf =>
    intro l1 l2 hr
    obtain ⟨_, t, ht, hp⟩ := hf
    exact hO l1 _ l2 hr t ht a hp
  | @tail b c _ hf ih =>
    intro l1 l2 hr
    obtain ⟨_, t, ht, hp⟩ := hf
    have hb := hO l1 c l2 hr t ht b hp
    obtain ⟨m1, m2, hm⟩ := List.append_of_mem hb
    have hr2 : r = m1 ++ b :: (m2 ++ c :: l2) := by
      rw [hr, hm]; simp
    have := ih m1 _ hr2
    rw [hm]
    exact List.mem_append_left _ this

theorem no_cycle_of_ordered (g : GraphObj) (r : List Nat) (hO : TopoOrdered g r)
    (hN : r.Nodup) (hall : ∀ x ∈ g.ops, x ∈ r) :
    ¬ ∃ p, Relation.TransGen (Feeds g) p p := by
  rintro ⟨p, hp⟩
  have hp_ops : p ∈ g.ops := by
    cases hp with
    | single hf => exact hf.1
    | tail _ hf => exact hf.1
  obtain ⟨l1, l2, hr⟩ := List.append_of_mem (hall p hp_ops)
  have hin := transGen_feeds_before g r hO p p hp l1 l2 hr
  rw [hr] at hN
  have := (List.nodup_append.mp hN).2.2
  exact this hin (List.mem_cons_self _ _)

theorem cycle_of_stuck (g : GraphObj) (hnd : g.ops.Nodup)
    (hsrc : ∀ op ∈ g.ops, ∀ t, some t ∈ (g.opAt op).inputs →
      ∀ p, (g.tensorAt t).source = some p → p ∈ g.ops)
    (S1 : List Nat) (hlen : S1.length < g.ops.length)
    (hstuck : ∀ y ∈ g.ops, y ∉ S1 → ¬ Ready g S1 y) :
    ∃ p, Relation.TransGen (Feeds g) p p := by
  apply exists_cycle_of_forall_pred (Feeds g) (g.ops.filter (fun y => decide (y ∉ S1)))
  · intro hnil
    have hall : ∀ x ∈ g.ops, x ∈ S1 := by
      intro x hx
      by_contra hxS
      have : x ∈ g.ops.filter (fun y => decide (y ∉ S1)) := by
        rw [List.mem_filter]
        exact ⟨hx, by simpa using hxS⟩
      rw [hnil] at this
      cases this
    have := (List.Nodup.subperm hnd hall).length_le
    omega
  · intro x hx
    rw [List.mem_filter] at hx
    obtain ⟨hxops, hxS⟩ := hx
    have hxS2 : x ∉ S1 := by simpa using hxS
    have hnr := hstuck x hxops hxS2
    unfold Ready at hnr
    push_neg at hnr
    obtain ⟨t, ht, p, hp, hpS⟩ := hnr
    refine ⟨p, ?_, hxops, t, ht, hp⟩
    rw [List.mem_filter]
    exact ⟨hsrc x hxops t ht p hp, by simpa using hpS⟩

/-- The outcome of `topo_sort` on a well-formed graph with the flag clear. -/
theorem topo_sort_result (g : GraphObj) (hs : g.sorted = false) (hnd : g.ops.Nodup)
    (hnn : ∀ op ∈ g.ops, none ∉ (g.opAt op).inputs)
    (hsrc : ∀ op ∈ g.ops, ∀ t, some t ∈ (g.opAt op).inputs →
      ∀ p, (g.tensorAt t).source = some p → p ∈ g.ops) :
    (∃ r, topo_sort g = some r) ∧
    ((∃ g1, topo_sort g = some (false, g1)) ↔ ∃ p, Relation.TransGen (Feeds g) p p) ∧
    (∀ g1, topo_sort g = some (false, g1) → g1 = g) := by
  obtain ⟨h1, h2, h3, h4⟩ := topoLoop_start g
  obtain ⟨o, ho⟩ := topoLoop_isSome g hnn g.ops.length [] [] h1 h2 h3 h4 (by simp)
  have hbase := topoLoop_base g g.ops.length [] [] h1 h2 h3 h4
  have hts : topo_sort g =
      match o with
      | none => some (false, g)
      | some sorted => some (true, { g with ops := sorted, sorted := true }) := by
    unfold topo_sort
    simp only [hs, Bool.false_eq_true, if_false, ho]
    cases o <;> rfl
  cases o with
  | none =>
    simp only at hts
    obtain ⟨S1, _, _, hlen, hstuck⟩ := hbase.2 ho
    have hcyc := cycle_of_stuck g hnd hsrc S1 hlen hstuck
    refine ⟨⟨_, hts⟩, ⟨fun _ => hcyc, fun _ => ⟨g, hts⟩⟩, ?_⟩
    intro g1 hg1
    rw [hts] at hg1
    injection hg1 with hg1
    injection hg1 with _ hg1
    exact hg1.symm
  | some r =>
    simp only at hts
    obtain ⟨hN, hsub, hO, hlen⟩ := hbase.1 r ho
    have hperm : r.Perm g.ops := (List.Nodup.subperm hN hsub).perm_of_length_le hlen
    have hnc := no_cycle_of_ordered g r hO hN (fun x hx => hperm.mem_iff.mpr hx)
    refine ⟨⟨_, hts⟩, ⟨?_, fun hc => absurd hc hnc⟩, ?_⟩
    · rintro ⟨g1, hg1⟩
      rw [hts] at hg1
      injection hg1 with hg1
      injection hg1 with hb _
      cases hb
    · intro g1 hg1
      rw [hts] at hg1
      injection hg1 with hg1
      injection hg1 with hb _
      cases hb

/-- C16: for a graph with the `sorted` flag clear, whose `ops` holds every
operator once, and in which every input of every operator is a tensor whose source
is null or an operator of `ops`: `topo_sort` returns; it returns false exactly when
the relation "operator `p` is the source of an input of operator `q`" has a
directed cycle; and when it returns false the graph (`ops` and the flag included)
is unchanged. -/
theorem topo_sort_cycle (g : GraphObj) (hs : g.sorted = false) (hnd : g.ops.Nodup)
    (hnn : ∀ op ∈ g.ops, none ∉ (g.opAt op).inputs)
    (hsrc : ∀ op ∈ g.ops, ∀ t, some t ∈ (g.opAt op).inputs →
      ∀ p, (g.tensorAt t).source = some p → p ∈ g.ops) :
    (∃ r, topo_sort g = some r) ∧
    ((∃ g1, topo_sort g = some (false, g1)) ↔ ∃ p, Relation.TransGen (Feeds g) p p) ∧
    (∀ g1, topo_sort g = some (false, g1) → g1 = g) :=
  topo_sort_result g hs hnd hnn hsrc

end infini

namespace infini

theorem nodup_split_unique (L : List Nat) (hN : L.Nodup) (A B A1 B1 : List Nat) (x : Nat)
    (h1 : L = A ++ x :: B) (h2 : L = A1 ++ x :: B1) : A = A1 ∧ B = B1 := by
  induction A generalizing L A1 with
  | nil =>
    cases A1 with
    | nil =>
      rw [h1] at h2
      simp only [List.nil_append, List.cons.injEq, true_and] at h2
      exact ⟨rfl, h2⟩
    | cons a A2 =>
      exfalso
      rw [h1] at h2
      simp only [List.nil_append, List.cons_append, List.cons.injEq] at h2
      obtain ⟨hxa, hB⟩ := h2
      rw [h1, List.nil_append, List.nodup_cons] at hN
      apply hN.1
      rw [hB]
      simp
  | cons a A2 ih =>
    cases A1 with
    | nil =>
      exfalso
      rw [h2] at h1
      simp only [List.nil_append, List.cons_append, List.cons.injEq] at h1
      obtain ⟨hxa, hB⟩ := h1
      rw [h2, List.nil_append, List.nodup_cons] at hN
      apply hN.1
      rw [hB]
      simp
    | cons a1 A3 =>
      rw [h1] at h2
      simp only [List.cons_append, List.cons.injEq] at h2
      obtain ⟨ha, hrest⟩ := h2
      rw [h1, List.cons_append, List.nodup_cons] at hN
      obtain ⟨hA, hB⟩ := ih (A2 ++ x :: B) hN.2 A3 rfl hrest
      exact ⟨by rw [ha, hA], hB⟩

theorem topo_sort_witness_hyps :
    graphZYX.ops.Nodup ∧ (∀ op ∈ graphZYX.ops, none ∉ (graphZYX.opAt op).inputs) ∧
    (∀ op ∈ graphZYX.ops, ∀ t, some t ∈ (graphZYX.opAt op).inputs →
      ∀ p, (graphZYX.tensorAt t).source = some p → p ∈ graphZYX.ops) := by
  refine ⟨by decide, by decide, ?_⟩
  intro op hop t ht p hp
  have hop2 : op = 3 ∨ op = 2 ∨ op = 1 := by simpa [graphZYX] using hop
  rcases hop2 with rfl | rfl | rfl
  · have ht2 : t = 10 ∨ t = 20 := by simpa [graphZYX, exampleOp] using ht
    rcases ht2 with rfl | rfl
    · have : p = 1 := by simpa [graphZYX, exampleTensor] using hp.symm
      rw [this]; decide
    · have : p = 2 := by simpa [graphZYX, exampleTensor] using hp.symm
      rw [this]; decide
  · have ht2 : t = 10 := by simpa [graphZYX, exampleOp] using ht
    rw [ht2] at hp
    have : p = 1 := by simpa [graphZYX, exampleTensor] using hp.symm
    rw [this]; decide
  · simp [graphZYX, exampleOp] at ht

theorem topo_sort_cycle_witness :
    ((∃ r, topo_sort graphZYX = some r) ∧
      ((∃ g1, topo_sort graphZYX = some (false, g1)) ↔
        ∃ p, Relation.TransGen (Feeds graphZYX) p p) ∧
      (∀ g1, topo_sort graphZYX = some (false, g1) → g1 = graphZYX)) ∧
    (topo_sort graphCycle).map (fun r => (r.1, r.2.ops, r.2.sorted)) =
      some (false, [1, 2], false) :=
  ⟨topo_sort_cycle graphZYX rfl topo_sort_witness_hyps.1 topo_sort_witness_hyps.2.1
    topo_sort_witness_hyps.2.2, by decide⟩

end infini

namespace infini

theorem not_placeable_of_skip (g : GraphObj) (S F : List Nat) (op : Nat)
    (hFS : ∀ x, x ∈ F ↔ x ∈ S)
    (hcase : op ∈ F ∨ allSourcesFlagged g F (g.opAt op).inputs = some false) :
    ¬ (op ∉ S ∧ Ready g S op) := by
  rintro ⟨h1, h2⟩
  rcases hcase with hc | hc
  · exact h1 ((hFS op).mp hc)
  · obtain ⟨t, ht, p, hp, hpF⟩ := allSourcesFlagged_false g F _ hc
    exact hpF ((hFS p).mpr (h2 t ht p hp))

/-- The scan-order facts kept by one pass of `topo_sort`. -/
theorem topoPass_scan (g : GraphObj) (hN : g.ops.Nodup) (S0 F0 : List Nat)
    (hF : ∀ x, x ∈ F0 ↔ x ∈ S0)
    (hG : ∀ S x T, S0 = S ++ x :: T → ScanFirst g S x)
    (hE : ∀ l, S0.getLast? = some l → ∀ A B, g.ops = A ++ l :: B →
      ∀ y ∈ B, ¬ (y ∉ S0 ∧ Ready g S0 y))
    (S1 F1 : List Nat) (m1 : Bool)
    (h : topoPass g g.ops (S0, F0, false) = some (S1, F1, m1)) :
    (∀ S x T, S1 = S ++ x :: T → ScanFirst g S x) ∧
    (m1 = true → ∀ l, S1.getLast? = some l → ∀ A B, g.ops = A ++ l :: B →
      ∀ y ∈ B, ¬ (y ∉ S1 ∧ Ready g S1 y)) := by
  have key := topoPass_induct g g.ops
    (fun D st =>
      (∀ x, x ∈ st.2.1 ↔ x ∈ st.1) ∧
      (∀ S x T, st.1 = S ++ x :: T → ScanFirst g S x) ∧
      (∀ D1 y D2, D = D1 ++ y :: D2 → y ∉ st.1 → Ready g st.1 y →
        ∃ l, st.1.getLast? = some l ∧ l ∈ D2) ∧
      (st.2.2 = true → ∃ D1 l D2, D = D1 ++ l :: D2 ∧ st.1.getLast? = some l ∧
        ∀ y ∈ D2, ¬ (y ∉ st.1 ∧ Ready g st.1 y)) ∧
      (st.2.2 = false → st.1 = S0))
    ?_ ?_ g.ops [] (S0, F0, false) (S1, F1, m1) rfl ?_ h
  · obtain ⟨_, hG1, _, hK2, _⟩ := key
    refine ⟨hG1, ?_⟩
    intro hm l hl A B hAB y hy
    obtain ⟨D1, l1, D2, hD, hl1, hnp⟩ := hK2 hm
    simp only at hl1 hnp
    rw [hl] at hl1
    injection hl1 with hl1
    subst hl1
    obtain ⟨_, hB⟩ := nodup_split_unique g.ops hN A B D1 D2 l hAB hD
    rw [hB] at hy
    exact hnp y hy
  · -- a skipped operator
    intro D op R S F m hL hP hcase
    obtain ⟨hFS, hGS, hK, hK2, hm0⟩ := hP
    simp only at hFS hGS hK hK2 hm0
    have hnp := not_placeable_of_skip g S F op hFS hcase
    refine ⟨hFS, hGS, ?_, ?_, hm0⟩
    · intro D1 y D2 hD hy hr
      rcases concat_split D op D1 y D2 hD with ⟨_, _, hyop⟩ | ⟨D3, hD2, hD3⟩
      · rw [hyop] at hy hr
        exact absurd ⟨hy, hr⟩ hnp
      · obtain ⟨l, hl, hlD⟩ := hK D1 y D3 hD3 hy hr
        refine ⟨l, hl, ?_⟩
        rw [hD2]
        exact List.mem_append_left _ hlD
    · intro hm
      obtain ⟨D1, l, D2, hD, hl, hnp2⟩ := hK2 hm
      refine ⟨D1, l, D2 ++ [op], by rw [hD]; simp, hl, ?_⟩
      intro y hy
      rcases List.mem_append.mp hy with hy | hy
      · exact hnp2 y hy
      · have : y = op := by simpa using hy
        rw [this]
        exact hnp
  · -- a placed operator
    intro D op R S F m hL hP hop htrue
    obtain ⟨hFS, hGS, hK, hK2, hm0⟩ := hP
    simp only at hFS hGS hK hK2 hm0
    have hopS : op ∉ S := fun hc => hop ((hFS op).mpr hc)
    have hready : Ready g S op := by
      intro t ht p hp
      exact (hFS p).mp (allSourcesFlagged_true g F _ htrue t ht p hp)
    have hscan : ScanFirst g S op := by
      refine ⟨⟨by rw [hL]; simp, hopS, hready⟩, ?_, ?_⟩
      · intro D' R' hL' D1 y D2 hD' hy
        obtain ⟨hDD, _⟩ := nodup_split_unique g.ops hN D' R' D R op hL' hL
        rw [hDD] at hD'
        exact hK D1 y D2 hD' hy.2.1 hy.2.2
      · intro l hl A B hAB hopA y hy hpl
        cases m with
        | false =>
          have hS0 := hm0 rfl
          rw [hS0] at hl hpl
          exact hE l hl A B hAB y hy ⟨hpl.2.1, hpl.2.2⟩
        | true =>
          obtain ⟨D1, l1, D2, hD, hl1, _⟩ := hK2 rfl
          rw [hl] at hl1
          injection hl1 with hl1
          subst hl1
          have hL2 : g.ops = D1 ++ l :: (D2 ++ op :: R) := by
            rw [hL, hD]; simp
          obtain ⟨hA, _⟩ := nodup_split_unique g.ops hN A B D1 _ l hAB hL2
          rw [hA] at hopA
          have hN2 := hN
          rw [hL, hD] at hN2
          have hdis := (List.nodup_append.mp hN2).2.2
          exact hdis (List.mem_append_left _ hopA) (List.mem_cons_self _ _)
    refine ⟨?_, ?_, ?_, ?_, ?_⟩
    · intro x
      simp only [List.mem_cons, List.mem_append, List.not_mem_nil, or_false]
      rw [hFS x]
      exact or_comm
    · intro S2 x T hsplit
      rcases concat_split S op S2 x T hsplit with ⟨_, h2, h3⟩ | ⟨T3, _, h3⟩
      · rw [h2, h3]; exact hscan
      · exact hGS S2 x T3 h3
    · intro D1 y D2 hD hy _
      simp only at hy
      rcases concat_split D op D1 y D2 hD with ⟨_, _, hyop⟩ | ⟨D3, hD2, _⟩
      · exfalso
        apply hy
        rw [hyop]
        simp
      · refine ⟨op, List.getLast?_concat S, ?_⟩
        rw [hD2]
        simp
    · intro _
      exact ⟨D, op, [], rfl, List.getLast?_concat S, fun y hy => absurd hy (List.not_mem_nil y)⟩
    · intro hc; cases hc
  · refine ⟨hF, hG, ?_, ?_, fun _ => rfl⟩
    · intro D1 y D2 hD
      cases D1 <;> cases hD
    · intro hc; cases hc

end infini

namespace infini

theorem topoLoop_scan (g : GraphObj) (hN : g.ops.Nodup) :
    ∀ (fuel : Nat) (S F : List Nat),
      (∀ x, x ∈ F ↔ x ∈ S) → S.Nodup → (∀ x ∈ S, x ∈ g.ops) → TopoOrdered g S →
      (∀ S1 x T, S = S1 ++ x :: T → ScanFirst g S1 x) →
      (∀ l, S.getLast? = some l → ∀ A B, g.ops = A ++ l :: B →
        ∀ y ∈ B, ¬ (y ∉ S ∧ Ready g S y)) →
      ∀ r, topoLoop g fuel S F = some (some r) →
        ∀ S1 x T, r = S1 ++ x :: T → ScanFirst g S1 x := by
  intro fuel
  induction fuel with
  | zero =>
    intro S F _ _ _ _ hG _ r hr
    unfold topoLoop at hr
    by_cases hlen : S.length < g.ops.length
    · simp only [hlen, not_true_eq_false, if_false] at hr
      cases hr
    · simp only [hlen, not_false_eq_true, if_true] at hr
      injection hr with hr
      injection hr with hr
      rw [← hr]
      exact hG
  | succ fuel ih =>
    intro S F hF hNS hsub hO hG hE r hr
    unfold topoLoop at hr
    by_cases hlen : S.length < g.ops.length
    · simp only [hlen, not_true_eq_false, if_false] at hr
      cases hp : topoPass g g.ops (S, F, false) with
      | none => rw [hp] at hr; cases hr
      | some st =>
        obtain ⟨S1, F1, m1⟩ := st
        rw [hp] at hr
        obtain ⟨⟨hF1, hN1, hsub1, hO1⟩, _, _⟩ := topoPass_base g S F hF hNS hsub hO S1 F1 m1 hp
        obtain ⟨hG1, hE1⟩ := topoPass_scan g hN S F hF hG hE S1 F1 m1 hp
        cases m1 with
        | false =>
          simp only [if_true] at hr
          cases hr
        | true =>
          simp only [Bool.true_eq_false, if_false] at hr
          exact ih S1 F1 hF1 hN1 hsub1 hO1 hG1 (hE1 rfl) r hr
    · simp only [hlen, not_false_eq_true, if_true] at hr
      injection hr with hr
      injection hr with hr
      rw [← hr]
      exact hG

/-- C17 (amended): on an acyclic graph (flag clear, every operator once in `ops`,
every input a tensor whose source is null or in `ops`) `topo_sort` returns true,
and at each position of the sorted output the operator placed is the first
placeable operator met by a scan of `ops` that continues after the previously
placed operator and wraps around to the start (`ScanFirst`).  In particular, if
`a` was inserted before `b`, both are placeable at the moment one of them is
placed, and the previously placed operator was not inserted between them, then the
one placed is `a`. -/
theorem topo_sort_scan_order (g : GraphObj) (hs : g.sorted = false) (hnd : g.ops.Nodup)
    (hnn : ∀ op ∈ g.ops, none ∉ (g.opAt op).inputs)
    (hsrc : ∀ op ∈ g.ops, ∀ t, some t ∈ (g.opAt op).inputs →
      ∀ p, (g.tensorAt t).source = some p → p ∈ g.ops)
    (hacyc : ¬ ∃ p, Relation.TransGen (Feeds g) p p) :
    ∃ g1, topo_sort g = some (true, g1) ∧
      (∀ S x T, g1.ops = S ++ x :: T → ScanFirst g S x) ∧
      (∀ S x T, g1.ops = S ++ x :: T → ∀ A a B b C, g.ops = A ++ a :: B ++ b :: C →
        Placeable g S a → Placeable g S b → (x = a ∨ x = b) →
        (∀ l, S.getLast? = some l → l ∉ B) → x = a) := by
  obtain ⟨⟨r, hr⟩, hiff, _⟩ := topo_sort_result g hs hnd hnn hsrc
  obtain ⟨b, g1⟩ := r
  cases b with
  | false => exact absurd (hiff.mp ⟨g1, hr⟩) hacyc
  | true =>
    obtain ⟨r, hloop, hg1⟩ := topo_sort_true g g1 hs hr
    obtain ⟨h1, h2, h3, h4⟩ := topoLoop_start g
    have hscan := topoLoop_scan g hnd g.ops.length [] [] h1 h2 h3 h4
      (fun S1 x T hc => by cases S1 <;> cases hc)
      (fun l hl => by cases hl) r hloop
    have hops : g1.ops = r := by rw [hg1]
    refine ⟨g1, hr, ?_, ?_⟩
    · intro S x T hsplit
      exact hscan S x T (by rw [← hops]; exact hsplit)
    · intro S x T hsplit A a B b C hAB ha hb hx hl
      rcases hx with hx | hx
      · exact hx
      · exfalso
        have hsf := hscan S x T (by rw [← hops]; exact hsplit)
        rw [hx] at hsf
        obtain ⟨l, hl1, hl2⟩ := hsf.2.1 (A ++ a :: B) C hAB A a B rfl ha
        exact hl l hl1 hl2

theorem graphLateSource_hyps :
    graphLateSource.ops.Nodup ∧
    (∀ op ∈ graphLateSource.ops, none ∉ (graphLateSource.opAt op).inputs) ∧
    (∀ op ∈ graphLateSource.ops, ∀ t, some t ∈ (graphLateSource.opAt op).inputs →
      ∀ p, (graphLateSource.tensorAt t).source = some p → p ∈ graphLateSource.ops) := by
  refine ⟨by decide, by decide, ?_⟩
  intro op hop t ht p hp
  have hop2 : op = 1 ∨ op = 2 ∨ op = 3 := by simpa [graphLateSource] using hop
  rcases hop2 with rfl | rfl | rfl
  · have ht2 : t = 10 := by simpa [graphLateSource, exampleOp] using ht
    rw [ht2] at hp
    have : p = 2 := by simpa [graphLateSource, exampleTensor] using hp.symm
    rw [this]; decide
  · simp [graphLateSource, exampleOp] at ht
  · simp [graphLateSource, exampleOp] at ht

theorem graphLateSource_acyclic : ¬ ∃ p, Relation.TransGen (Feeds graphLateSource) p p := by
  intro hc
  obtain ⟨g1, hg1⟩ := (topo_sort_result graphLateSource rfl graphLateSource_hyps.1
    graphLateSource_hyps.2.1 graphLateSource_hyps.2.2).2.1.mpr hc
  have h2 : (topo_sort graphLateSource).map (fun r => r.1) = some true := by decide
  rw [hg1] at h2
  cases h2

theorem topo_sort_scan_order_witness :
    ∃ g1, topo_sort graphLateSource = some (true, g1) ∧
      (∀ S x T, g1.ops = S ++ x :: T → ScanFirst graphLateSource S x) ∧
      (∀ S x T, g1.ops = S ++ x :: T → ∀ A a B b C,
        graphLateSource.ops = A ++ a :: B ++ b :: C →
        Placeable graphLateSource S a → Placeable graphLateSource S b → (x = a ∨ x = b) →
        (∀ l, S.getLast? = some l → l ∉ B) → x = a) :=
  topo_sort_scan_order graphLateSource rfl graphLateSource_hyps.1 graphLateSource_hyps.2.1
    graphLateSource_hyps.2.2 graphLateSource_acyclic

/-- C17 (counterexample): the acyclic graph with operators inserted as 1, 2, 3,
where operator 1 consumes the output of operator 2.  `topo_sort` returns the order
2, 3, 1.  At the second position (operator 2 placed) operator 3 is placed although
operator 1, inserted before 3, is placeable too: its only input source, 2, is
placed. -/
theorem topo_sort_scan_order_counterexample :
    (¬ ∃ p, Relation.TransGen (Feeds graphLateSource) p p) ∧
    (topo_sort graphLateSource).map (fun r => (r.1, r.2.ops)) = some (true, [2, 3, 1]) ∧
    graphLateSource.ops = [1, 2, 3] ∧
    Placeable graphLateSource [2] 1 ∧ Placeable graphLateSource [2] 3 := by
  refine ⟨graphLateSource_acyclic, by decide, rfl, ⟨by decide, by decide, ?_⟩,
    ⟨by decide, by decide, ?_⟩⟩
  · intro t ht p hp
    have ht2 : t = 10 := by simpa [graphLateSource, exampleOp] using ht
    rw [ht2] at hp
    have : p = 2 := by simpa [graphLateSource, exampleTensor] using hp.symm
    rw [this]; decide
  · intro t ht p hp
    simp [graphLateSource, exampleOp] at ht

end infini

namespace infini

/-! ## `GraphObj::addOperatorAndConnect` -/

@[simp] theorem setTensor_tensorAt (g : GraphObj) (t : Nat) (v : TensorNode) (x : Nat) :
    (g.setTensor t v).tensorAt x = if x = t then v else g.tensorAt x := by
  unfold GraphObj.setTensor
  simp only [Function.update_apply]

@[simp] theorem setTensor_opAt (g : GraphObj) (t : Nat) (v : TensorNode) :
    (g.setTensor t v).opAt = g.opAt := rfl

@[simp] theorem setTensor_ops (g : GraphObj) (t : Nat) (v : TensorNode) :
    (g.setTensor t v).ops = g.ops := rfl

@[simp] theorem setTensor_tensors (g : GraphObj) (t : Nat) (v : TensorNode) :
    (g.setTensor t v).tensors = g.tensors := rfl

@[simp] theorem setTensor_sorted (g : GraphObj) (t : Nat) (v : TensorNode) :
    (g.setTensor t v).sorted = g.sorted := rfl

@[simp] theorem setOp_opAt (g : GraphObj) (q : Nat) (v : OperatorObj) (x : Nat) :
    (g.setOp q v).opAt x = if x = q then v else g.opAt x := by
  unfold GraphObj.setOp
  simp only [Function.update_apply]

@[simp] theorem setOp_tensorAt (g : GraphObj) (q : Nat) (v : OperatorObj) :
    (g.setOp q v).tensorAt = g.tensorAt := rfl

@[simp] theorem setOp_tensors (g : GraphObj) (q : Nat) (v : OperatorObj) :
    (g.setOp q v).tensors = g.tensors := rfl

@[simp] theorem setOp_sorted (g : GraphObj) (q : Nat) (v : OperatorObj) :
    (g.setOp q v).sorted = g.sorted := rfl

theorem addTarget_spec (t : TensorNode) (op : Nat) :
    (t.addTarget op).fuid = t.fuid ∧ (t.addTarget op).dims = t.dims ∧
    (t.addTarget op).source = t.source ∧
    ∀ x, x ∈ (t.addTarget op).targets ↔ (x ∈ t.targets ∨ x = op) := by
  unfold TensorNode.addTarget
  split_ifs with h
  · refine ⟨rfl, rfl, rfl, fun x => ⟨fun hx => Or.inl hx, ?_⟩⟩
    rintro (hx | hx)
    · exact hx
    · rw [hx]; exact h
  · refine ⟨rfl, rfl, rfl, fun x => ?_⟩
    simp

theorem addPredecessors_spec (o : OperatorObj) (p : Nat) :
    (o.addPredecessors p).attrs = o.attrs ∧ (o.addPredecessors p).inputs = o.inputs ∧
    (o.addPredecessors p).outputs = o.outputs ∧
    (o.addPredecessors p).successors = o.successors ∧
    ∀ x, x ∈ (o.addPredecessors p).predecessors ↔ (x ∈ o.predecessors ∨ x = p) := by
  unfold OperatorObj.addPredecessors
  split_ifs with h
  · refine ⟨rfl, rfl, rfl, rfl, fun x => ⟨fun hx => Or.inl hx, ?_⟩⟩
    rintro (hx | hx)
    · exact hx
    · rw [hx]; exact h
  · refine ⟨rfl, rfl, rfl, rfl, fun x => ?_⟩
    simp

theorem addSuccessors_spec (o : OperatorObj) (s : Nat) :
    (o.addSuccessors s).attrs = o.attrs ∧ (o.addSuccessors s).inputs = o.inputs ∧
    (o.addSuccessors s).outputs = o.outputs ∧
    (o.addSuccessors s).predecessors = o.predecessors ∧
    ∀ x, x ∈ (o.addSuccessors s).successors ↔ (x ∈ o.successors ∨ x = s) := by
  unfold OperatorObj.addSuccessors
  split_ifs with h
  · refine ⟨rfl, rfl, rfl, rfl, fun x => ⟨fun hx => Or.inl hx, ?_⟩⟩
    rintro (hx | hx)
    · exact hx
    · rw [hx]; exact h
  · refine ⟨rfl, rfl, rfl, rfl, fun x => ?_⟩
    simp

theorem Extends.refl (g : GraphObj) : Extends g g :=
  ⟨rfl, rfl, rfl, fun _ => ⟨rfl, rfl, fun _ h => h⟩,
    fun _ => ⟨rfl, rfl, rfl, fun _ h => h, fun _ h => h⟩⟩

theorem Extends.trans {g g1 g2 : GraphObj} (h1 : Extends g g1) (h2 : Extends g1 g2) :
    Extends g g2 := by
  obtain ⟨a1, a2, a3, a4, a5⟩ := h1
  obtain ⟨b1, b2, b3, b4, b5⟩ := h2
  refine ⟨b1.trans a1, b2.trans a2, b3.trans a3, ?_, ?_⟩
  · intro t
    exact ⟨(b4 t).1.trans (a4 t).1, (b4 t).2.1.trans (a4 t).2.1,
      fun x hx => (b4 t).2.2 x ((a4 t).2.2 x hx)⟩
  · intro q
    exact ⟨(b5 q).1.trans (a5 q).1, (b5 q).2.1.trans (a5 q).2.1,
      (b5 q).2.2.1.trans (a5 q).2.2.1,
      fun x hx => (b5 q).2.2.2.1 x ((a5 q).2.2.2.1 x hx),
      fun x hx => (b5 q).2.2.2.2 x ((a5 q).2.2.2.2 x hx)⟩

theorem Extends_addTarget (g : GraphObj) (t op : Nat) :
    Extends g (g.setTensor t ((g.tensorAt t).addTarget op)) := by
  obtain ⟨h1, h2, _, h4⟩ := addTarget_spec (g.tensorAt t) op
  refine ⟨rfl, rfl, rfl, ?_, fun _ => ⟨rfl, rfl, rfl, fun _ h => h, fun _ h => h⟩⟩
  intro x
  simp only [setTensor_tensorAt]
  split_ifs with hx
  · subst hx
    exact ⟨h1, h2, fun y hy => (h4 y).mpr (Or.inl hy)⟩
  · exact ⟨rfl, rfl, fun _ h => h⟩

theorem Extends_setSource (g : GraphObj) (t : Nat) (s : Option Nat) :
    Extends g (g.setTensor t ((g.tensorAt t).setSource s)) := by
  refine ⟨rfl, rfl, rfl, ?_, fun _ => ⟨rfl, rfl, rfl, fun _ h => h, fun _ h => h⟩⟩
  intro x
  simp only [setTensor_tensorAt]
  split_ifs with hx
  · subst hx
    exact ⟨rfl, rfl, fun _ h => h⟩
  · exact ⟨rfl, rfl, fun _ h => h⟩

theorem Extends_addPredecessors (g : GraphObj) (q p : Nat) :
    Extends g (g.setOp q ((g.opAt q).addPredecessors p)) := by
  obtain ⟨h1, h2, h3, h4, h5⟩ := addPredecessors_spec (g.opAt q) p
  refine ⟨rfl, rfl, rfl, fun _ => ⟨rfl, rfl, fun _ h => h⟩, ?_⟩
  intro x
  simp only [setOp_opAt]
  split_ifs with hx
  · subst hx
    exact ⟨h1, h2, h3, fun y hy => (h5 y).mpr (Or.inl hy), fun y hy => by rw [h4]; exact hy⟩
  · exact ⟨rfl, rfl, rfl, fun _ h => h, fun _ h => h⟩

theorem Extends_addSuccessors (g : GraphObj) (q s : Nat) :
    Extends g (g.setOp q ((g.opAt q).addSuccessors s)) := by
  obtain ⟨h1, h2, h3, h4, h5⟩ := addSuccessors_spec (g.opAt q) s
  refine ⟨rfl, rfl, rfl, fun _ => ⟨rfl, rfl, fun _ h => h⟩, ?_⟩
  intro x
  simp only [setOp_opAt]
  split_ifs with hx
  · subst hx
    exact ⟨h1, h2, h3, fun y hy => by rw [h4]; exact hy, fun y hy => (h5 y).mpr (Or.inl hy)⟩
  · exact ⟨rfl, rfl, rfl, fun _ h => h, fun _ h => h⟩

end infini

namespace infini

theorem linkTargets_spec (op : Nat) (succs : List Nat) :
    ∀ g : GraphObj, Extends g (linkTargets op succs g) ∧
      (linkTargets op succs g).tensorAt = g.tensorAt ∧
      ∀ q ∈ succs, op ∈ ((linkTargets op succs g).opAt q).predecessors ∧
        q ∈ ((linkTargets op succs g).opAt op).successors := by
  induction succs with
  | nil =>
    intro g
    exact ⟨Extends.refl g, rfl, fun q hq => absurd hq (List.not_mem_nil q)⟩
  | cons s rest ih =>
    intro g
    simp only [linkTargets]
    have e1 := Extends_addPredecessors g s op
    have e2 := Extends_addSuccessors (g.setOp s ((g.opAt s).addPredecessors op)) op s
    obtain ⟨e3, ht, hrest⟩ := ih ((g.setOp s ((g.opAt s).addPredecessors op)).setOp op
      (((g.setOp s ((g.opAt s).addPredecessors op)).opAt op).addSuccessors s))
    refine ⟨(e1.trans e2).trans e3, ?_, ?_⟩
    · rw [ht]; rfl
    · intro q hq
      rcases List.mem_cons.mp hq with hq | hq
      · subst hq
        constructor
        · apply (e3.2.2.2.2 q).2.2.2.1
          apply (e2.2.2.2.2 q).2.2.2.1
          simp only [setOp_opAt, if_true]
          exact ((addPredecessors_spec (g.opAt q) op).2.2.2.2 op).mpr (Or.inr rfl)
        · apply (e3.2.2.2.2 op).2.2.2.2
          simp only [setOp_opAt, if_true]
          exact ((addSuccessors_spec _ q).2.2.2.2 q).mpr (Or.inr rfl)
      · exact hrest q hq

theorem connectOutputs_spec (op : Nat) (outs : List (Option Nat)) :
    ∀ g : GraphObj, Extends g (connectOutputs op outs g) ∧
      (∀ t, ((connectOutputs op outs g).tensorAt t).targets = (g.tensorAt t).targets) ∧
      (∀ t, ((connectOutputs op outs g).tensorAt t).source =
        if some t ∈ outs then some op else (g.tensorAt t).source) ∧
      (∀ o, some o ∈ outs → ∀ q ∈ (g.tensorAt o).targets,
        op ∈ ((connectOutputs op outs g).opAt q).predecessors ∧
        q ∈ ((connectOutputs op outs g).opAt op).successors) := by
  induction outs with
  | nil =>
    intro g
    refine ⟨Extends.refl g, fun _ => rfl, fun t => ?_, fun o ho => absurd ho (List.not_mem_nil _)⟩
    simp [connectOutputs]
  | cons x rest ih =>
    intro g
    cases x with
    | none =>
      simp only [connectOutputs]
      obtain ⟨e, h1, h2, h3⟩ := ih g
      refine ⟨e, h1, ?_, ?_⟩
      · intro t
        rw [h2 t]
        simp
      · intro o ho
        rcases List.mem_cons.mp ho with ho | ho
        · cases ho
        · exact h3 o ho
    | some output =>
      simp only [connectOutputs]
      have e1 := Extends_setSource g output (some op)
      obtain ⟨e2, ht2, hl2⟩ := linkTargets_spec op
        ((g.setTensor output ((g.tensorAt output).setSource (some op))).tensorAt output).targets
        (g.setTensor output ((g.tensorAt output).setSource (some op)))
      obtain ⟨e3, h1, h2, h3⟩ := ih (linkTargets op
        ((g.setTensor output ((g.tensorAt output).setSource (some op))).tensorAt output).targets
        (g.setTensor output ((g.tensorAt output).setSource (some op))))
      have htg : ∀ t, ((g.setTensor output ((g.tensorAt output).setSource (some op))).tensorAt
          t).targets = (g.tensorAt t).targets := by
        intro t
        simp only [setTensor_tensorAt]
        split_ifs with h
        · rw [h]; rfl
        · rfl
      refine ⟨(e1.trans e2).trans e3, ?_, ?_, ?_⟩
      · intro t
        rw [h1 t, ht2, htg t]
      · intro t
        rw [h2 t, ht2]
        simp only [setTensor_tensorAt, List.mem_cons, Option.some.injEq]
        by_cases hr : some t ∈ rest
        · simp [hr]
        · by_cases ht : t = output
          · simp [hr, ht, TensorNode.setSource]
          · simp [hr, ht]
      · intro o ho q hq
        rcases List.mem_cons.mp ho with ho | ho
        · injection ho with ho
          subst ho
          have hq2 : q ∈ ((g.setTensor o ((g.tensorAt o).setSource (some op))).tensorAt
              o).targets := by
            rw [htg o]; exact hq
          obtain ⟨ha, hb⟩ := hl2 q hq2
          exact ⟨(e3.2.2.2.2 q).2.2.2.1 op ha, (e3.2.2.2.2 op).2.2.2.2 q hb⟩
        · apply h3 o ho q
          rw [ht2, htg o]
          exact hq

theorem connectInputs_spec (op : Nat) (ins : List (Option Nat)) :
    ∀ g : GraphObj, Extends g (connectInputs op ins g) ∧
      (∀ t, ((connectInputs op ins g).tensorAt t).source = (g.tensorAt t).source) ∧
      (∀ t, some t ∈ ins → op ∈ ((connectInputs op ins g).tensorAt t).targets ∧
        ∀ p, (g.tensorAt t).source = some p →
          p ∈ ((connectInputs op ins g).opAt op).predecessors ∧
          op ∈ ((connectInputs op ins g).opAt p).successors) := by
  induction ins with
  | nil =>
    intro g
    exact ⟨Extends.refl g, fun _ => rfl, fun t ht => absurd ht (List.not_mem_nil _)⟩
  | cons x rest ih =>
    intro g
    cases x with
    | none =>
      simp only [connectInputs]
      obtain ⟨e, h1, h2⟩ := ih g
      refine ⟨e, h1, ?_⟩
      intro t ht
      rcases List.mem_cons.mp ht with ht | ht
      · cases ht
      · exact h2 t ht
    | some input =>
      simp only [connectInputs]
      have e1 := Extends_addTarget g input op
      have hsrc1 : ∀ t, ((g.setTensor input ((g.tensorAt input).addTarget op)).tensorAt
          t).source = (g.tensorAt t).source := by
        intro t
        simp only [setTensor_tensorAt]
        split_ifs with h
        · rw [h]; exact (addTarget_spec (g.tensorAt input) op).2.2.1
        · rfl
      have htg1 : op ∈ ((g.setTensor input ((g.tensorAt input).addTarget op)).tensorAt
          input).targets := by
        simp only [setTensor_tensorAt, if_true]
        exact ((addTarget_spec (g.tensorAt input) op).2.2.2 op).mpr (Or.inr rfl)
      generalize hg1 : g.setTensor input ((g.tensorAt input).addTarget op) = g1 at *
      cases hs : (g1.tensorAt input).source with
      | none =>
        simp only []
        obtain ⟨e, h1, h2⟩ := ih g1
        refine ⟨e1.trans e, fun t => by rw [h1 t, hsrc1 t], ?_⟩
        intro t ht
        rcases List.mem_cons.mp ht with ht | ht
        · injection ht with ht
          subst ht
          refine ⟨(e.2.2.2.1 t).2.2 op htg1, ?_⟩
          intro p hp
          rw [← hsrc1 t, hs] at hp
          cases hp
        · obtain ⟨ha, hb⟩ := h2 t ht
          exact ⟨ha, fun p hp => hb p (by rw [hsrc1 t]; exact hp)⟩
      | some pred =>
        simp only []
        have e2 := Extends_addSuccessors g1 pred op
        have e3 := Extends_addPredecessors (g1.setOp pred ((g1.opAt pred).addSuccessors op))
          op pred
        generalize hg3 : (g1.setOp pred ((g1.opAt pred).addSuccessors op)).setOp op
          (((g1.setOp pred ((g1.opAt pred).addSuccessors op)).opAt op).addPredecessors
            pred) = g3 at *
        obtain ⟨e, h1, h2⟩ := ih g3
        have hsrc3 : ∀ t, (g3.tensorAt t).source = (g1.tensorAt t).source := by
          intro t
          rw [← hg3]
          rfl
        refine ⟨((e1.trans e2).trans e3).trans e,
          fun t => by rw [h1 t, hsrc3 t, hsrc1 t], ?_⟩
        intro t ht
        rcases List.mem_cons.mp ht with ht | ht
        · injection ht with ht
          subst ht
          refine ⟨(e.2.2.2.1 t).2.2 op ((e3.2.2.2.1 t).2.2 op ((e2.2.2.2.1 t).2.2 op htg1)), ?_⟩
          intro p hp
          rw [← hsrc1 t, hs] at hp
          injection hp with hp
          subst hp
          constructor
          · apply (e.2.2.2.2 op).2.2.2.1
            rw [← hg3]
            simp only [setOp_opAt, if_true]
            exact ((addPredecessors_spec _ pred).2.2.2.2 pred).mpr (Or.inr rfl)
          · apply (e.2.2.2.2 pred).2.2.2.2
            apply (e3.2.2.2.2 pred).2.2.2.2
            simp only [setOp_opAt, if_true]
            exact ((addSuccessors_spec _ op).2.2.2.2 op).mpr (Or.inr rfl)
        · obtain ⟨ha, hb⟩ := h2 t ht
          exact ⟨ha, fun p hp => hb p (by rw [hsrc3 t, hsrc1 t]; exact hp)⟩

end infini

namespace infini

theorem addOperatorAndConnect_aux (g0 g1 g2 : GraphObj) (op : Nat)
    (hg1 : connectInputs op (g0.opAt op).inputs g0 = g1)
    (hg2 : connectOutputs op (g1.opAt op).outputs g1 = g2) :
    g2.ops = g0.ops ∧ g2.sorted = g0.sorted ∧
    (g2.opAt op).inputs = (g0.opAt op).inputs ∧
    (g2.opAt op).outputs = (g0.opAt op).outputs ∧
    (∀ t, some t ∈ (g2.opAt op).inputs →
      op ∈ (g2.tensorAt t).targets ∧
      ∀ p, (g2.tensorAt t).source = some p →
        p ∈ (g2.opAt op).predecessors ∧ op ∈ (g2.opAt p).successors) ∧
    (∀ o, some o ∈ (g2.opAt op).outputs →
      (g2.tensorAt o).source = some op ∧
      ∀ q ∈ (g2.tensorAt o).targets,
        op ∈ (g2.opAt q).predecessors ∧ q ∈ (g2.opAt op).successors) := by
  obtain ⟨e1, hs1, hin⟩ := connectInputs_spec op (g0.opAt op).inputs g0
  rw [hg1] at e1 hs1 hin
  obtain ⟨e2, ht2, hs2, hout⟩ := connectOutputs_spec op (g1.opAt op).outputs g1
  rw [hg2] at e2 ht2 hs2 hout
  have hinp : (g2.opAt op).inputs = (g0.opAt op).inputs := by
    rw [(e2.2.2.2.2 op).2.1, (e1.2.2.2.2 op).2.1]
  have houtp : (g2.opAt op).outputs = (g1.opAt op).outputs := (e2.2.2.2.2 op).2.2.1
  refine ⟨by rw [e2.1, e1.1], by rw [e2.2.2.1, e1.2.2.1], hinp,
    by rw [houtp, (e1.2.2.2.2 op).2.2.1], ?_, ?_⟩
  · intro t ht
    rw [hinp] at ht
    obtain ⟨ha, hb⟩ := hin t ht
    refine ⟨by rw [ht2 t]; exact ha, ?_⟩
    intro p hp
    rw [hs2 t] at hp
    by_cases hto : some t ∈ (g1.opAt op).outputs
    · rw [if_pos hto] at hp
      injection hp with hp
      subst hp
      exact hout t hto op ha
    · rw [if_neg hto, hs1 t] at hp
      obtain ⟨hc, hd⟩ := hb p hp
      exact ⟨(e2.2.2.2.2 op).2.2.2.1 p hc, (e2.2.2.2.2 p).2.2.2.2 op hd⟩
  · intro o ho
    rw [houtp] at ho
    refine ⟨by rw [hs2 o, if_pos ho], ?_⟩
    intro q hq
    rw [ht2 o] at hq
    exact hout o ho q hq

/-- C19: after `addOperatorAndConnect(op)`, `op` is the last element of `ops`, the
`sorted` flag is false, the input and output lists of `op` are as before, every
non-null input `t` of `op` has `op` among its targets and, when its source `p` is
non-null, `p` is in `op.predecessors` and `op` is in `p.successors`; every non-null
output `o` has source `op`, and every `q` among the targets of `o` has `op` in
`q.predecessors` and is in `op.successors`. -/
theorem addOperatorAndConnect_wires (g : GraphObj) (op : Nat) :
    (addOperatorAndConnect g op).ops = g.ops ++ [op] ∧
    (addOperatorAndConnect g op).ops.getLast? = some op ∧
    (addOperatorAndConnect g op).sorted = false ∧
    ((addOperatorAndConnect g op).opAt op).inputs = (g.opAt op).inputs ∧
    ((addOperatorAndConnect g op).opAt op).outputs = (g.opAt op).outputs ∧
    (∀ t, some t ∈ ((addOperatorAndConnect g op).opAt op).inputs →
      op ∈ ((addOperatorAndConnect g op).tensorAt t).targets ∧
      ∀ p, ((addOperatorAndConnect g op).tensorAt t).source = some p →
        p ∈ ((addOperatorAndConnect g op).opAt op).predecessors ∧
        op ∈ ((addOperatorAndConnect g op).opAt p).successors) ∧
    (∀ o, some o ∈ ((addOperatorAndConnect g op).opAt op).outputs →
      ((addOperatorAndConnect g op).tensorAt o).source = some op ∧
      ∀ q ∈ ((addOperatorAndConnect g op).tensorAt o).targets,
        op ∈ ((addOperatorAndConnect g op).opAt q).predecessors ∧
        q ∈ ((addOperatorAndConnect g op).opAt op).successors) := by
  obtain ⟨h1, h2, h3, h4, h5, h6⟩ := addOperatorAndConnect_aux
    { g with sorted := false, ops := g.ops ++ [op] } _ (addOperatorAndConnect g op) op rfl rfl
  refine ⟨h1, ?_, h2, h3, h4, h5, h6⟩
  rw [h1]
  exact List.getLast?_concat _

end infini

namespace infini

/-! ## `GraphObj::removeOperator` -/

end infini

namespace infini

end infini

namespace infini

/-! ## `GraphObj::checkValid` -/

end infini

namespace infini

theorem Within.w_refl (A : Nat → Prop) (g : GraphObj) : Within A g g :=
  ⟨fun _ _ h => Or.inl h, fun _ _ h => Or.inl h, fun _ _ h => Or.inl h⟩

theorem Within.w_trans {A : Nat → Prop} {g g1 g2 : GraphObj} (h1 : Within A g g1)
    (h2 : Within A g1 g2) : Within A g g2 := by
  obtain ⟨a1, a2, a3⟩ := h1
  obtain ⟨b1, b2, b3⟩ := h2
  refine ⟨?_, ?_, ?_⟩
  · intro t x hx
    rcases b1 t x hx with h | h
    · exact a1 t x h
    · exact Or.inr h
  · intro q x hx
    rcases b2 q x hx with h | h
    · exact a2 q x h
    · exact Or.inr h
  · intro q x hx
    rcases b3 q x hx with h | h
    · exact a3 q x h
    · exact Or.inr h

theorem Within_addTarget (A : Nat → Prop) (g : GraphObj) (t op : Nat) (hA : A op) :
    Within A g (g.setTensor t ((g.tensorAt t).addTarget op)) := by
  refine ⟨?_, fun _ _ h => Or.inl h, fun _ _ h => Or.inl h⟩
  intro u x hx
  simp only [setTensor_tensorAt] at hx
  split_ifs at hx with hu
  · subst hu
    rcases ((addTarget_spec (g.tensorAt u) op).2.2.2 x).mp hx with h | h
    · exact Or.inl h
    · rw [h]; exact Or.inr hA
  · exact Or.inl hx

theorem Within_setSource (A : Nat → Prop) (g : GraphObj) (t : Nat) (s : Option Nat) :
    Within A g (g.setTensor t ((g.tensorAt t).setSource s)) := by
  refine ⟨?_, fun _ _ h => Or.inl h, fun _ _ h => Or.inl h⟩
  intro u x hx
  simp only [setTensor_tensorAt] at hx
  split_ifs at hx with hu
  · subst hu
    exact Or.inl hx
  · exact Or.inl hx

theorem Within_addPredecessors (A : Nat → Prop) (g : GraphObj) (q p : Nat) (hA : A p) :
    Within A g (g.setOp q ((g.opAt q).addPredecessors p)) := by
  refine ⟨fun _ _ h => Or.inl h, ?_, ?_⟩
  · intro u x hx
    simp only [setOp_opAt] at hx
    split_ifs at hx with hu
    · subst hu
      rcases ((addPredecessors_spec (g.opAt u) p).2.2.2.2 x).mp hx with h | h
      · exact Or.inl h
      · rw [h]; exact Or.inr hA
    · exact Or.inl hx
  · intro u x hx
    simp only [setOp_opAt] at hx
    split_ifs at hx with hu
    · subst hu
      rw [(addPredecessors_spec (g.opAt u) p).2.2.2.1] at hx
      exact Or.inl hx
    · exact Or.inl hx

theorem Within_addSuccessors (A : Nat → Prop) (g : GraphObj) (q s : Nat) (hA : A s) :
    Within A g (g.setOp q ((g.opAt q).addSuccessors s)) := by
  refine ⟨fun _ _ h => Or.inl h, ?_, ?_⟩
  · intro u x hx
    simp only [setOp_opAt] at hx
    split_ifs at hx with hu
    · subst hu
      rw [(addSuccessors_spec (g.opAt u) s).2.2.2.1] at hx
      exact Or.inl hx
    · exact Or.inl hx
  · intro u x hx
    simp only [setOp_opAt] at hx
    split_ifs at hx with hu
    · subst hu
      rcases ((addSuccessors_spec (g.opAt u) s).2.2.2.2 x).mp hx with h | h
      · exact Or.inl h
      · rw [h]; exact Or.inr hA
    · exact Or.inl hx

theorem linkTargets_within (A : Nat → Prop) (op : Nat) (hA : A op) (succs : List Nat) :
    ∀ g : GraphObj, (∀ s ∈ succs, A s) → Within A g (linkTargets op succs g) := by
  induction succs with
  | nil => intro g _; exact Within.w_refl A g
  | cons s rest ih =>
    intro g hs
    simp only [linkTargets]
    exact ((Within_addPredecessors A g s op hA).w_trans
      (Within_addSuccessors A _ op s (hs s (List.mem_cons_self _ _)))).w_trans
      (ih _ (fun x hx => hs x (List.mem_cons_of_mem _ hx)))

theorem connectOutputs_within (A : Nat → Prop) (op : Nat) (hA : A op)
    (outs : List (Option Nat)) :
    ∀ g : GraphObj, (∀ o, some o ∈ outs → ∀ q ∈ (g.tensorAt o).targets, A q) →
      Within A g (connectOutputs op outs g) := by
  induction outs with
  | nil => intro g _; exact Within.w_refl A g
  | cons x rest ih =>
    intro g hs
    cases x with
    | none =>
      simp only [connectOutputs]
      exact ih g (fun o ho => hs o (List.mem_cons_of_mem _ ho))
    | some output =>
      simp only [connectOutputs]
      have htg : ∀ t, ((g.setTensor output ((g.tensorAt output).setSource (some op))).tensorAt
          t).targets = (g.tensorAt t).targets := by
        intro t
        simp only [setTensor_tensorAt]
        split_ifs with h
        · rw [h]; rfl
        · rfl
      have w1 := Within_setSource A g output (some op)
      have w2 := linkTargets_within A op hA
        ((g.setTensor output ((g.tensorAt output).setSource (some op))).tensorAt output).targets
        (g.setTensor output ((g.tensorAt output).setSource (some op)))
        (by rw [htg output]; exact hs output (List.mem_cons_self _ _))
      obtain ⟨_, ht2, _⟩ := linkTargets_spec op
        ((g.setTensor output ((g.tensorAt output).setSource (some op))).tensorAt output).targets
        (g.setTensor output ((g.tensorAt output).setSource (some op)))
      refine (w1.w_trans w2).w_trans (ih _ ?_)
      intro o ho q hq
      rw [ht2, htg o] at hq
      exact hs o (List.mem_cons_of_mem _ ho) q hq

theorem connectInputs_within (A : Nat → Prop) (op : Nat) (hA : A op)
    (ins : List (Option Nat)) :
    ∀ g : GraphObj, (∀ t, some t ∈ ins → ∀ p, (g.tensorAt t).source = some p → A p) →
      Within A g (connectInputs op ins g) ∧
      ∀ t x, x ∈ ((connectInputs op ins g).tensorAt t).targets →
        x ∈ (g.tensorAt t).targets ∨ x = op := by
  induction ins with
  | nil =>
    intro g _
    exact ⟨Within.w_refl A g, fun _ _ h => Or.inl h⟩
  | cons x rest ih =>
    intro g hs
    cases x with
    | none =>
      simp only [connectInputs]
      exact ih g (fun t ht => hs t (List.mem_cons_of_mem _ ht))
    | some input =>
      simp only [connectInputs]
      have w1 := Within_addTarget A g input op hA
      have hsrc1 : ∀ t, ((g.setTensor input ((g.tensorAt input).addTarget op)).tensorAt
          t).source = (g.tensorAt t).source := by
        intro t
        simp only [setTensor_tensorAt]
        split_ifs with h
        · rw [h]; exact (addTarget_spec (g.tensorAt input) op).2.2.1
        · rfl
      have htg1 : ∀ t x, x ∈ ((g.setTensor input ((g.tensorAt input).addTarget op)).tensorAt
          t).targets → x ∈ (g.tensorAt t).targets ∨ x = op := by
        intro t x hx
        simp only [setTensor_tensorAt] at hx
        split_ifs at hx with h
        · subst h
          exact ((addTarget_spec (g.tensorAt t) op).2.2.2 x).mp hx
        · exact Or.inl hx
      generalize hg1 : g.setTensor input ((g.tensorAt input).addTarget op) = g1 at *
      cases hsi : (g1.tensorAt input).source with
      | none =>
        simp only []
        obtain ⟨w, htg⟩ := ih g1 (fun t ht p hp =>
          hs t (List.mem_cons_of_mem _ ht) p (by rw [← hsrc1 t]; exact hp))
        refine ⟨w1.w_trans w, ?_⟩
        intro t x hx
        rcases htg t x hx with h | h
        · exact htg1 t x h
        · exact Or.inr h
      | some pred =>
        simp only []
        have hApred : A pred :=
          hs input (List.mem_cons_self _ _) pred (by rw [← hsrc1 input]; exact hsi)
        have w2 := Within_addSuccessors A g1 pred op hA
        have w3 := Within_addPredecessors A (g1.setOp pred ((g1.opAt pred).addSuccessors op))
          op pred hApred
        generalize hg3 : (g1.setOp pred ((g1.opAt pred).addSuccessors op)).setOp op
          (((g1.setOp pred ((g1.opAt pred).addSuccessors op)).opAt op).addPredecessors
            pred) = g3 at *
        have ht3 : g3.tensorAt = g1.tensorAt := by rw [← hg3]; rfl
        obtain ⟨w, htg⟩ := ih g3 (fun t ht p hp =>
          hs t (List.mem_cons_of_mem _ ht) p (by rw [← hsrc1 t, ← ht3]; exact hp))
        refine ⟨((w1.w_trans w2).w_trans w3).w_trans w, ?_⟩
        intro t x hx
        rcases htg t x hx with h | h
        · rw [ht3] at h
          exact htg1 t x h
        · exact Or.inr h

end infini

namespace infini

theorem Valid_addOperatorAndConnect_aux (g g0 g1 g2 : GraphObj) (op : Nat)
    (hg0 : g0 = { g with sorted := false, ops := g.ops ++ [op] })
    (hg1 : connectInputs op (g0.opAt op).inputs g0 = g1)
    (hg2 : connectOutputs op (g1.opAt op).outputs g1 = g2)
    (hv : Valid g)
    (hin : ∀ i ∈ (g.opAt op).inputs, ∃ t, i = some t ∧ t ∈ g.tensors)
    (hout : ∀ o ∈ (g.opAt op).outputs, ∃ t, o = some t ∧ t ∈ g.tensors)
    (hpre : ∀ p ∈ (g.opAt op).predecessors, p ∈ g.ops ++ [op])
    (hsuc : ∀ s ∈ (g.opAt op).successors, s ∈ g.ops ++ [op]) : Valid g2 := by
  obtain ⟨v1, v2, v3⟩ := hv
  have hAop : op ∈ g.ops ++ [op] := List.mem_append_right _ (List.mem_singleton_self op)
  have hAof : ∀ x, x ∈ g.ops → x ∈ g.ops ++ [op] := fun x hx => List.mem_append_left _ hx
  have h0t : g0.tensorAt = g.tensorAt := by rw [hg0]
  have h0o : g0.opAt = g.opAt := by rw [hg0]
  have h0ops : g0.ops = g.ops ++ [op] := by rw [hg0]
  have h0ten : g0.tensors = g.tensors := by rw [hg0]
  obtain ⟨e1, hs1, _⟩ := connectInputs_spec op (g0.opAt op).inputs g0
  rw [hg1] at e1 hs1
  obtain ⟨e2, ht2, hs2, _⟩ := connectOutputs_spec op (g1.opAt op).outputs g1
  rw [hg2] at e2 ht2 hs2
  obtain ⟨w1, htg1⟩ := connectInputs_within (fun x => x ∈ g.ops ++ [op]) op hAop
    (g0.opAt op).inputs g0 (by
      intro t ht p hp
      rw [h0o] at ht
      rw [h0t] at hp
      obtain ⟨t1, ht1, hmem⟩ := hin (some t) ht
      injection ht1 with ht1
      subst ht1
      exact hAof p ((v1 t hmem).2.2 p hp))
  rw [hg1] at w1 htg1
  have houts1 : (g1.opAt op).outputs = (g.opAt op).outputs := by
    rw [(e1.2.2.2.2 op).2.2.1, h0o]
  have w2 := connectOutputs_within (fun x => x ∈ g.ops ++ [op]) op hAop
    (g1.opAt op).outputs g1 (by
      intro o ho q hq
      rw [houts1] at ho
      obtain ⟨t1, ht1, hmem⟩ := hout (some o) ho
      injection ht1 with ht1
      subst ht1
      rcases htg1 o q hq with h | h
      · rw [h0t] at h
        exact hAof q ((v1 o hmem).2.1 q h)
      · rw [h]; exact hAop)
  rw [hg2] at w2
  obtain ⟨wt, wp, ws⟩ := w1.w_trans w2
  have e := e1.trans e2
  obtain ⟨eops, eten, _, etn, eop⟩ := e
  rw [h0t] at wt etn
  rw [h0o] at wp ws eop
  rw [h0ops] at eops
  rw [h0ten] at eten
  have hsrc : ∀ t, (g2.tensorAt t).source =
      if some t ∈ (g1.opAt op).outputs then some op else (g.tensorAt t).source := by
    intro t
    rw [hs2 t, hs1 t, h0t]
  unfold Valid
  rw [eops, eten]
  refine ⟨?_, ?_, ?_⟩
  · intro t ht
    obtain ⟨x1, x2, x3⟩ := v1 t ht
    refine ⟨?_, ?_, ?_⟩
    · rintro ⟨ha, hb⟩
      apply x1
      constructor
      · cases hl : (g.tensorAt t).targets with
        | nil => rfl
        | cons y ys =>
          have := (etn t).2.2 y (by rw [hl]; exact List.mem_cons_self _ _)
          rw [ha] at this
          exact absurd this (List.not_mem_nil _)
      · rw [hsrc t] at hb
        split_ifs at hb
        exact hb
    · intro q hq
      rcases wt t q hq with h | h
      · exact hAof q (x2 q h)
      · exact h
    · intro p hp
      rw [Option.mem_def, hsrc t] at hp
      split_ifs at hp
      · injection hp with hp
        rw [← hp]; exact hAop
      · exact hAof p (x3 p hp)
  · intro q hq
    rw [(eop q).2.1, (eop q).2.2.1]
    rcases List.mem_append.mp hq with hq1 | hq1
    · obtain ⟨x1, x2, x3, x4⟩ := v2 q hq1
      refine ⟨x1, x2, ?_, ?_⟩
      · intro p hp
        rcases wp q p hp with h | h
        · exact hAof p (x3 p h)
        · exact h
      · intro s hs
        rcases ws q s hs with h | h
        · exact hAof s (x4 s h)
        · exact h
    · rw [List.mem_singleton] at hq1
      subst hq1
      refine ⟨hin, hout, ?_, ?_⟩
      · intro p hp
        rcases wp q p hp with h | h
        · exact hpre p h
        · exact h
      · intro s hs
        rcases ws q s hs with h | h
        · exact hsuc s h
        · exact h
  · have : g.tensors.map (fun t => (g2.tensorAt t).fuid) =
        g.tensors.map (fun t => (g.tensorAt t).fuid) := by
      apply List.map_congr_left
      intro t _
      exact (etn t).1
    rw [this]
    exact v3

/-- `addOperatorAndConnect` keeps a valid graph valid when the inputs and outputs of
the new operator are tensors of the graph and its predecessor and successor lists
hold only operators of the new `ops`. -/
theorem Valid_addOperatorAndConnect (g : GraphObj) (op : Nat) (hv : Valid g)
    (hin : ∀ i ∈ (g.opAt op).inputs, ∃ t, i = some t ∧ t ∈ g.tensors)
    (hout : ∀ o ∈ (g.opAt op).outputs, ∃ t, o = some t ∧ t ∈ g.tensors)
    (hpre : ∀ p ∈ (g.opAt op).predecessors, p ∈ g.ops ++ [op])
    (hsuc : ∀ s ∈ (g.opAt op).successors, s ∈ g.ops ++ [op]) :
    Valid (addOperatorAndConnect g op) :=
  Valid_addOperatorAndConnect_aux g _ _ _ op rfl rfl rfl hv hin hout hpre hsuc

end infini

namespace infini

end infini

namespace infini

/-! ## Live blocks of the allocator -/

/-- C27 (the code at the failing input): `alloc(8)` gives offset 0, `alloc(8)` gives
offset 8, `free(0, 8)` returns the first block and lowers `used` to 8, and
`alloc(16)`, which no free block fits, is placed at `used = 8`.  The state reached
has the two live blocks `(8, 16)` and `(8, 8)`, whose ranges `[8, 24)` and
`[8, 16)` intersect. -/
theorem reachable_live_blocks_overlap :
    Reach { used := 24, peak := 24, ptr := none, free_blocks := [(0, 8)] }
      [(8, 16), (8, 8)] ∧
    ((8 : Nat), (16 : Nat)) ≠ (8, 8) ∧
    (8 : Nat) < 8 + getAlignedSize 8 ∧ (8 : Nat) < 8 + getAlignedSize 16 := by
  have r1 : Reach { used := 8, peak := 8, ptr := none, free_blocks := [] } [(0, 8)] :=
    ReachG.alloc ReachG.init (by decide) trivial (by decide)
  have r2 : Reach { used := 16, peak := 16, ptr := none, free_blocks := [] }
      [(8, 8), (0, 8)] :=
    ReachG.alloc r1 (by decide) trivial (by decide)
  have r3 : Reach { used := 8, peak := 16, ptr := none, free_blocks := [(0, 8)] }
      [(8, 8)] :=
    @ReachG.free _ _ _ _ 0 8 r2 (by decide) (by decide)
  have r4 : Reach { used := 24, peak := 24, ptr := none, free_blocks := [(0, 8)] }
      [(8, 16), (8, 8)] :=
    ReachG.alloc r3 (by decide) trivial (by decide)
  exact ⟨r4, by decide, by decide, by decide⟩

end infini

namespace infini

/-! ## Transpose flags of `MatmulObj::inferShape` -/

theorem matDims_swapAt (S : Shape) (h : 2 ≤ S.length) :
    matDims (swapAt S (S.length - 2) (S.length - 1)) false = matDims S true := by
  obtain ⟨h1, h2⟩ := swapAt_lastTwo S h
  unfold matDims lastTwo
  simp only [swapAt_length, Bool.false_eq_true, if_false, if_true]
  rw [h1, h2]

theorem take_set_of_le (S : Shape) (a : Int) (i j : Nat) (h : i ≤ j) :
    (S.set j a).take i = S.take i := by
  rw [List.set_take]
  apply List.set_eq_of_length_le
  rw [List.length_take]
  omega

theorem batchDims_swapAt (S : Shape) :
    batchDims (swapAt S (S.length - 2) (S.length - 1)) = batchDims S := by
  unfold batchDims
  rw [swapAt_length]
  unfold swapAt
  rw [take_set_of_le _ _ _ _ (by omega), take_set_of_le _ _ _ _ (Nat.le_refl _)]

theorem matmul_same_of_dims (op1 op2 : MatmulObj) (A1 B1 A2 B2 : Shape)
    (hA1 : 2 ≤ A1.length) (hB1 : 2 ≤ B1.length) (hA2 : 2 ≤ A2.length) (hB2 : 2 ≤ B2.length)
    (hm : op1.m = op2.m) (hn : op1.n = op2.n) (hk : op1.k = op2.k)
    (hdA : matDims A1 op1.transA = matDims A2 op2.transA)
    (hdB : matDims B1 op1.transB = matDims B2 op2.transB)
    (hbA : batchDims A1 = batchDims A2) (hbB : batchDims B1 = batchDims B2) :
    (op1.inferShape [some A1, some B1]).1 = (op2.inferShape [some A2, some B2]).1 ∧
    (op1.inferShape [some A1, some B1]).2.m = (op2.inferShape [some A2, some B2]).2.m ∧
    (op1.inferShape [some A1, some B1]).2.n = (op2.inferShape [some A2, some B2]).2.n ∧
    (op1.inferShape [some A1, some B1]).2.k = (op2.inferShape [some A2, some B2]).2.k := by
  rw [matmul_inferShape_eval op1 A1 B1 hA1 hB1, matmul_inferShape_eval op2 A2 B2 hA2 hB2,
    hdA, hdB, hbA, hbB]
  by_cases hkk : (matDims A2 op2.transA).2 = (matDims B2 op2.transB).1
  · rw [if_neg (not_not.mpr hkk), if_neg (not_not.mpr hkk)]
    cases infer_broadcast (batchDims A2) (batchDims B2) with
    | error e => exact ⟨rfl, hm, hn, hk⟩
    | ok rb => exact ⟨rfl, rfl, rfl, rfl⟩
  · rw [if_pos hkk, if_pos hkk]
    exact ⟨rfl, hm, hn, hk⟩

/-- C26: for shapes `A`, `B` of rank at least 2 and any value of the other flag,
`inferShape` on `(A, B)` with `transA = true` returns the same optional shape and
leaves the same cached `m`, `n`, `k` as `inferShape` on `(A', B)` with
`transA = false`, where `A'` is `A` with its last two axes exchanged; and the same
for `B` and `transB`. -/
theorem matmul_trans_flag_swap (op : MatmulObj) (A B : Shape)
    (hA : 2 ≤ A.length) (hB : 2 ≤ B.length) :
    ((MatmulObj.inferShape { op with transA := true } [some A, some B]).1 =
        (MatmulObj.inferShape { op with transA := false }
          [some (swapAt A (A.length - 2) (A.length - 1)), some B]).1 ∧
      (MatmulObj.inferShape { op with transA := true } [some A, some B]).2.m =
        (MatmulObj.inferShape { op with transA := false }
          [some (swapAt A (A.length - 2) (A.length - 1)), some B]).2.m ∧
      (MatmulObj.inferShape { op with transA := true } [some A, some B]).2.n =
        (MatmulObj.inferShape { op with transA := false }
          [some (swapAt A (A.length - 2) (A.length - 1)), some B]).2.n ∧
      (MatmulObj.inferShape { op with transA := true } [some A, some B]).2.k =
        (MatmulObj.inferShape { op with transA := false }
          [some (swapAt A (A.length - 2) (A.length - 1)), some B]).2.k) ∧
    ((MatmulObj.inferShape { op with transB := true } [some A, some B]).1 =
        (MatmulObj.inferShape { op with transB := false }
          [some A, some (swapAt B (B.length - 2) (B.length - 1))]).1 ∧
      (MatmulObj.inferShape { op with transB := true } [some A, some B]).2.m =
        (MatmulObj.inferShape { op with transB := false }
          [some A, some (swapAt B (B.length - 2) (B.length - 1))]).2.m ∧
      (MatmulObj.inferShape { op with transB := true } [some A, some B]).2.n =
        (MatmulObj.inferShape { op with transB := false }
          [some A, some (swapAt B (B.length - 2) (B.length - 1))]).2.n ∧
      (MatmulObj.inferShape { op with transB := true } [some A, some B]).2.k =
        (MatmulObj.inferShape { op with transB := false }
          [some A, some (swapAt B (B.length - 2) (B.length - 1))]).2.k) := by
  constructor
  · exact matmul_same_of_dims _ _ A B _ B hA hB (by rw [swapAt_length]; exact hA) hB
      rfl rfl rfl (matDims_swapAt A hA).symm rfl (batchDims_swapAt A).symm rfl
  · exact matmul_same_of_dims _ _ A B A _ hA hB hA (by rw [swapAt_length]; exact hB)
      rfl rfl rfl rfl (matDims_swapAt B hB).symm rfl (batchDims_swapAt B).symm

theorem matmul_trans_flag_swap_witness :
    (MatmulObj.inferShape { transA := true, transB := false, m := 0, n := 0, k := 0 }
        [some [7, 5, 3], some [7, 5, 4]] =
      (some [[7, 3, 4]], { transA := true, transB := false, m := 3, n := 4, k := 5 })) ∧
    (swapAt [7, 5, 3] 1 2 = [7, 3, 5]) ∧
    (MatmulObj.inferShape { transA := false, transB := false, m := 0, n := 0, k := 0 }
        [some [7, 3, 5], some [7, 5, 4]] =
      (some [[7, 3, 4]], { transA := false, transB := false, m := 3, n := 4, k := 5 })) ∧
    (MatmulObj.inferShape { transA := true, transB := false, m := 0, n := 0, k := 0 }
        [some [7, 5, 3], some [7, 5, 4]]).1 =
      (MatmulObj.inferShape { transA := false, transB := false, m := 0, n := 0, k := 0 }
        [some (swapAt [7, 5, 3] 1 2), some [7, 5, 4]]).1 :=
  ⟨by decide, by decide, by decide,
    (matmul_trans_flag_swap { transA := false, transB := false, m := 0, n := 0, k := 0 }
      [7, 5, 3] [7, 5, 4] (by decide) (by decide)).1.1⟩

end infini

namespace infini

/-! ## `locate_index` and `delocate_index` -/

theorem toSizeT_of_lt (x : Int) (h0 : 0 ≤ x) (h1 : x < 2 ^ 31) : (toSizeT x : Int) = x := by
  unfold toSizeT
  rw [SIZE_MOD_eq]
  omega

theorem locateLoop_spec (ds : List Int) :
    ∀ (n : Nat) (c : Int), (∀ d ∈ ds, 0 < d) → (n : Int) < ds.prod → (n : Int) < 2 ^ 31 →
      ∃ idx, locateLoop ds n = some idx ∧
        List.Forall₂ (fun x d => 0 ≤ x ∧ x < d) idx ds ∧
        (List.zipWith (fun x w => x * w) idx (weightsFrom c ds)).sum = c * n := by
  induction ds with
  | nil =>
    intro n c _ hn _
    refine ⟨[], rfl, List.Forall₂.nil, ?_⟩
    simp only [List.prod_nil] at hn
    have : (n : Int) = 0 := by omega
    simp [weightsFrom, this]
  | cons d ds ih =>
    intro n c hpos hn hsmall
    have hd : 0 < d := hpos d (List.mem_cons_self _ _)
    have hn0 : (0 : Int) ≤ n := Int.ofNat_nonneg n
    have hq0 : 0 ≤ (n : Int) / d := Int.ediv_nonneg hn0 (le_of_lt hd)
    have hqle : (n : Int) / d ≤ n := Int.ediv_le_self d hn0
    have hr0 : 0 ≤ (n : Int) % d := Int.emod_nonneg _ (ne_of_gt hd)
    have hrlt : (n : Int) % d < d := Int.emod_lt_of_pos _ hd
    have hqlt : (n : Int) / d < ds.prod := by
      rw [List.prod_cons] at hn
      exact Int.ediv_lt_of_lt_mul hd (by rw [mul_comm]; exact hn)
    have hcast : ((toSizeT ((n : Int) / d) : Nat) : Int) = (n : Int) / d :=
      toSizeT_of_lt _ hq0 (by omega)
    obtain ⟨idx, hloc, hF, hsum⟩ := ih (toSizeT ((n : Int) / d)) (c * d)
      (fun x hx => hpos x (List.mem_cons_of_mem _ hx)) (by rw [hcast]; exact hqlt)
      (by rw [hcast]; omega)
    refine ⟨(n : Int) % d :: idx, ?_, List.Forall₂.cons ⟨hr0, hrlt⟩ hF, ?_⟩
    · have hdiv : stdDiv (toInt32 (n : Int)) d = some ((n : Int) / d, (n : Int) % d) := by
        rw [toInt32_of_lt _ hn0 hsmall]
        unfold stdDiv
        rw [if_neg (by omega), Int.tdiv_eq_ediv hn0 (le_of_lt hd),
          Int.tmod_eq_emod hn0 (le_of_lt hd)]
      simp only [locateLoop, hdiv, hloc]
    · simp only [weightsFrom, List.zipWith_cons_cons, List.sum_cons, hsum, hcast]
      have := Int.emod_add_ediv (n : Int) d
      calc (n : Int) % d * c + c * d * ((n : Int) / d)
          = c * ((n : Int) % d + d * ((n : Int) / d)) := by ring
        _ = c * n := by rw [this]

theorem dot_nonneg (idx shape : List Int)
    (hF : List.Forall₂ (fun x d => 0 ≤ x ∧ x < d) idx shape) :
    ∀ stride : List Int, (∀ s ∈ stride, 0 ≤ s) →
      0 ≤ (List.zipWith (fun x w => x * w) idx stride).sum := by
  induction hF with
  | nil => intro stride _; simp
  | cons hx _ ih =>
    intro stride hs
    cases stride with
    | nil => simp
    | cons s stride1 =>
      simp only [List.zipWith_cons_cons, List.sum_cons]
      exact add_nonneg (mul_nonneg hx.1 (hs s (List.mem_cons_self _ _)))
        (ih stride1 (fun y hy => hs y (List.mem_cons_of_mem _ hy)))

theorem delocateLoop_spec (idx : List Int) :
    ∀ (shape stride : List Int) (ans : Nat),
      List.Forall₂ (fun x d => 0 ≤ x ∧ x < d) idx shape → stride.length = idx.length →
      (∀ s ∈ stride, 0 ≤ s) →
      (ans : Int) + (List.zipWith (fun x w => x * w) idx stride).sum < 2 ^ 31 →
      ∃ r : Nat, delocateLoop idx shape stride ans = some r ∧
        (r : Int) = ans + (List.zipWith (fun x w => x * w) idx stride).sum := by
  induction idx with
  | nil =>
    intro shape stride ans hF _ _ _
    cases hF
    refine ⟨ans, ?_, by simp⟩
    cases stride <;> rfl
  | cons x idx ih =>
    intro shape stride ans hF hlen hs hsum
    cases hF with
    | @cons _ d _ shape1 hx hF1 =>
      cases stride with
      | nil => simp at hlen
      | cons s stride1 =>
        have hs0 : 0 ≤ s := hs s (List.mem_cons_self _ _)
        have hd : 0 < d := lt_of_le_of_lt hx.1 hx.2
        have hmod : Int.tmod x d = x := by
          rw [Int.tmod_eq_emod hx.1 (le_of_lt hd)]
          exact Int.emod_eq_of_lt hx.1 hx.2
        have hrest0 : 0 ≤ (List.zipWith (fun x w => x * w) idx stride1).sum :=
          dot_nonneg idx shape1 hF1 stride1 (fun y hy => hs y (List.mem_cons_of_mem _ hy))
        have hxs0 : 0 ≤ x * s := mul_nonneg hx.1 hs0
        simp only [List.zipWith_cons_cons, List.sum_cons] at hsum
        have hans0 : (0 : Int) ≤ ans := Int.ofNat_nonneg ans
        have hxs : x * s < 2 ^ 31 := by omega
        have hcast : ((toSizeT (x * s) : Nat) : Int) = x * s := toSizeT_of_lt _ hxs0 hxs
        have hacc : (((ans + toSizeT (x * s)) % SIZE_MOD : Nat) : Int) = ans + x * s := by
          rw [Nat.mod_eq_of_lt]
          · push_cast
            rw [hcast]
          · rw [SIZE_MOD_eq]
            have : ((ans + toSizeT (x * s) : Nat) : Int) < 2 ^ 31 := by
              push_cast
              rw [hcast]
              omega
            omega
        obtain ⟨r, hr, hreq⟩ := ih shape1 stride1 ((ans + toSizeT (x * s)) % SIZE_MOD) hF1
          (by simpa using hlen) (fun y hy => hs y (List.mem_cons_of_mem _ hy))
          (by rw [hacc]; omega)
        refine ⟨r, ?_, ?_⟩
        · simp only [delocateLoop, hmod]
          rw [if_neg (by omega), if_neg (by rw [toInt32_of_lt _ hxs0 hxs]; simp)]
          exact hr
        · rw [hreq, hacc]
          simp only [List.zipWith_cons_cons, List.sum_cons]
          ring

end infini

namespace infini

theorem weightsFrom_append (ds : List Int) :
    ∀ (c d : Int), weightsFrom c (ds ++ [d]) = weightsFrom c ds ++ [c * ds.prod] := by
  induction ds with
  | nil => intro c d; simp [weightsFrom]
  | cons x xs ih =>
    intro c d
    show c :: weightsFrom (c * x) (xs ++ [d]) = c :: weightsFrom (c * x) xs ++ [c * (x :: xs).prod]
    rw [ih, List.prod_cons, mul_assoc]
    rfl

theorem weightsFrom_length (ds : List Int) : ∀ c : Int, (weightsFrom c ds).length = ds.length := by
  induction ds with
  | nil => intro c; rfl
  | cons x xs ih => intro c; simp only [weightsFrom, List.length_cons, ih]

theorem rowMajorStride_eq (shape : Shape) :
    rowMajorStride shape = (weightsFrom 1 shape.reverse).reverse := by
  induction shape with
  | nil => rfl
  | cons s rest ih =>
    rw [List.reverse_cons, weightsFrom_append, List.reverse_append, List.prod_reverse, one_mul,
      ← ih]
    rfl

theorem rowMajorStride_nonneg (shape : Shape) (hpos : ∀ d ∈ shape, 0 < d) :
    ∀ s ∈ rowMajorStride shape, 0 ≤ s := by
  induction shape with
  | nil => intro s hs; cases hs
  | cons d rest ih =>
    intro s hs
    simp only [rowMajorStride, List.mem_cons] at hs
    rcases hs with h | h
    · rw [h]
      exact List.prod_nonneg (fun a ha => le_of_lt (hpos a (List.mem_cons_of_mem _ ha)))
    · exact ih (fun a ha => hpos a (List.mem_cons_of_mem _ ha)) s h

/-- C29 (amended): for a shape with all dimensions positive, with the row-major
strides, and a linear index `n` below the number of elements and below `2 ^ 31`:
`locate_index` returns an index vector whose every component lies in
`[0, shape[i])`, and `delocate_index` of it returns `n`. -/
theorem locate_delocate_inverse (shape : Shape) (n : Nat) (hpos : ∀ d ∈ shape, 0 < d)
    (hn : (n : Int) < shape.prod) (hsmall : (n : Int) < 2 ^ 31) :
    ∃ idx, locate_index n shape = some idx ∧
      List.Forall₂ (fun x d => 0 ≤ x ∧ x < d) idx shape ∧
      delocate_index idx shape (rowMajorStride shape) = some n := by
  obtain ⟨idx1, hloc, hF, hsum⟩ := locateLoop_spec shape.reverse n 1
    (fun d hd => hpos d (List.mem_reverse.mp hd)) (by rw [List.prod_reverse]; exact hn)
    hsmall
  have hF1 : List.Forall₂ (fun x d => 0 ≤ x ∧ x < d) idx1.reverse shape :=
    List.forall₂_reverse_iff.mp (by rw [List.reverse_reverse]; exact hF)
  have hlen1 : idx1.length = shape.length := by
    have := hF.length_eq
    simpa using this
  have hdot : (List.zipWith (fun x w => x * w) idx1.reverse (rowMajorStride shape)).sum = n := by
    rw [rowMajorStride_eq, ← List.reverse_zipWith (by rw [weightsFrom_length]; simpa using hlen1),
      List.sum_reverse, hsum, one_mul]
  have hslen : (rowMajorStride shape).length = shape.length := by
    rw [rowMajorStride_eq, List.length_reverse, weightsFrom_length, List.length_reverse]
  refine ⟨idx1.reverse, ?_, hF1, ?_⟩
  · unfold locate_index
    rw [hloc]
    rfl
  · obtain ⟨r, hr, hreq⟩ := delocateLoop_spec idx1.reverse shape (rowMajorStride shape) 0 hF1
      (by rw [hslen, List.length_reverse, hlen1]) (rowMajorStride_nonneg shape hpos)
      (by rw [hdot]; simp only [Nat.cast_zero, zero_add]; exact hsmall)
    unfold delocate_index
    rw [if_neg (by rw [List.length_reverse, hlen1]; simp), if_neg (by rw [hslen]; simp), hr]
    rw [hdot] at hreq
    have : r = n := by omega
    rw [this]

theorem locate_delocate_inverse_witness :
    locate_index (2 ^ 31 - 1) [65536, 65536] = some [32767, 65535] ∧
    rowMajorStride [65536, 65536] = [65536, 1] ∧
    delocate_index [32767, 65535] [65536, 65536] [65536, 1] = some (2 ^ 31 - 1) ∧
    ∃ idx, locate_index (2 ^ 31 - 1) [65536, 65536] = some idx ∧
      List.Forall₂ (fun x d => 0 ≤ x ∧ x < d) idx [65536, 65536] ∧
      delocate_index idx [65536, 65536] (rowMajorStride [65536, 65536]) = some (2 ^ 31 - 1) :=
  ⟨by decide, by decide, by decide,
    locate_delocate_inverse [65536, 65536] (2 ^ 31 - 1) (by decide) (by decide) (by decide)⟩

/-- C29, counterexample: the shape `[65536, 65536]` has positive dimensions and
strides `[65536, 1]`, and the linear index `2 ^ 31` is below its `2 ^ 32` elements.
`locate_index` converts the index to `int`, which gives `-2 ^ 31`, and returns
`[-32768, 0]`, whose first component is negative; `delocate_index` of that vector
returns `2 ^ 64 - 2 ^ 31`, not `2 ^ 31`. -/
theorem locate_delocate_inverse_counterexample :
    (∀ d ∈ ([65536, 65536] : Shape), 0 < d) ∧
    rowMajorStride [65536, 65536] = [65536, 1] ∧
    ((2 ^ 31 : Nat) : Int) < ([65536, 65536] : Shape).prod ∧
    locate_index (2 ^ 31) [65536, 65536] = some [-32768, 0] ∧
    delocate_index [-32768, 0] [65536, 65536] [65536, 1] = some (2 ^ 64 - 2 ^ 31) ∧
    (2 ^ 64 - 2 ^ 31 : Nat) ≠ 2 ^ 31 := by
  refine ⟨by decide, by decide, by decide, by decide, by decide, by decide⟩

end infini

namespace infini

/-! ## `GraphObj::optimize` -/

/-- What `isLastTwoDimsSwap` tests: at least two axes, `perm[n-2] = n-1` and
`perm[n-1] = n-2`; the leading axes are not inspected. -/
theorem isLastTwoDimsSwap_iff (perm : List Int) :
    isLastTwoDimsSwap perm = true ↔
      2 ≤ perm.length ∧ perm.getD (perm.length - 2) 0 = ((perm.length - 1 : Nat) : Int) ∧
        perm.getD (perm.length - 1) 0 = ((perm.length - 2 : Nat) : Int) := by
  unfold isLastTwoDimsSwap
  by_cases h : perm.length < 2
  · rw [if_pos h]
    constructor
    · intro hf; cases hf
    · intro hf; omega
  · rw [if_neg h, Bool.and_eq_true, decide_eq_true_eq, decide_eq_true_eq]
    constructor
    · intro hf; exact ⟨by omega, hf⟩
    · intro hf; exact hf.2

/-- C21 (the code at the failing input): in the graph
`5 ─Concat 1→ 10 ─Transpose 2→ 20 ─Matmul 3→ 40`, built by `addOperatorAndConnect`,
the connectivity invariant holds.  After `optimize` the Matmul 3 survives and reads
tensor 10, whose source is the Concat 1, but 1 is not among the predecessors of 3
and 3 is not among the successors of 1: the invariant fails. -/
theorem optimize_breaks_connectivity :
    Connected graphProducerFusion ∧
    (optimize graphProducerFusion).map (fun g1 =>
        (g1.ops, (g1.opAt 3).inputs, (g1.tensorAt 10).source, (g1.opAt 3).predecessors,
          (g1.opAt 1).successors, decide (Connected g1))) =
      some ([1, 3], [some 10, some 30], some 1, [], [], false) := by
  refine ⟨by decide, rfl⟩

/-- C22 (the code at the failing input): `isLastTwoDimsSwap` accepts the permutation
`[1, 0, 3, 2]`, which is not the identity on the leading axes, and `optimize` folds
a Transpose of that permutation into the Matmul that consumes it: the Transpose 2
is removed, the Matmul 3 reads tensor 10 with `transA` set, and the shape it
infers, `[3, 2, 5, 6]` before, is none after. -/
theorem isLastTwoDimsSwap_accepts_leading_swap :
    isLastTwoDimsSwap [1, 0, 3, 2] = true ∧
    ([1, 0, 3, 2] : List Int).getD 0 0 ≠ 0 ∧
    (inferShapeOf (graphFusion [1, 0, 3, 2]
        { transA := false, transB := false, m := 0, n := 0, k := 0 }
        [2, 3, 4, 5] [3, 2, 5, 4] [3, 2, 4, 6]) 3).map (fun r => r.1) =
      some [[3, 2, 5, 6]] ∧
    (optimize (graphFusion [1, 0, 3, 2]
        { transA := false, transB := false, m := 0, n := 0, k := 0 }
        [2, 3, 4, 5] [3, 2, 5, 4] [3, 2, 4, 6])).map (fun g1 =>
        (g1.ops, (g1.opAt 3).inputs, (g1.opAt 3).attrs, (inferShapeOf g1 3).map (fun r => r.1))) =
      some ([3], [some 10, some 30],
        OpAttrs.matmul { transA := true, transB := false, m := 0, n := 0, k := 0 }, none) := by
  refine ⟨by decide, by decide, by decide, rfl⟩

/-- C24 (the code at the failing input): a Transpose of permutation `[1, 0]` from
tensor 10 of shape `[2, 3]` to tensor 20 of shape `[3, 2]` feeds operand 0 of a
Matmul whose `transA` is already true and whose other operand has shape `[3, 5]`.
Before `optimize` the Matmul infers `[2, 5]`; `optimize` folds the Transpose and
leaves `transA` true, and the Matmul, now reading tensor 10, infers no shape. -/
theorem fusion_changes_shape_when_flag_set :
    isLastTwoDimsSwap [1, 0] = true ∧
    (inferShapeOf (graphFusion [1, 0] { transA := true, transB := false, m := 0, n := 0, k := 0 }
        [2, 3] [3, 2] [3, 5]) 3).map (fun r => r.1) = some [[2, 5]] ∧
    (optimize (graphFusion [1, 0] { transA := true, transB := false, m := 0, n := 0, k := 0 }
        [2, 3] [3, 2] [3, 5])).map (fun g1 =>
        (g1.ops, (g1.opAt 3).inputs, (g1.opAt 3).attrs, (inferShapeOf g1 3).map (fun r => r.1))) =
      some ([3], [some 10, some 30],
        OpAttrs.matmul { transA := true, transB := false, m := 0, n := 0, k := 0 }, none) := by
  refine ⟨by decide, by decide, rfl⟩

/-- C25 (the code at the failing input): for two adjacent Transposes of the same
permutation `[1, 2, 0]`, pass 1 of `optimize` collects the pair `(1, 2)` and
removes both, so that the consumer 4 reads tensor 10; yet the permutations are not
inverse (`perm[perm[0]] = 2`, and `areInverseTransposes` rejects them): permuting
the shape `[2, 3, 4]` twice gives `[4, 2, 3]`. -/
theorem optimize_removes_equal_permutations :
    collectRemove (graphTwoTransposes [1, 2, 0] [2, 3, 4])
        (graphTwoTransposes [1, 2, 0] [2, 3, 4]).ops = [(1, 2)] ∧
    (optimize (graphTwoTransposes [1, 2, 0] [2, 3, 4])).map (fun g1 =>
        (g1.ops, (g1.opAt 4).inputs)) = some ([4], [some 10]) ∧
    areSameTransposes [1, 2, 0] [1, 2, 0] = true ∧
    areInverseTransposes [1, 2, 0] [1, 2, 0] = false ∧
    ([1, 2, 0] : List Int).getD (([1, 2, 0] : List Int).getD 0 0).toNat 0 = 2 ∧
    (transposeInferShape [1, 2, 0] [some [2, 3, 4]]).bind
        (fun s => transposeInferShape [1, 2, 0] (s.map some)) = some [[4, 2, 3]] := by
  refine ⟨by decide, by decide, by decide, by decide, by decide, by decide⟩

/-- C28 (the code at the failing input): for the chain of three Transposes 1, 2, 3
of the same permutation followed by the consumer 4, pass 1 of `optimize` collects
`(1, 2)` and `(2, 3)`: the Transpose 2 is in both pairs.  When the second pair is
handled, 2 is no longer in `ops` (`ops` is `[3, 4]`).  In the end all three
Transposes are removed and the consumer 4 reads tensor 20, which had the producer
1 before and has no producer after; the graph input 10 is dropped from
`tensors`. -/
theorem optimize_collects_overlapping_pairs :
    collectRemove (graphThreeTransposes [1, 0]) (graphThreeTransposes [1, 0]).ops =
      [(1, 2), (2, 3)] ∧
    (removeLoop [(1, 2)] (graphThreeTransposes [1, 0])).map (fun g1 => g1.ops) =
      some [3, 4] ∧
    ((graphThreeTransposes [1, 0]).tensorAt 20).source = some 1 ∧
    (optimize (graphThreeTransposes [1, 0])).map (fun g1 =>
        (g1.ops, (g1.opAt 4).inputs, (g1.tensorAt 20).source, g1.tensors)) =
      some ([4], [some 20], none, [20, 50]) := by
  refine ⟨by decide, by decide, by decide, by decide⟩

end infini

namespace infini

/-! ## The fusion scenario -/

theorem fusion_collectRemove (g : GraphObj) (x t w y tr mm : Nat) (perm : List Int)
    (a : MatmulObj) (second : Bool) (h : FusionScene g x t w y tr mm perm a second) :
    collectRemove g g.ops = [] := by
  obtain ⟨hops, hne, hxt, hwt, hyt, hperm, ha, hi, ho, hp, hs, hma, hmi, hmo⟩ := h
  rcases hops with h1 | h1 <;>
    simp only [h1, collectRemove, ha, hs, findSameTranspose, hma]

theorem fusion_collectMerge (g : GraphObj) (x t w y tr mm : Nat) (perm : List Int)
    (a : MatmulObj) (second : Bool) (h : FusionScene g x t w y tr mm perm a second) :
    collectMerge g g.ops = [(tr, mm)] := by
  obtain ⟨hops, hne, hxt, hwt, hyt, hperm, ha, hi, ho, hp, hs, hma, hmi, hmo⟩ := h
  rcases hops with h1 | h1 <;>
    simp only [h1, collectMerge, ha, hs, findMergeTarget, hma, hperm, if_true]

theorem mergeRewire_spec (g : GraphObj) (mm : Nat) (old : Option Nat) (x tout : Nat)
    (hx : x ≠ tout) :
    ∃ g1, mergeRewire g mm old (some x) tout = some g1 ∧
      g1.ops = g.ops ∧ g1.tensors = g.tensors ∧
      (∀ q, q ≠ mm → g1.opAt q = g.opAt q) ∧
      g1.opAt mm = (g.opAt mm).replaceInput old (some x) ∧
      mm ∈ (g1.tensorAt x).targets := by
  refine ⟨_, rfl, rfl, rfl, ?_, ?_, ?_⟩
  · intro q hq
    simp only [setTensor_opAt, setOp_opAt, if_neg hq]
  · simp only [setTensor_opAt, setOp_opAt, if_true]
  · simp only [setTensor_tensorAt, if_neg hx, if_true, setOp_tensorAt]
    exact ((addTarget_spec (g.tensorAt x) mm).2.2.2 mm).mpr (Or.inr rfl)

theorem fusion_merge (g : GraphObj) (x t w y tr mm : Nat) (perm : List Int)
    (a : MatmulObj) (second : Bool) (h : FusionScene g x t w y tr mm perm a second) :
    ∃ g1, mergeTransposeToMatmul g tr mm = some g1 ∧
      g1.ops = g.ops ∧ g1.tensors = g.tensors ∧
      g1.opAt tr = g.opAt tr ∧
      (g1.opAt mm).inputs = (if second then [some w, some x] else [some x, some w]) ∧
      (g1.opAt mm).outputs = [some y] ∧
      (g1.opAt mm).attrs =
        OpAttrs.matmul (if second then { a with transB := true } else { a with transA := true }) ∧
      mm ∈ (g1.tensorAt x).targets := by
  obtain ⟨hops, hne, hxt, hwt, hyt, hperm, ha, hi, ho, hp, hs, hma, hmi, hmo⟩ := h
  have hwt2 : ¬ (some t = some w) := fun hc => hwt (Option.some.inj hc).symm
  have hwt3 : ¬ (some w = some t) := fun hc => hwt (Option.some.inj hc)
  cases second with
  | false =>
    simp only [Bool.false_eq_true, if_false] at hmi ⊢
    obtain ⟨g1, hg1, e1, e2, e3, e4, e5⟩ := mergeRewire_spec
      (g.setOp mm ((g.opAt mm).setTransA true)) mm (some t) x t hxt
    refine ⟨g1, ?_, e1, e2, ?_, ?_, ?_, ?_, e5⟩
    · simp only [mergeTransposeToMatmul, ha, hma, hi, hmi, OperatorObj.getOutput, ho, if_true]
      exact hg1
    · rw [e3 tr hne, setOp_opAt, if_neg hne]
    · rw [e4, setOp_opAt, if_pos rfl]
      simp only [OperatorObj.replaceInput, OperatorObj.setTransA, hma, hmi, List.map_cons,
        List.map_nil, if_true, if_neg hwt3]
    · rw [e4, setOp_opAt, if_pos rfl]
      simp only [OperatorObj.replaceInput, OperatorObj.setTransA, hma, hmo]
    · rw [e4, setOp_opAt, if_pos rfl]
      simp only [OperatorObj.replaceInput, OperatorObj.setTransA, hma]
  | true =>
    simp only [if_true] at hmi ⊢
    obtain ⟨g1, hg1, e1, e2, e3, e4, e5⟩ := mergeRewire_spec
      (g.setOp mm ((g.opAt mm).setTransB true)) mm (some t) x t hxt
    refine ⟨g1, ?_, e1, e2, ?_, ?_, ?_, ?_, e5⟩
    · simp only [mergeTransposeToMatmul, ha, hma, hi, hmi, OperatorObj.getOutput, ho, if_true,
        if_neg hwt2]
      exact hg1
    · rw [e3 tr hne, setOp_opAt, if_neg hne]
    · rw [e4, setOp_opAt, if_pos rfl]
      simp only [OperatorObj.replaceInput, OperatorObj.setTransB, hma, hmi, List.map_cons,
        List.map_nil, if_true, if_neg hwt3]
    · rw [e4, setOp_opAt, if_pos rfl]
      simp only [OperatorObj.replaceInput, OperatorObj.setTransB, hma, hmo]
    · rw [e4, setOp_opAt, if_pos rfl]
      simp only [OperatorObj.replaceInput, OperatorObj.setTransB, hma]

theorem fusion_removeOperator (g : GraphObj) (x t tr mm : Nat) (hxt : x ≠ t)
    (hi : (g.opAt tr).inputs = [some x]) (ho : (g.opAt tr).outputs = [some t])
    (hp : (g.opAt tr).predecessors = []) (hs : (g.opAt tr).successors = [mm]) :
    (removeOperator g tr).ops = g.ops.erase tr ∧
    (removeOperator g tr).tensors = g.tensors ∧
    ((removeOperator g tr).opAt mm).inputs = (g.opAt mm).inputs ∧
    ((removeOperator g tr).opAt mm).outputs = (g.opAt mm).outputs ∧
    ((removeOperator g tr).opAt mm).attrs = (g.opAt mm).attrs ∧
    ((removeOperator g tr).tensorAt x).targets =
      (g.tensorAt x).targets.filter (fun q => decide (q ≠ tr)) := by
  simp only [removeOperator, removeTargets, clearSources, unlinkPredecessors,
    unlinkSuccessors, setTensor_opAt, setOp_opAt, hi, ho, hp, hs]
  refine ⟨rfl, rfl, ?_, ?_, ?_, ?_⟩
  · simp only [setOp_opAt, if_true, setTensor_opAt, OperatorObj.removePredecessors]
  · simp only [setOp_opAt, if_true, setTensor_opAt, OperatorObj.removePredecessors]
  · simp only [setOp_opAt, if_true, setTensor_opAt, OperatorObj.removePredecessors]
  · simp only [setOp_tensorAt, setTensor_tensorAt, if_neg hxt, if_true, TensorNode.setSource,
      TensorNode.removeTarget]

/-- C23: in a graph that consists of a Transpose `tr` of a permutation accepted by
`isLastTwoDimsSwap`, reading tensor `x` and producing tensor `t`, and a Matmul `mm`
consuming `t` as operand 0 (as operand 1 when `second` is set) with another tensor
`w` as the other operand, `optimize` returns a graph in which `tr` is not in `ops`,
the input of `mm` at that position is `x`, the targets of `x` contain `mm` and not
`tr`, the flag `transA` (`transB` when `second` is set) of `mm` is true and `t` is
not in `tensors`. -/
theorem optimize_fuses_transpose (g : GraphObj) (x t w y tr mm : Nat) (perm : List Int)
    (a : MatmulObj) (second : Bool) (h : FusionScene g x t w y tr mm perm a second) :
    ∃ g1, optimize g = some g1 ∧
      tr ∉ g1.ops ∧ g1.ops = [mm] ∧
      (g1.opAt mm).inputs = (if second then [some w, some x] else [some x, some w]) ∧
      mm ∈ (g1.tensorAt x).targets ∧ tr ∉ (g1.tensorAt x).targets ∧
      (g1.opAt mm).attrs =
        OpAttrs.matmul (if second then { a with transB := true } else { a with transA := true }) ∧
      t ∉ g1.tensors := by
  have hcr := fusion_collectRemove g x t w y tr mm perm a second h
  have hcm := fusion_collectMerge g x t w y tr mm perm a second h
  obtain ⟨gM, hgM, m1, m2, m3, m4, m5, m6, m7⟩ := fusion_merge g x t w y tr mm perm a second h
  obtain ⟨hops, hne, hxt, hwt, hyt, hperm, ha, hi, ho, hp, hs, hma, hmi, hmo⟩ := h
  obtain ⟨r1, r2, r3, r4, r5, r6⟩ := fusion_removeOperator gM x t tr mm hxt
    (by rw [m3]; exact hi) (by rw [m3]; exact ho) (by rw [m3]; exact hp) (by rw [m3]; exact hs)
  have hopsR : (removeOperator gM tr).ops = [mm] := by
    rw [r1, m1]
    rcases hops with h1 | h1
    · rw [h1]; simp
    · rw [h1]; simp [hne, Ne.symm hne]
  have hopt : optimize g = some (cleanupUnusedTensors (removeOperator gM tr)) := by
    simp only [optimize, hcr, removeLoop, hcm, mergeLoop, hgM]
  refine ⟨_, hopt, ?_, hopsR, ?_, ?_, ?_, ?_, ?_⟩
  · show tr ∉ (removeOperator gM tr).ops
    rw [hopsR]
    simpa using hne
  · show ((removeOperator gM tr).opAt mm).inputs = _
    rw [r3, m4]
  · show mm ∈ ((removeOperator gM tr).tensorAt x).targets
    rw [r6, List.mem_filter]
    exact ⟨m7, by simpa using Ne.symm hne⟩
  · show tr ∉ ((removeOperator gM tr).tensorAt x).targets
    rw [r6, List.mem_filter]
    intro hc
    simpa using hc.2
  · show ((removeOperator gM tr).opAt mm).attrs = _
    rw [r5, m6]
  · show t ∉ (cleanupUnusedTensors (removeOperator gM tr)).tensors
    unfold cleanupUnusedTensors
    simp only [List.mem_filter, hopsR, List.any_cons, List.any_nil, Bool.or_false, r3, r4, m4,
      m5, Bool.or_eq_true, decide_eq_true_eq, not_and, not_or]
    intro _
    constructor
    · cases second
      · simp [Ne.symm hxt, Ne.symm hwt]
      · simp [Ne.symm hxt, Ne.symm hwt]
    · simp [Ne.symm hyt]

theorem optimize_fuses_transpose_witness :
    FusionScene (graphFusion [1, 0] { transA := false, transB := false, m := 0, n := 0, k := 0 }
        [2, 3] [3, 2] [3, 5]) 10 20 30 40 2 3 [1, 0]
      { transA := false, transB := false, m := 0, n := 0, k := 0 } false ∧
    (optimize (graphFusion [1, 0] { transA := false, transB := false, m := 0, n := 0, k := 0 }
        [2, 3] [3, 2] [3, 5])).map (fun g1 =>
        (g1.ops, g1.tensors, (g1.opAt 3).inputs, (g1.tensorAt 10).targets, (g1.opAt 3).attrs)) =
      some ([3], [10, 30, 40], [some 10, some 30], [3],
        OpAttrs.matmul { transA := true, transB := false, m := 0, n := 0, k := 0 }) ∧
    ∃ g1, optimize (graphFusion [1, 0]
        { transA := false, transB := false, m := 0, n := 0, k := 0 } [2, 3] [3, 2] [3, 5]) =
        some g1 ∧
      2 ∉ g1.ops ∧ g1.ops = [3] ∧
      (g1.opAt 3).inputs = (if false = true then [some 30, some 10] else [some 10, some 30]) ∧
      3 ∈ (g1.tensorAt 10).targets ∧ 2 ∉ (g1.tensorAt 10).targets ∧
      (g1.opAt 3).attrs =
        OpAttrs.matmul (if false = true then
          { transA := false, transB := true, m := 0, n := 0, k := 0 }
          else { transA := true, transB := false, m := 0, n := 0, k := 0 }) ∧
      20 ∉ g1.tensors :=
  ⟨by unfold FusionScene; decide, rfl,
    optimize_fuses_transpose _ 10 20 30 40 2 3 [1, 0]
      { transA := false, transB := false, m := 0, n := 0, k := 0 } false
      (by unfold FusionScene; decide)⟩

end infini

namespace infini

/-! ## `checkValid` and the insertion of operators -/

theorem Valid_iff_links (g : GraphObj) :
    Valid g ↔ (ValidLinks g ∧ ∀ t ∈ g.tensors, ¬ Orphan g t) := by
  unfold Valid ValidLinks Orphan
  constructor
  · rintro ⟨v1, v2, v3⟩
    exact ⟨⟨fun t ht => ⟨(v1 t ht).2.1, (v1 t ht).2.2⟩, v2, v3⟩, fun t ht => (v1 t ht).1⟩
  · rintro ⟨⟨l1, l2, l3⟩, ho⟩
    exact ⟨fun t ht => ⟨ho t ht, (l1 t ht).1, (l1 t ht).2⟩, l2, l3⟩

end infini

namespace infini

end infini

namespace infini

end infini

namespace infini

/-! ## Links of the graphs made by the public operations -/

end infini

namespace infini

end infini

namespace infini

end infini

namespace infini

/-! ## `GraphObj::removeOperator` and the links of the removed operator -/

theorem graphTwoProducers_built : Built graphTwoProducers := by
  unfold graphTwoProducers
  refine Built.addOpWithOutputs _ _ _ _ (Built.addOpWithOutputs _ _ _ _
    (Built.addOpWithOutputs _ _ _ _ (Built.addTensor _ _ _ (Built.addTensor _ _ _
      (Built.addTensor _ _ _ (Built.addTensor _ _ _ (Built.addTensor _ _ _
        (Built.init _ rfl rfl (fun _ => ⟨rfl, rfl⟩))))))) ?_) ?_) ?_
  · decide
  · decide
  · decide

theorem graphUnsorted_built : Built graphUnsorted := by
  unfold graphUnsorted
  refine Built.addOpWithOutputs _ _ _ _ ?_ (by decide)
  refine Built.addOpWithOutputs _ _ _ _ ?_ (by decide)
  refine Built.addOpWithOutputs _ _ _ _ ?_ (by decide)
  refine Built.addOpWithOutputs _ _ _ _ ?_ (by decide)
  refine Built.addOpWithOutputs _ _ _ _ ?_ (by decide)
  refine Built.addOpWithOutputs _ _ _ _ ?_ (by decide)
  refine Built.addOpWithOutputs _ _ _ _ ?_ (by decide)
  refine Built.addTensor _ _ _ (Built.addTensor _ _ _ (Built.addTensor _ _ _
    (Built.addTensor _ _ _ ?_)))
  refine Built.addTensor _ _ _ (Built.addTensor _ _ _ (Built.addTensor _ _ _
    (Built.addTensor _ _ _ ?_)))
  exact Built.init _ rfl rfl (fun _ => ⟨rfl, rfl⟩)

end infini
